import Mathlib

/-!
Assessment Explanation Engine of the NEXIS front end.

A verification development over `frontend/src/App.jsx`.

JavaScript strings are modelled as `List Char` (`Str`).  All prefixes, patterns and
separators used by the modelled code are single UTF-16 code units, and no code here
indexes into a string or reads its length, so working with Unicode scalar values
instead of UTF-16 code units does not change any result on well-formed strings.
-/

namespace Nexis

/-- A JavaScript string value. -/
abbrev Str := List Char

/-! ## Character classes of ECMAScript -/

/-- ECMAScript `WhiteSpace` and `LineTerminator` code points: what `String.prototype.trim`
strips and what `\s` matches. -/
def isWhiteSpace (c : Char) : Bool :=
  let n := c.toNat
  n == 0x09 || n == 0x0A || n == 0x0B || n == 0x0C || n == 0x0D || n == 0x20 ||
  n == 0xA0 || n == 0x1680 || (0x2000 ≤ n && n ≤ 0x200A) || n == 0x2028 ||
  n == 0x2029 || n == 0x202F || n == 0x205F || n == 0x3000 || n == 0xFEFF

/-- ECMAScript `LineTerminator` code points: what `.` refuses to match. -/
def isLineTerminator (c : Char) : Bool :=
  let n := c.toNat
  n == 0x0A || n == 0x0D || n == 0x2028 || n == 0x2029

/-- The class `\d`. -/
def isDigit (c : Char) : Bool :=
  let n := c.toNat
  0x30 ≤ n && n ≤ 0x39

/-- The class `[A-Z]`. -/
def isUpperAZ (c : Char) : Bool :=
  let n := c.toNat
  0x41 ≤ n && n ≤ 0x5A

/-- The class `.` (no `s` flag). -/
def isDot (c : Char) : Bool := !isLineTerminator c

/-- The class `[^\n]`. -/
def isNotNewline (c : Char) : Bool := !(c.toNat == 0x0A)

/-- The class `[₹$]`. -/
def isCurrencySign (c : Char) : Bool :=
  let n := c.toNat
  n == 0x20B9 || n == 0x24

/-- Upper-casing restricted to `a`..`z`.  For a pattern character that is an ASCII letter,
an ASCII symbol, a digit or `₹`, the `Canonicalize` operation of a non-unicode `i` regex
identifies it with exactly the characters this function identifies it with (a character
at or above U+0080 is never folded onto an ASCII one). -/
def asciiUpper (c : Char) : Char :=
  if 0x61 ≤ c.toNat ∧ c.toNat ≤ 0x7A then Char.ofNat (c.toNat - 0x20) else c

/-! ## String operations -/

/-- `s.trimStart()`. -/
def trimStart (s : Str) : Str := s.dropWhile isWhiteSpace

/-- `s.trimEnd()`. -/
def trimEnd (s : Str) : Str := (s.reverse.dropWhile isWhiteSpace).reverse

/-- `s.trim()`. -/
def trim (s : Str) : Str := trimEnd (trimStart s)

/-- `s.startsWith(p)`. -/
def startsWith (s p : Str) : Bool := p.isPrefixOf s

/-- `s.includes(p)`. -/
def includes : Str → Str → Bool
  | [], p => p.isEmpty
  | c :: s, p => p.isPrefixOf (c :: s) || includes s p

/-- `s.split(sep)` for a one-character separator. -/
def split (sep : Char) : Str → List Str
  | [] => [[]]
  | c :: s =>
    if c = sep then [] :: split sep s
    else match split sep s with
      | [] => [[c]]
      | l :: ls => (c :: l) :: ls

/-- `s.replace(pat, rep)` for a string pattern: only the first occurrence is replaced.
The replacement strings used by the modelled code contain no `$`. -/
def replace (pat rep : Str) : Str → Str
  | [] => if pat.isEmpty then rep else []
  | c :: s => if pat.isPrefixOf (c :: s) then rep ++ (c :: s).drop pat.length
              else c :: replace pat rep s

/-- The integer a string of decimal digits denotes. -/
def digitsValue (s : Str) : Nat :=
  s.foldl (fun acc c => 10 * acc + (c.toNat - 0x30)) 0

/-- How many times `n` must be halved to come below `2^53`: the number of binary digits of
`n` beyond the 53 that the significand of a double holds.  `fuel` bounds the halvings; `n`
itself is always enough. -/
def excessBits : Nat → Nat → Nat
  | 0, _ => 0
  | fuel + 1, n => if n < 2 ^ 53 then 0 else excessBits fuel (n / 2) + 1

/-- The Number value of a non-negative integer `n`: `n` itself below `2^53`; above, the
nearest double, a tie going to the even significand; and `Infinity` (`⊤`) when that
rounding reaches `2^1024`, written `(2^128)^8`. -/
def numberValue (n : Nat) : ENat :=
  if n < 2 ^ 53 then (n : ENat)
  else
    let e := excessBits n n
    let q := n / 2 ^ e
    let r := n % 2 ^ e
    let q1 := if 2 ^ e < 2 * r ∨ (2 * r = 2 ^ e ∧ q % 2 = 1) then q + 1 else q
    if (2 ^ 128) ^ 8 ≤ q1 * 2 ^ e then ⊤ else ((q1 * 2 ^ e : Nat) : ENat)

/-- `parseInt(s)` for a non-empty string of decimal digits (the only strings the modelled
code passes): the Number value of the integer the digits denote.  The whole digit run is
converted, as the engines do; the standard also lets an implementation read the digits
after the twentieth as zeros. -/
def parseInt (s : Str) : ENat :=
  numberValue (digitsValue s)

/-! ## Regular expressions

A backtracking matcher in the style of the ECMAScript specification: `run` lists every way
a pattern can match at the start of the input, in the priority order in which the
backtracking matcher tries them, so the head of the list is the match the engine reports. -/

/-- Abstract syntax of the patterns used by the modelled code. -/
inductive Re where
  /-- A pattern character. -/
  | chr (c : Char)
  /-- A character class. -/
  | cls (p : Char → Bool)
  /-- The empty pattern. -/
  | eps
  /-- Concatenation. -/
  | seq (a b : Re)
  /-- Alternation `a|b`. -/
  | alt (a b : Re)
  /-- Greedy `a*`. -/
  | star (a : Re)
  /-- A capturing group `(a)`. -/
  | grp (a : Re)

namespace Re

/-- Greedy `a+`. -/
def plus (a : Re) : Re := seq a (star a)

/-- Greedy `a?`. -/
def opt (a : Re) : Re := alt a eps

/-- A literal string. -/
def lit (s : Str) : Re := s.foldr (fun c r => seq (chr c) r) eps

/-- Concatenation of a list of patterns. -/
def cat (rs : List Re) : Re := rs.foldr seq eps

/-- Alternation of a non-empty list of patterns, in order. -/
def alts : List Re → Re
  | [] => eps
  | [r] => r
  | r :: rs => alt r (alts rs)

end Re

/-- The text consumed between input `s` and the remaining input `rest`. -/
def consumed (s rest : Str) : Str := s.take (s.length - rest.length)

/-- Greedy iteration of a one-step matcher.  An iteration that consumes nothing is
rejected, as in the `RepeatMatcher` of the specification; `fuel` bounds the number of
iterations and the input length is always enough. -/
def starAux (step : Str → List (List Str × Str)) : Nat → Str → List (List Str × Str)
  | 0, s => [([], s)]
  | fuel + 1, s =>
    (((step s).filter (fun m => decide (m.2.length < s.length))).flatMap
      (fun m => starAux step fuel m.2)) ++ [([], s)]

/-- All matches of a pattern at the start of the input, in backtracking priority order:
the captured groups in order, and the remaining input.  `ic` is the `i` flag.
No pattern of the modelled code has a capturing group under a quantifier, so the captures
made inside a `star` are dropped. -/
def Re.run (ic : Bool) : Re → Str → List (List Str × Str)
  | .chr c => fun s =>
    match s with
    | [] => []
    | d :: t => if (if ic then asciiUpper d == asciiUpper c else d == c) then [([], t)] else []
  | .cls p => fun s =>
    match s with
    | [] => []
    | d :: t => if p d then [([], t)] else []
  | .eps => fun s => [([], s)]
  | .seq a b => fun s =>
    (a.run ic s).flatMap (fun m => (b.run ic m.2).map (fun m2 => (m.1 ++ m2.1, m2.2)))
  | .alt a b => fun s => a.run ic s ++ b.run ic s
  | .star a => fun s => starAux (a.run ic) s.length s
  | .grp a => fun s => (a.run ic s).map (fun m => (consumed s m.2 :: m.1, m.2))

/-- `RegExp.prototype.exec` from index 0: the leftmost match, as the array
`[whole match, group 1, group 2, ...]`. -/
def Re.exec (ic : Bool) (r : Re) : Str → Option (List Str)
  | [] =>
    match (r.run ic []).head? with
    | some m => some (consumed [] m.2 :: m.1)
    | none => none
  | c :: s =>
    match (r.run ic (c :: s)).head? with
    | some m => some (consumed (c :: s) m.2 :: m.1)
    | none => r.exec ic s

/-! ## ValueExtractor: `extractDataValue` (App.jsx, lines 83-98) -/

/-- The pattern `\d+(?:,\d{3})*(?:\.\d+)?`: a number with optional thousands separators
and decimals. -/
def numberRe : Re :=
  .cat [.plus (.cls isDigit),
        .star (.cat [.chr ',', .cls isDigit, .cls isDigit, .cls isDigit]),
        .opt (.seq (.chr '.') (.plus (.cls isDigit)))]

/-- The alternation `months?|years?|transactions?|%|₹|rupees?|\$`. -/
def unitRe : Re :=
  .alts [.seq (.lit "month".toList) (.opt (.chr 's')),
         .seq (.lit "year".toList) (.opt (.chr 's')),
         .seq (.lit "transaction".toList) (.opt (.chr 's')),
         .chr '%',
         .chr '₹',
         .seq (.lit "rupee".toList) (.opt (.chr 's')),
         .chr '$']

/-- Pattern 1: `/(\d+(?:,\d{3})*(?:\.\d+)?)\s*(months?|years?|transactions?|%|₹|rupees?|\$)/gi`. -/
def pattern1 : Re :=
  .cat [.grp numberRe, .star (.cls isWhiteSpace), .grp unitRe]

/-- Pattern 2: `/(\d+(?:\.\d+)?%)/gi`. -/
def pattern2 : Re :=
  .grp (.cat [.plus (.cls isDigit), .opt (.seq (.chr '.') (.plus (.cls isDigit))), .chr '%'])

/-- Pattern 3: `/([₹$]\s*\d+(?:,\d{3})*(?:\.\d+)?)/gi`. -/
def pattern3 : Re :=
  .grp (.cat [.cls isCurrencySign, .star (.cls isWhiteSpace), numberRe])

/-- The array `patterns`, in declared order. -/
def patterns : List Re := [pattern1, pattern2, pattern3]

/-- The loop `for (const pattern of patterns)`.  `description.match(pattern)` with the `g`
flag returns the array of all whole matches, whose element 0 is the leftmost match, the
whole match that `exec` reports; `match && match[0]` rejects an empty match. -/
def extractLoop (description : Str) : List Re → Option Str
  | [] => none
  | pattern :: rest =>
    match pattern.exec true description with
    | some (m0 :: _) => if m0 ≠ [] then some m0 else extractLoop description rest
    | _ => extractLoop description rest

/-- `extractDataValue(description)`; `none` is `null`. -/
def extractDataValue (description : Str) : Option Str :=
  extractLoop description patterns

/-! ## DescriptionParser: `parseRuleDescription` (App.jsx, lines 101-156) -/

/-- The object `parsed`; `none` is `null`. -/
structure ParsedRule where
  ruleId : Option Str
  ruleName : Option Str
  yourValue : Option Str
  requiredThreshold : Option Str
  status : Option Str
  explanation : List Str
  insight : Option Str
  deriving DecidableEq, Repr

/-- The initial value of `parsed`. -/
def ParsedRule.init : ParsedRule :=
  { ruleId := none, ruleName := none, yourValue := none, requiredThreshold := none,
    status := none, explanation := [], insight := none }

/-- The pattern `/Rule ([A-Z]\d+):\s*(.+)/`. -/
def ruleHeaderRe : Re :=
  .cat [.lit "Rule ".toList, .grp (.seq (.cls isUpperAZ) (.plus (.cls isDigit))), .chr ':',
        .star (.cls isWhiteSpace), .grp (.plus (.cls isDot))]

/-- Truthiness of a value that is `null` or a string: a non-empty string. -/
def truthy : Option Str → Bool
  | some (_ :: _) => true
  | _ => false

/-- One iteration of the loop over `lines`, on `lines[i]`. -/
def parseLine (parsed : ParsedRule) (rawLine : Str) : ParsedRule :=
  let line := trim rawLine
  -- Extract Rule ID and Name
  let parsed :=
    if startsWith line "Rule ".toList then
      match ruleHeaderRe.exec false line with
      | some [_, g1, g2] => { parsed with ruleId := some g1, ruleName := some g2 }
      | _ => parsed
    else parsed
  -- Extract Your Value
  let parsed :=
    if startsWith line "Your Value:".toList then
      { parsed with yourValue := some (trim (replace "Your Value:".toList [] line)) }
    else parsed
  -- Extract Required Threshold
  let parsed :=
    if startsWith line "Required Threshold:".toList then
      { parsed with
        requiredThreshold := some (trim (replace "Required Threshold:".toList [] line)) }
    else parsed
  -- Extract Status
  let parsed :=
    if startsWith line "Status:".toList then
      { parsed with status := some (trim (replace "Status:".toList [] line)) }
    else parsed
  -- Extract explanation (lines after status, before insight)
  let parsed :=
    if truthy parsed.status && !startsWith line "Rule ".toList &&
        !startsWith line "Your Value:".toList &&
        !startsWith line "Required Threshold:".toList && !startsWith line "Status:".toList &&
        !startsWith line "Based on documented".toList then
      { parsed with explanation := parsed.explanation ++ [line] }
    else parsed
  -- Extract insight (starts with "Based on documented")
  if startsWith line "Based on documented".toList then
    { parsed with insight := some line }
  else parsed

/-- The array `lines`: `description.split('\n').filter(line => line.trim())`. -/
def descriptionLines (description : Str) : List Str :=
  (split '\n' description).filter (fun line => !(trim line).isEmpty)

/-- `parseRuleDescription(description)`.  The argument is `none` for `undefined` or `null`;
the result is `none` for `null`. -/
def parseRuleDescription (description : Option Str) : Option ParsedRule :=
  match description with
  | none => none
  | some [] => none
  | some (c :: s) => some ((descriptionLines (c :: s)).foldl parseLine ParsedRule.init)

/-! ## ScoreClassifier: the `Dashboard` band label and summary (App.jsx, lines 635-684)
and `ScoreGauge.getGradientColors` (lines 193-198) -/

/-- The value returned by `getGradientColors`. -/
structure GradientColors where
  id : Str
  start : Str
  mid : Str
  «end» : Str
  deriving DecidableEq, Repr

/-- `getGradientColors(score)`. -/
def getGradientColors (score : Int) : GradientColors :=
  if score ≥ 850 then
    { id := "exceptional".toList, start := "#10b981".toList, mid := "#059669".toList,
      «end» := "#047857".toList }
  else if score ≥ 700 then
    { id := "strong".toList, start := "#3b82f6".toList, mid := "#2563eb".toList,
      «end» := "#1d4ed8".toList }
  else if score ≥ 550 then
    { id := "developing".toList, start := "#f59e0b".toList, mid := "#d97706".toList,
      «end» := "#b45309".toList }
  else
    { id := "building".toList, start := "#ef4444".toList, mid := "#dc2626".toList,
      «end» := "#b91c1c".toList }

/-- The text shown after `Assessment Band: ` (line 640). -/
def bandLabel (score : Int) : Str :=
  if score ≥ 850 then "Exceptional (850–900)".toList
  else if score ≥ 700 then "Strong (700–849)".toList
  else if score ≥ 550 then "Developing (550–699)".toList
  else "Building (420–549)".toList

/-- The colour class of the band label (lines 635-639). -/
def bandLabelColor (score : Int) : Str :=
  if score ≥ 850 then "text-emerald-600".toList
  else if score ≥ 700 then "text-blue-600".toList
  else if score ≥ 550 then "text-amber-600".toList
  else "text-red-600".toList

/-- The assessment-summary paragraphs rendered under the risk badge (lines 654-684): four
blocks, each rendered when its own condition holds, in source order. -/
def assessmentSummary (score : Int) : List Str :=
  (if score ≥ 850 then
    ["Exceptional Assessment – All documented behavioral rules satisfied with sustained excellence".toList]
   else []) ++
  (if score ≥ 700 ∧ score < 850 then
    ["Strong Assessment – Majority of documented behavioral rules satisfied".toList]
   else []) ++
  (if score ≥ 550 ∧ score < 700 then
    ["Developing Assessment – Partial satisfaction of behavioral rules".toList]
   else []) ++
  (if score < 550 then
    ["Building Assessment – Early-stage rule documentation".toList]
   else [])

/-! ## RuleReconciler: `ExplainabilityDetail` (App.jsx, lines 861-983 and 1069-1147) -/

/-- An entry of `allRules`. -/
structure RuleDefinition where
  id : Str
  category : Str
  name : Str
  description : Str
  threshold : Str
  maxPoints : Nat
  rationale : Str
  color : Str
  deriving DecidableEq, Repr

/-- The array `allRules` (lines 862-983). -/
def allRules : List RuleDefinition := [
  { id := "A1".toList, category := "Payment Discipline".toList, name := "Utility Payment Consistency".toList,
    description := "Evaluates on-time payment history for utility bills (electricity, water, gas) over consecutive months.".toList,
    threshold := "12+ consecutive months of on-time payments".toList, maxPoints := 40,
    rationale := "Consistent utility payments demonstrate financial responsibility and payment discipline.".toList,
    color := "blue".toList },
  { id := "A2".toList, category := "Payment Discipline".toList, name := "Payment Reliability Score".toList,
    description := "Measures the percentage of all bills paid on time across all payment categories.".toList,
    threshold := "75%+ on-time payment rate".toList, maxPoints := 35,
    rationale := "High payment reliability indicates strong commitment to meeting financial obligations.".toList,
    color := "blue".toList },
  { id := "A3".toList, category := "Payment Discipline".toList, name := "Rent Payment History".toList,
    description := "Tracks timely rent payments through digital channels over consecutive months.".toList,
    threshold := "12+ consecutive months of on-time rent".toList, maxPoints := 35,
    rationale := "Regular rent payments show housing stability and financial commitment.".toList,
    color := "blue".toList },
  { id := "B1".toList, category := "Financial Engagement".toList, name := "Digital Transaction Activity".toList,
    description := "Counts monthly digital transactions including UPI, mobile wallets, and online payments.".toList,
    threshold := "20+ transactions per month".toList, maxPoints := 25,
    rationale := "Active digital engagement indicates financial literacy and modern banking habits.".toList,
    color := "purple".toList },
  { id := "B2".toList, category := "Financial Engagement".toList, name := "Transaction Regularity".toList,
    description := "Measures consistency of transaction patterns month-over-month.".toList,
    threshold := "Coefficient of variation < 0.5".toList, maxPoints := 20,
    rationale := "Regular transaction patterns suggest stable financial behavior.".toList,
    color := "purple".toList },
  { id := "B3".toList, category := "Financial Engagement".toList, name := "Mobile Recharge Consistency".toList,
    description := "Evaluates timely mobile/data recharge patterns over consecutive months.".toList,
    threshold := "90%+ on-time recharge rate".toList, maxPoints := 20,
    rationale := "Consistent mobile recharges indicate financial planning and priority management.".toList,
    color := "purple".toList },
  { id := "C1".toList, category := "Financial Stability".toList, name := "Spending Stability".toList,
    description := "Analyzes volatility in monthly spending patterns using standard deviation.".toList,
    threshold := "Spending volatility < 30%".toList, maxPoints := 30,
    rationale := "Stable spending patterns indicate financial control and budget discipline.".toList,
    color := "green".toList },
  { id := "C2".toList, category := "Financial Stability".toList, name := "Savings Discipline".toList,
    description := "Measures regular savings deposits and maintenance of minimum balance.".toList,
    threshold := "Monthly savings rate ≥ 10% of income".toList, maxPoints := 30,
    rationale := "Regular savings demonstrate financial planning and future orientation.".toList,
    color := "green".toList },
  { id := "C3".toList, category := "Financial Stability".toList, name := "Income Regularity".toList,
    description := "Evaluates consistency of income deposits over consecutive months.".toList,
    threshold := "Regular income for 6+ months".toList, maxPoints := 25,
    rationale := "Stable income indicates employment stability and repayment capacity.".toList,
    color := "green".toList },
  { id := "D1".toList, category := "Account Maturity".toList, name := "Account Tenure".toList,
    description := "Measures the age of the oldest active financial account.".toList,
    threshold := "18+ months account history".toList, maxPoints := 30,
    rationale := "Longer account history provides more reliable behavioral data.".toList,
    color := "amber".toList },
  { id := "D2".toList, category := "Account Maturity".toList, name := "Financial History Depth".toList,
    description := "Evaluates the completeness and depth of documented financial behavior.".toList,
    threshold := "12+ months of complete data".toList, maxPoints := 25,
    rationale := "Comprehensive financial history enables accurate assessment.".toList,
    color := "amber".toList },
  { id := "D3".toList, category := "Account Maturity".toList, name := "Behavioral Consistency Score".toList,
    description := "Measures consistency of positive financial behaviors over time.".toList,
    threshold := "Consistency score ≥ 0.8".toList, maxPoints := 25,
    rationale := "Sustained positive behavior indicates reliable financial character.".toList,
    color := "amber".toList } ]

/-- The values of a factor's `type`: the three string literals `'positive'`, `'neutral'`
and `'negative'` that the code compares it with (lines 1042-1050, 1075-1076). -/
inductive FactorType where
  | positive
  | neutral
  | negative
  deriving DecidableEq, Repr

/-- An element of `userData.factors`, as sent by the scoring service.  `title` and
`description` are read through optional chaining, so they may be missing (`none`). -/
structure Factor where
  id : Str
  title : Option Str
  description : Option Str
  type : FactorType
  impact : Str
  icon : Str
  deriving DecidableEq, Repr

/-- The object `statusBadge`; `gap` is `none` when the property is not set. -/
structure StatusBadge where
  text : Str
  bgColor : Str
  textColor : Str
  tooltip : Str
  currentValue : Str
  requiredValue : Str
  progress : ENat
  gap : Option Str
  deriving DecidableEq

/-- The pattern `/Your Value:\s*([^\n]+)/i`. -/
def yourValueRe : Re :=
  .cat [.lit "Your Value:".toList, .star (.cls isWhiteSpace), .grp (.plus (.cls isNotNewline))]

/-- The pattern `/Status:\s*([^\n]+)/i`. -/
def statusRe : Re :=
  .cat [.lit "Status:".toList, .star (.cls isWhiteSpace), .grp (.plus (.cls isNotNewline))]

/-- The pattern `/(\d+)%/`. -/
def percentRe : Re :=
  .cat [.grp (.plus (.cls isDigit)), .chr '%']

/-- `x?.includes(name)` as a condition: false when `x` is missing. -/
def optIncludes (x : Option Str) (name : Str) : Bool :=
  match x with
  | some s => includes s name
  | none => false

/-- The predicate passed to `find` (line 1072). -/
def factorMatches (rule : RuleDefinition) (f : Factor) : Bool :=
  optIncludes f.title rule.name || optIncludes f.description rule.name

/-- The constant `userFactor` (lines 1071-1073). -/
def userFactor (factors : List Factor) (rule : RuleDefinition) : Option Factor :=
  factors.find? (factorMatches rule)

/-- The constant `currentValue` computed from `description` (lines 1093-1094). -/
def currentValueOf (description : Str) : Str :=
  match yourValueRe.exec true description with
  | some [_, g1] => trim g1
  | _ => "See details".toList

/-- The constant `statusText` computed from `description` (lines 1097-1098). -/
def statusTextOf (description : Str) : Str :=
  match statusRe.exec true description with
  | some [_, g1] => trim g1
  | _ => []

/-- The variable `progressPercent` after lines 1101-1112. -/
def progressPercentOf (description : Str) : ENat :=
  let statusText := statusTextOf description
  if includes statusText "✓".toList || includes statusText "Satisfied".toList then 100
  else if includes statusText "exceeds".toList || includes statusText "above".toList then 100
  else
    match percentRe.exec false description with
    | some [_, g1] => parseInt g1
    | _ => 50

/-- The value of `statusBadge` when the callback returns (lines 1079-1147). -/
def statusBadge (rule : RuleDefinition) (userFactor : Option Factor) : StatusBadge :=
  match userFactor with
  | none =>
    { text := "○ Not Evaluated".toList, bgColor := "bg-gray-100".toList,
      textColor := "text-gray-600".toList,
      tooltip := "This rule was not evaluated in your current assessment".toList,
      currentValue := "N/A".toList, requiredValue := rule.threshold, progress := 0,
      gap := none }
  | some f =>
    let description := f.description.getD []
    let currentValue := currentValueOf description
    let progressPercent := progressPercentOf description
    if f.type = FactorType.positive then
      { text := "✓ Satisfied".toList, bgColor := "bg-green-100".toList,
        textColor := "text-green-700".toList, tooltip := description,
        currentValue := currentValue, requiredValue := rule.threshold, progress := 100,
        gap := none }
    else if f.type = FactorType.neutral then
      { text := "◐ Partially Satisfied".toList, bgColor := "bg-amber-100".toList,
        textColor := "text-amber-700".toList, tooltip := description,
        currentValue := currentValue, requiredValue := rule.threshold,
        progress := progressPercent, gap := some "Additional progress needed".toList }
    else
      { text := "✗ Not Satisfied".toList, bgColor := "bg-red-100".toList,
        textColor := "text-red-700".toList, tooltip := description,
        currentValue := currentValue, requiredValue := rule.threshold,
        progress := progressPercent, gap := some "Requirements not met".toList }

/-- What the callback of `allRules.map` computes for one rule before rendering its card. -/
structure RuleCard where
  rule : RuleDefinition
  userFactor : Option Factor
  isEvaluated : Bool
  isSatisfied : Bool
  isPartial : Bool
  statusBadge : StatusBadge
  deriving DecidableEq

/-- The body of the callback of `allRules.map` (lines 1069-1147). -/
def ruleCard (factors : List Factor) (rule : RuleDefinition) : RuleCard :=
  let uf := userFactor factors rule
  { rule := rule
    userFactor := uf
    isEvaluated := uf.isSome
    isSatisfied := uf.map (fun f => decide (f.type = FactorType.positive)) == some true
    isPartial := uf.map (fun f => decide (f.type = FactorType.neutral)) == some true
    statusBadge := statusBadge rule uf }

/-- The reconciliation `catalog.map(rule => ...)`; the component calls it on `allRules`. -/
def reconcile (catalog : List RuleDefinition) (factors : List Factor) : List RuleCard :=
  catalog.map (ruleCard factors)

/-! ## Vocabulary of the statements -/

/-- Pattern `r` (with the `i` flag `ic`) has a match starting at the beginning of `t`. -/
def MatchesAt (ic : Bool) (r : Re) (t : Str) : Prop := r.run ic t ≠ []

/-- Pattern `r` matches nowhere in `d`. -/
def MatchesNowhere (ic : Bool) (r : Re) (d : Str) : Prop :=
  ∀ t, t <:+ d → r.run ic t = []

/-- The text `m` with captured groups `caps` is the leftmost match of `r` in `d`: `d` is
`pre ++ m ++ post`, the preferred match of `r` at `m ++ post` consumes exactly `m`, and `r`
has no match starting at an earlier position. -/
def LeftmostMatch (ic : Bool) (r : Re) (d m : Str) (caps : List Str) : Prop :=
  ∃ pre post tl, d = pre ++ (m ++ post) ∧ r.run ic (m ++ post) = (caps, post) :: tl ∧
    ∀ pre1 t, d = pre1 ++ t → pre1.length < pre.length → r.run ic t = []

/-- A pattern that cannot match the empty string, by its syntax. -/
def Re.consumes : Re → Bool
  | .chr _ => true
  | .cls _ => true
  | .eps => false
  | .seq a b => a.consumes || b.consumes
  | .alt a b => a.consumes && b.consumes
  | .star _ => false
  | .grp a => a.consumes

/-- The four score bands of the specification. -/
inductive Band where
  | building
  | developing
  | strong
  | exceptional
  deriving DecidableEq, Repr

/-- The classification the specification describes: thresholds 550, 700 and 850, a score
on a threshold going to the higher band. -/
def classify (s : Int) : Band :=
  if s < 550 then Band.building
  else if s < 700 then Band.developing
  else if s < 850 then Band.strong
  else Band.exceptional

/-- The band label the dashboard prints for each band. -/
def Band.label : Band → Str
  | .building => "Building (420–549)".toList
  | .developing => "Developing (550–699)".toList
  | .strong => "Strong (700–849)".toList
  | .exceptional => "Exceptional (850–900)".toList

/-- The assessment-summary paragraph the dashboard prints for each band. -/
def Band.summary : Band → Str
  | .building => "Building Assessment – Early-stage rule documentation".toList
  | .developing => "Developing Assessment – Partial satisfaction of behavioral rules".toList
  | .strong => "Strong Assessment – Majority of documented behavioral rules satisfied".toList
  | .exceptional =>
    "Exceptional Assessment – All documented behavioral rules satisfied with sustained excellence".toList

/-- The gauge gradient of each band. -/
def Band.gradientId : Band → Str
  | .building => "building".toList
  | .developing => "developing".toList
  | .strong => "strong".toList
  | .exceptional => "exceptional".toList

/-- A factor matches a rule: the rule's name is a contiguous part of the factor's title or
of its description. -/
def FactorMatchesRule (rule : RuleDefinition) (f : Factor) : Prop :=
  (∃ t, f.title = some t ∧ rule.name <:+: t) ∨
  (∃ t, f.description = some t ∧ rule.name <:+: t)

/-- A factor as the scoring service words it for rule A2 when the payment rate is 72.5%. -/
def decimalPercentFactor : Factor :=
  { id := "f2".toList
    title := some "Payment Reliability Score".toList
    description := some
      "Rule A2: Payment Reliability Score\nYour Value: 72.5%\nRequired Threshold: 75%+ on-time payment rate\nStatus: ✗ Not Met\nPayment reliability is below the documented threshold.".toList
    type := FactorType.negative
    impact := "High".toList
    icon := "AlertCircle".toList }

/-- A neutral factor for rule C2 whose description reports a percentage above 100. -/
def overHundredFactor : Factor :=
  { id := "f8".toList
    title := some "Savings Discipline".toList
    description := some
      "Rule C2: Savings Discipline\nYour Value: 150% of the monthly target\nRequired Threshold: Monthly savings rate ≥ 10% of income\nStatus: ◐ Partial".toList
    type := FactorType.neutral
    impact := "Medium".toList
    icon := "TrendingUp".toList }

/-- The preferred match of `r` at the start of `s` captures `caps` and leaves `rest`. -/
def Re.First (ic : Bool) (r : Re) (s : Str) (caps : List Str) (rest : Str) : Prop :=
  ∃ tl, r.run ic s = (caps, rest) :: tl

/-- `lines.join('\n')`. -/
def joinLines : List Str → Str
  | [] => []
  | [l] => l
  | l :: m :: ls => l ++ '\n' :: joinLines (m :: ls)

/-- The text `Rule <id>: <name>\nYour Value: <value>\nRequired Threshold: <threshold>\n`
`Status: <status>\n<explanation lines>\n<insight>` of the specification. -/
def wellFormedDescription (ruleId name value threshold status : Str)
    (explanation : List Str) (insight : Str) : Str :=
  joinLines
    (["Rule ".toList ++ ruleId ++ ": ".toList ++ name,
      "Your Value: ".toList ++ value,
      "Required Threshold: ".toList ++ threshold,
      "Status: ".toList ++ status] ++ explanation ++ [insight])

/-- The line starts with one of the five recognised prefixes. -/
def hasRecognisedPrefix (line : Str) : Bool :=
  startsWith line "Rule ".toList || startsWith line "Your Value:".toList ||
  startsWith line "Required Threshold:".toList || startsWith line "Status:".toList ||
  startsWith line "Based on documented".toList

/-- The A1 description of the specification, with its explanation line indented by two
blanks and a blank after its insight line. -/
def indentedDescription : Str :=
  wellFormedDescription "A1".toList "Utility Payment Consistency".toList "18 months".toList
    "12+ consecutive months".toList "✓ Satisfied".toList
    ["  Consistent payments show discipline.".toList]
    "Based on documented account history. ".toList

/-- The A1 description of the specification, with a carriage return inside the name. -/
def carriageReturnDescription : Str :=
  wellFormedDescription "A1".toList "Utility\rPayment".toList "18 months".toList
    "12+ consecutive months".toList "✓ Satisfied".toList
    ["Consistent payments show discipline.".toList]
    "Based on documented account history.".toList

/-- Among the lines `pre`, the last one that starts with `Status:` (once trimmed) exists and
carries a non-empty status text. -/
def StatusOpen (pre : List Str) : Prop :=
  ∃ a s b, pre = a ++ s :: b ∧ startsWith (trim s) "Status:".toList = true ∧
    trim (replace "Status:".toList [] (trim s)) ≠ [] ∧
    ∀ k ∈ b, startsWith (trim k) "Status:".toList = false

/-! The six `if` statements of the loop body of `parseRuleDescription`, one by one, on
the trimmed line; `parseLine` is their composition (`parseLine_eq_blocks`). -/

/-- The block `if (line.startsWith('Rule '))`. -/
def ruleHeaderBlock (line : Str) (parsed : ParsedRule) : ParsedRule :=
  if startsWith line "Rule ".toList then
    match ruleHeaderRe.exec false line with
    | some [_, g1, g2] => { parsed with ruleId := some g1, ruleName := some g2 }
    | _ => parsed
  else parsed

/-- The block `if (line.startsWith('Your Value:'))`. -/
def yourValueBlock (line : Str) (parsed : ParsedRule) : ParsedRule :=
  if startsWith line "Your Value:".toList then
    { parsed with yourValue := some (trim (replace "Your Value:".toList [] line)) }
  else parsed

/-- The block `if (line.startsWith('Required Threshold:'))`. -/
def requiredThresholdBlock (line : Str) (parsed : ParsedRule) : ParsedRule :=
  if startsWith line "Required Threshold:".toList then
    { parsed with
      requiredThreshold := some (trim (replace "Required Threshold:".toList [] line)) }
  else parsed

/-- The block `if (line.startsWith('Status:'))`. -/
def statusBlock (line : Str) (parsed : ParsedRule) : ParsedRule :=
  if startsWith line "Status:".toList then
    { parsed with status := some (trim (replace "Status:".toList [] line)) }
  else parsed

/-- The block `if (parsed.status && !line.startsWith(...) && ...)`. -/
def explanationBlock (line : Str) (parsed : ParsedRule) : ParsedRule :=
  if truthy parsed.status && !startsWith line "Rule ".toList &&
      !startsWith line "Your Value:".toList &&
      !startsWith line "Required Threshold:".toList && !startsWith line "Status:".toList &&
      !startsWith line "Based on documented".toList then
    { parsed with explanation := parsed.explanation ++ [line] }
  else parsed

/-- The block `if (line.startsWith('Based on documented'))`. -/
def insightBlock (line : Str) (parsed : ParsedRule) : ParsedRule :=
  if startsWith line "Based on documented".toList then
    { parsed with insight := some line }
  else parsed

/-- The text `s` starts with `p`, letter case of `a`-`z` aside. -/
def ciStartsWith (s p : Str) : Bool := (p.map asciiUpper).isPrefixOf (s.map asciiUpper)

/-- The text `s` contains `p`, letter case of `a`-`z` aside. -/
def ciIncludes (s p : Str) : Bool := includes (s.map asciiUpper) (p.map asciiUpper)

/-- A factor whose description mentions the value inside a sentence, in lower case. -/
def inlineValueFactor : Factor :=
  { id := "f10".toList
    title := some "Account Tenure".toList
    description := some "Account Tenure reviewed. Your value: 24 months".toList
    type := FactorType.neutral
    impact := "Medium".toList
    icon := "Clock".toList }

/-- A positive factor for rule A1 carrying the A1 description of the specification. -/
def utilityFactor : Factor :=
  { id := "f1".toList
    title := some "Utility Payment Consistency".toList
    description := some
      "Rule A1: Utility Payment Consistency\nYour Value: 18 months\nRequired Threshold: 12+ consecutive months\nStatus: ✓ Satisfied\nConsistent payments show discipline.\nBased on documented account history.".toList
    type := FactorType.positive
    impact := "High".toList
    icon := "Zap".toList }

/-- The status text contains one of the four tokens that set the progress to 100
(lines 1102-1105). -/
def statusConfirms (statusText : Str) : Bool :=
  includes statusText "✓".toList || includes statusText "Satisfied".toList ||
  includes statusText "exceeds".toList || includes statusText "above".toList

/-- A neutral factor for rule B3 whose status text is the badge text of a partly satisfied
rule. -/
def partlySatisfiedFactor : Factor :=
  { id := "f6".toList
    title := some "Mobile Recharge Consistency".toList
    description := some
      "Rule B3: Mobile Recharge Consistency\nYour Value: 82% on-time\nRequired Threshold: 90%+ on-time recharge rate\nStatus: ◐ Partially Satisfied".toList
    type := FactorType.neutral
    impact := "Medium".toList
    icon := "Smartphone".toList }

/-- Every value of the record `p` was read from one of the lines `ls`: the rule id and name
are the two groups of the header pattern on a trimmed line, value, threshold and status are
the trimmed remainder of a trimmed line after its prefix, the insight and every explanation
entry are a trimmed line. -/
def ExtractedFrom (ls : List Str) (p : ParsedRule) : Prop :=
  (∀ v, p.ruleId = some v →
    ∃ l ∈ ls, ∃ whole g2, ruleHeaderRe.exec false (trim l) = some [whole, v, g2]) ∧
  (∀ v, p.ruleName = some v →
    ∃ l ∈ ls, ∃ whole g1, ruleHeaderRe.exec false (trim l) = some [whole, g1, v]) ∧
  (∀ v, p.yourValue = some v →
    ∃ l ∈ ls, ∃ rest, trim l = "Your Value:".toList ++ rest ∧ v = trim rest) ∧
  (∀ v, p.requiredThreshold = some v →
    ∃ l ∈ ls, ∃ rest, trim l = "Required Threshold:".toList ++ rest ∧ v = trim rest) ∧
  (∀ v, p.status = some v →
    ∃ l ∈ ls, ∃ rest, trim l = "Status:".toList ++ rest ∧ v = trim rest) ∧
  (∀ v, p.insight = some v → ∃ l ∈ ls, v = trim l) ∧
  (∀ e ∈ p.explanation, ∃ l ∈ ls, e = trim l)

/-! ## API service: `services/api.js` -/

/-- An `APIError`, by its `message` and `status`.  Its `data` property (the response body)
is read by no code of the repository. -/
structure APIError where
  message : Str
  status : Nat
  deriving DecidableEq, Repr

/-- The property `response.ok`: the status is in the range 200-299. -/
def responseOk (status : Nat) : Bool := decide (200 ≤ status) && decide (status ≤ 299)

/-- The JSON body of a response that is not `ok`, as far as `apiRequest` reads it: the value
`null`, or an object with its `detail` property, which is a string or missing (`none`); the
error bodies of the service carry a string there. -/
inductive ErrorBody where
  | null
  | object (detail : Option Str)
  deriving DecidableEq, Repr

/-- What `await fetch(url, config)` and `await response.json()` produce for a request whose
2xx answers carry a JSON object of type `α` (the contract of the scoring service). -/
inductive FetchOutcome (α : Type) where
  /-- `fetch` rejects: the transport failed. -/
  | rejected
  /-- A response whose body is absent or not JSON: `response.json()` rejects. -/
  | unparseable (status : Nat)
  /-- A response that is not `ok`, with a JSON body. -/
  | failure (status : Nat) (notOk : responseOk status = false) (body : ErrorBody)
  /-- A response that is `ok`, with its JSON object. -/
  | success (status : Nat) (isOk : responseOk status = true) (payload : α)

/-- The call returned data. -/
def FetchOutcome.succeeds {α : Type} : FetchOutcome α → Bool
  | .success _ _ _ => true
  | _ => false

/-- What the service layer reads and writes outside the component: the item
`nexis_auth_token` of `localStorage`, and whether `window.location.href = '/'` has run. -/
structure World where
  token : Option Str
  redirected : Bool
  deriving DecidableEq, Repr

/-- `tokenManager.hasToken()`. -/
def World.hasToken (w : World) : Bool := truthy w.token

/-- `tokenManager.removeToken()`. -/
def World.removeToken (w : World) : World := { w with token := none }

/-- `tokenManager.setToken(token)`. -/
def World.setToken (w : World) (token : Str) : World := { w with token := some token }

/-- `x || fallback` for a value `x` that is a string or missing. -/
def orDefault (x : Option Str) (fallback : Str) : Str :=
  match x with
  | some (c :: s) => c :: s
  | _ => fallback

/-- The error thrown from the `catch` of `apiRequest` for anything that is not an
`APIError`. -/
def networkError : APIError :=
  { message := "Network error. Please check your connection.".toList, status := 0 }

/-- `apiRequest(endpoint, options)`, on the outcome of its `fetch`: the value it returns or
the `APIError` it throws, and the world afterwards (lines 51-76). -/
def apiRequest {α : Type} (w : World) : FetchOutcome α → Except APIError α × World
  | .rejected => (.error networkError, w)
  | .unparseable _ => (.error networkError, w)
  | .failure status _ body =>
    -- Handle unauthorized
    let w1 := if status = 401 then { w.removeToken with redirected := true } else w
    match body with
    | .null => (.error networkError, w1)
    | .object detail =>
      (.error { message := orDefault detail "An error occurred".toList, status := status }, w1)
  | .success _ _ data => (.ok data, w)

/-- The body of `POST /auth/register` and `POST /auth/login`. -/
structure AuthResponse where
  access_token : Str
  user_id : Str
  name : Str
  email : Str
  deriving DecidableEq, Repr

/-- The body of `GET /auth/me`. -/
structure Profile where
  user_id : Str
  name : Str
  email : Str
  consent_given : Bool
  has_score : Bool
  profile_completed : Bool
  trust_score : Option Int
  risk_level : Option Str
  last_scored_at : Option Str
  deriving DecidableEq, Repr

/-- The body of `POST /score`. -/
structure ScoreResponse where
  trust_score : Int
  risk_level : Str
  risk_color : Str
  percentile : Rat
  confidence : Rat
  deriving DecidableEq, Repr

/-- The body of `GET /explainability/{user_id}`. -/
structure ExplainabilityResponse where
  trust_score : Int
  factors : List Factor
  total_signals_analyzed : Nat
  deriving DecidableEq, Repr

/-- A JSON object the component stores and hands on without reading it here (roadmap,
improvement plan, lender view), kept as its text. -/
structure Json where
  text : Str
  deriving DecidableEq, Repr

/-- The body of `GET /roadmap/{user_id}`. -/
structure RoadmapResponse where
  roadmap : Json
  deriving DecidableEq, Repr

/-- `api.register` and `api.login`: `apiRequest`, then the token is stored when the
response has a non-empty `access_token` (lines 88-116). -/
def api.login (w : World) (o : FetchOutcome AuthResponse) :
    Except APIError AuthResponse × World :=
  match apiRequest w o with
  | (.ok response, w1) =>
    (.ok response,
      if response.access_token ≠ [] then w1.setToken response.access_token else w1)
  | (.error e, w1) => (.error e, w1)

/-- `api.register`: the same code as `api.login` on another endpoint. -/
def api.register (w : World) (o : FetchOutcome AuthResponse) :
    Except APIError AuthResponse × World :=
  api.login w o

/-- The requests the component issues through `api`, with the user id they carry. -/
inductive ApiCall where
  | register
  | login
  | getCurrentUser
  | logout
  | submitConsent
  | calculateScore (userId : Option Str)
  | getExplainability (userId : Option Str)
  | getRoadmap (userId : Option Str)
  | getImprovementPlan (userId : Option Str)
  | getLenderView (userId : Option Str)
  deriving DecidableEq, Repr

/-! ## SessionController: the `App` component (App.jsx, lines 2648-3172) -/

/-- The values of `currentScreen`. -/
inductive Screen where
  | login
  | register
  | consent
  | dashboard
  | explainability
  | improvement
  | lender
  | profile
  deriving DecidableEq, Repr

/-- The object `generateSampleBehavioralData()` returns. -/
structure BehavioralData where
  utility_payment_months : Rat
  utility_payment_consistency : Rat
  monthly_transaction_count : Rat
  transaction_regularity_score : Rat
  spending_volatility : Rat
  avg_month_end_balance : Rat
  savings_growth_rate : Rat
  withdrawal_discipline_score : Rat
  income_regularity_score : Rat
  income_stability_months : Rat
  account_tenure_months : Rat
  address_stability_years : Rat
  discretionary_income_ratio : Rat
  deriving DecidableEq, Repr

/-- The object stored by `setUserData`. -/
structure UserData where
  name : Str
  score : Int
  riskLevel : Str
  riskColor : Str
  percentile : Rat
  confidence : Rat
  factors : List Factor
  total_signals_analyzed : Nat
  behavioralData : Option BehavioralData
  deriving DecidableEq, Repr

/-- The state of the `App` component: its `useState` cells. -/
structure AppState where
  currentScreen : Screen
  isAuthenticated : Bool
  userId : Option Str
  userName : Str
  userEmail : Str
  userData : Option UserData
  userProfile : Option Profile
  roadmap : Option Json
  improvementData : Option Json
  lenderData : Option Json
  loading : Bool
  error : Option Str
  deriving DecidableEq, Repr

/-- The initial values of the `useState` cells (lines 2649-2663). -/
def AppState.initial : AppState :=
  { currentScreen := Screen.login, isAuthenticated := false, userId := none, userName := [],
    userEmail := [], userData := none, userProfile := none, roadmap := none,
    improvementData := none, lenderData := none, loading := false, error := none }

/-- What a handler of the component leaves behind: the component state and the world when
its promise settles, the requests it issued in order, and the user ids for which it
started `loadUserData` without awaiting it. -/
structure HandlerResult where
  state : AppState
  world : World
  calls : List ApiCall
  started : List Str

/-- The text of the risk badge of the dashboard (line 651). -/
def riskBadgeText (userData : UserData) : Str :=
  userData.riskLevel ++ " Risk (Rule Coverage High)".toList

/-- `loadUserData(uid)` (lines 2707-2727), on the outcomes of its two requests.  `userName`
is the value of the state cell in the render whose closure runs; `s` is the component state
when the promise settles. -/
def loadUserData (s : AppState) (w : World) (userName : Str) (uid : Str)
    (explainabilityOutcome : FetchOutcome ExplainabilityResponse)
    (roadmapOutcome : FetchOutcome RoadmapResponse) : HandlerResult :=
  match apiRequest w explainabilityOutcome with
  | (.error _, w1) =>
    { state := s, world := w1, calls := [.getExplainability (some uid)], started := [] }
  | (.ok explainabilityResponse, w1) =>
    match apiRequest w1 roadmapOutcome with
    | (.error _, w2) =>
      { state := s, world := w2,
        calls := [.getExplainability (some uid), .getRoadmap (some uid)], started := [] }
    | (.ok roadmapResponse, w2) =>
      { state :=
          { s with
            userData := some
              { name := userName
                score := explainabilityResponse.trust_score
                riskLevel := "Low".toList
                riskColor := "text-emerald-500".toList
                percentile := 84
                confidence := 92 / 100
                factors := explainabilityResponse.factors
                total_signals_analyzed := explainabilityResponse.total_signals_analyzed
                behavioralData := none }
            roadmap := some roadmapResponse.roadmap }
        world := w2
        calls := [.getExplainability (some uid), .getRoadmap (some uid)]
        started := [] }

/-- `checkAuth()` of the mount effect (lines 2667-2693), on the outcome of its request. -/
def checkAuth (s : AppState) (w : World) (profileOutcome : FetchOutcome Profile) :
    HandlerResult :=
  if w.hasToken then
    match apiRequest w profileOutcome with
    | (.ok profile, w1) =>
      let s1 := { s with
        isAuthenticated := true, userId := some profile.user_id, userName := profile.name,
        userEmail := profile.email, userProfile := some profile }
      -- Navigate based on profile status
      if profile.has_score then
        { state := { s1 with currentScreen := Screen.dashboard }, world := w1,
          calls := [.getCurrentUser], started := [profile.user_id] }
      else if profile.consent_given then
        { state := { s1 with currentScreen := Screen.dashboard }, world := w1,
          calls := [.getCurrentUser], started := [] }
      else
        { state := { s1 with currentScreen := Screen.consent }, world := w1,
          calls := [.getCurrentUser], started := [] }
    | (.error _, w1) =>
      { state := { s with currentScreen := Screen.login }, world := w1.removeToken,
        calls := [.getCurrentUser], started := [] }
  else
    { state := s, world := w, calls := [], started := [] }

/-- `handleRegister(formData)` (lines 2992-3027), on the outcomes of its two requests. -/
def handleRegister (s : AppState) (w : World) (registerOutcome : FetchOutcome AuthResponse)
    (profileOutcome : FetchOutcome Profile) : HandlerResult :=
  let s0 := { s with loading := true, error := none }
  match api.register w registerOutcome with
  | (.error err, w1) =>
    { state := { s0 with
        error := some (orDefault (some err.message)
          "Registration failed. Please try again.".toList),
        loading := false },
      world := w1, calls := [.register], started := [] }
  | (.ok response, w1) =>
    -- Set authentication state
    let s1 := { s0 with
      isAuthenticated := true, userId := some response.user_id, userName := response.name,
      userEmail := response.email }
    -- Get user profile
    match apiRequest w1 profileOutcome with
    | (.error err, w2) =>
      { state := { s1 with
          error := some (orDefault (some err.message)
            "Registration failed. Please try again.".toList),
          loading := false },
        world := w2, calls := [.register, .getCurrentUser], started := [] }
    | (.ok profile, w2) =>
      -- Navigate to consent screen
      { state := { s1 with
          userProfile := some profile, error := none, currentScreen := Screen.consent,
          loading := false },
        world := w2, calls := [.register, .getCurrentUser], started := [] }

/-- `handleLogin(credentials)` (lines 3030-3060), on the outcomes of its two requests. -/
def handleLogin (s : AppState) (w : World) (loginOutcome : FetchOutcome AuthResponse)
    (profileOutcome : FetchOutcome Profile) : HandlerResult :=
  let s0 := { s with loading := true, error := none }
  match api.login w loginOutcome with
  | (.error err, w1) =>
    { state := { s0 with
        error := some (orDefault (some err.message)
          "Login failed. Please check your credentials.".toList),
        loading := false },
      world := w1, calls := [.login], started := [] }
  | (.ok response, w1) =>
    let s1 := { s0 with
      isAuthenticated := true, userId := some response.user_id, userName := response.name,
      userEmail := response.email }
    -- Get user profile to check status
    match apiRequest w1 profileOutcome with
    | (.error err, w2) =>
      { state := { s1 with
          error := some (orDefault (some err.message)
            "Login failed. Please check your credentials.".toList),
          loading := false },
        world := w2, calls := [.login, .getCurrentUser], started := [] }
    | (.ok profile, w2) =>
      if profile.has_score then
        { state := { s1 with
            userProfile := some profile, currentScreen := Screen.dashboard,
            loading := false },
          world := w2, calls := [.login, .getCurrentUser], started := [profile.user_id] }
      else if profile.consent_given then
        { state := { s1 with
            userProfile := some profile, currentScreen := Screen.dashboard,
            loading := false },
          world := w2, calls := [.login, .getCurrentUser], started := [] }
      else
        { state := { s1 with
            userProfile := some profile, currentScreen := Screen.consent,
            loading := false },
          world := w2, calls := [.login, .getCurrentUser], started := [] }

/-- `handleConsentSubmit(formData)` (lines 3083-3130), on the sample
`generateSampleBehavioralData()` draws and the outcomes of its four requests.  The state
cells `userId` and `userName` are read from the render whose handler runs, `s`. -/
def handleConsentSubmit (s : AppState) (w : World) (randomBehavioralData : BehavioralData)
    (consentOutcome : FetchOutcome Unit) (scoreOutcome : FetchOutcome ScoreResponse)
    (explainabilityOutcome : FetchOutcome ExplainabilityResponse)
    (roadmapOutcome : FetchOutcome RoadmapResponse) : HandlerResult :=
  let s0 := { s with loading := true, error := none }
  let failed (err : APIError) (w1 : World) (calls : List ApiCall) : HandlerResult :=
    { state := { s0 with
        error := some (orDefault (some err.message)
          "An error occurred. Please try again.".toList),
        loading := false },
      world := w1, calls := calls, started := [] }
  -- Submit consent
  match apiRequest w consentOutcome with
  | (.error err, w1) => failed err w1 [.submitConsent]
  | (.ok _, w1) =>
    -- Calculate score with random sample behavioral data
    match apiRequest w1 scoreOutcome with
    | (.error err, w2) => failed err w2 [.submitConsent, .calculateScore s.userId]
    | (.ok scoreResponse, w2) =>
      -- Get explainability
      match apiRequest w2 explainabilityOutcome with
      | (.error err, w3) =>
        failed err w3 [.submitConsent, .calculateScore s.userId, .getExplainability s.userId]
      | (.ok explainabilityResponse, w3) =>
        -- Get roadmap
        match apiRequest w3 roadmapOutcome with
        | (.error err, w4) =>
          failed err w4 [.submitConsent, .calculateScore s.userId,
            .getExplainability s.userId, .getRoadmap s.userId]
        | (.ok roadmapResponse, w4) =>
          { state := { s0 with
              userData := some
                { name := s.userName
                  score := scoreResponse.trust_score
                  riskLevel := scoreResponse.risk_level
                  riskColor := scoreResponse.risk_color
                  percentile := scoreResponse.percentile
                  confidence := scoreResponse.confidence
                  factors := explainabilityResponse.factors
                  total_signals_analyzed := explainabilityResponse.total_signals_analyzed
                  behavioralData := some randomBehavioralData },
              roadmap := some roadmapResponse.roadmap,
              currentScreen := Screen.dashboard,
              loading := false },
            world := w4,
            calls := [.submitConsent, .calculateScore s.userId, .getExplainability s.userId,
              .getRoadmap s.userId],
            started := [] }

/-- The part of `loadImprovementData()` that runs at once (lines 3133-3138): the guard,
`setLoading(true)`, and whether the request is issued. -/
def loadImprovementDataStart (s : AppState) : AppState × Bool :=
  if !truthy s.userId || s.improvementData.isSome then (s, false)
  else ({ s with loading := true }, true)

/-- The part of `loadImprovementData()` that runs when its request settles
(lines 3138-3145), on the component state of that moment. -/
def loadImprovementDataSettle (s : AppState) (w : World) (o : FetchOutcome Json) :
    AppState × World :=
  match apiRequest w o with
  | (.ok response, w1) => ({ s with improvementData := some response, loading := false }, w1)
  | (.error err, w1) => ({ s with error := some err.message, loading := false }, w1)

/-- The part of `loadLenderData()` that runs at once (lines 3149-3154). -/
def loadLenderDataStart (s : AppState) : AppState × Bool :=
  if !truthy s.userId || s.lenderData.isSome then (s, false)
  else ({ s with loading := true }, true)

/-- The part of `loadLenderData()` that runs when its request settles (lines 3154-3161). -/
def loadLenderDataSettle (s : AppState) (w : World) (o : FetchOutcome Json) :
    AppState × World :=
  match apiRequest w o with
  | (.ok response, w1) => ({ s with lenderData := some response, loading := false }, w1)
  | (.error err, w1) => ({ s with error := some err.message, loading := false }, w1)

/-- `handleNavigate(screen)` (lines 3165-3172): the state after it, and the requests it
issues. -/
def handleNavigate (s : AppState) (screen : Screen) : AppState × List ApiCall :=
  if screen = Screen.improvement ∧ s.improvementData.isNone then
    let r := loadImprovementDataStart s
    ({ r.1 with currentScreen := screen },
      if r.2 then [ApiCall.getImprovementPlan s.userId] else [])
  else if screen = Screen.lender ∧ s.lenderData.isNone then
    let r := loadLenderDataStart s
    ({ r.1 with currentScreen := screen },
      if r.2 then [ApiCall.getLenderView s.userId] else [])
  else
    ({ s with currentScreen := screen }, [])

/-- A running session: the component state, the world, how many requests for each lazy
resource are in flight, and the requests issued so far. -/
structure Session where
  app : AppState
  world : World
  improvementInFlight : Nat
  lenderInFlight : Nat
  log : List ApiCall

/-- What can happen in a session after login: the user navigates, or a request for a lazy
resource settles. -/
inductive Event where
  | navigate (screen : Screen)
  | improvementSettles (o : FetchOutcome Json)
  | lenderSettles (o : FetchOutcome Json)

/-- The request fetches the improvement plan. -/
def ApiCall.isImprovementPlan : ApiCall → Bool
  | .getImprovementPlan _ => true
  | _ => false

/-- The request fetches the lender view. -/
def ApiCall.isLenderView : ApiCall → Bool
  | .getLenderView _ => true
  | _ => false

/-- One event of a session.  A settling event with no request of its kind in flight
changes nothing. -/
def Session.step (sess : Session) : Event → Session
  | .navigate screen =>
    let r := handleNavigate sess.app screen
    { sess with
      app := r.1
      improvementInFlight := sess.improvementInFlight + r.2.countP ApiCall.isImprovementPlan
      lenderInFlight := sess.lenderInFlight + r.2.countP ApiCall.isLenderView
      log := sess.log ++ r.2 }
  | .improvementSettles o =>
    if sess.improvementInFlight = 0 then sess
    else
      let r := loadImprovementDataSettle sess.app sess.world o
      { sess with app := r.1, world := r.2,
                  improvementInFlight := sess.improvementInFlight - 1 }
  | .lenderSettles o =>
    if sess.lenderInFlight = 0 then sess
    else
      let r := loadLenderDataSettle sess.app sess.world o
      { sess with app := r.1, world := r.2, lenderInFlight := sess.lenderInFlight - 1 }

/-- A whole sequence of events. -/
def Session.run (sess : Session) (events : List Event) : Session :=
  events.foldl Session.step sess

/-- A world in which a token is stored. -/
def loggedInWorld : World := { token := some "token-1".toList, redirected := false }

/-- An explainability response for a score of 500. -/
def sampleExplainability : ExplainabilityResponse :=
  { trust_score := 500, factors := [], total_signals_analyzed := 13 }

/-- A score response for a score of 500, which the service rates as high risk. -/
def sampleScore : ScoreResponse :=
  { trust_score := 500, risk_level := "High".toList, risk_color := "text-red-500".toList,
    percentile := 12, confidence := 9 / 10 }

/-- A roadmap response. -/
def sampleRoadmap : RoadmapResponse := { roadmap := { text := "[]".toList } }

/-- The constant `SAMPLE_BEHAVIORAL_DATA` of `api.js`. -/
def SAMPLE_BEHAVIORAL_DATA : BehavioralData :=
  { utility_payment_months := 18
    utility_payment_consistency := 95 / 100
    monthly_transaction_count := 52
    transaction_regularity_score := 88 / 100
    spending_volatility := 12 / 100
    avg_month_end_balance := 25000
    savings_growth_rate := 15 / 100
    withdrawal_discipline_score := 82 / 100
    income_regularity_score := 90 / 100
    income_stability_months := 18
    account_tenure_months := 42
    address_stability_years := 35 / 10
    discretionary_income_ratio := 22 / 100 }

/-- The component state on the consent screen of the user `u1`. -/
def consentState : AppState :=
  { AppState.initial with
    currentScreen := Screen.consent, isAuthenticated := true, userId := some "u1".toList,
    userName := "Asha".toList, userEmail := "asha@example.com".toList }

/-- The body of a successful `POST /auth/login` or `POST /auth/register` for the user
`u1`. -/
def sampleAuth : AuthResponse :=
  { access_token := "token-1".toList, user_id := "u1".toList, name := "Asha".toList,
    email := "asha@example.com".toList }

/-- A profile of the user `u1` that reports a computed score. -/
def scoredProfile : Profile :=
  { user_id := "u1".toList, name := "Asha".toList, email := "asha@example.com".toList,
    consent_given := true, has_score := true, profile_completed := true,
    trust_score := some 500, risk_level := some "High".toList,
    last_scored_at := some "2024-01-01T00:00:00".toList }

/-- A profile of the user `u1` that reports neither consent nor a score. -/
def freshProfile : Profile :=
  { user_id := "u1".toList, name := "Asha".toList, email := "asha@example.com".toList,
    consent_given := false, has_score := false, profile_completed := false,
    trust_score := none, risk_level := none, last_scored_at := none }

/-- A world in which no token is stored. -/
def loggedOutWorld : World := { token := none, redirected := false }

/-- A session of the user `u1` on the dashboard: nothing lazy loaded, nothing in flight. -/
def dashboardSession : Session :=
  { app := { consentState with currentScreen := Screen.dashboard }, world := loggedInWorld,
    improvementInFlight := 0, lenderInFlight := 0, log := [] }

/-- A session of the user `u1` on the dashboard with the improvement plan and the lender
view already loaded. -/
def loadedSession : Session :=
  { app := { consentState with
      currentScreen := Screen.dashboard,
      improvementData := some { text := "plan".toList },
      lenderData := some { text := "lender".toList } },
    world := loggedInWorld, improvementInFlight := 0, lenderInFlight := 0, log := [] }

/-- `api.logout` (api.js, lines 128-134): `apiRequest`, and the token is removed in the
`finally`, whether the request returned or threw. -/
def api.logout (w : World) (o : FetchOutcome Unit) : Except APIError Unit × World :=
  match apiRequest w o with
  | (result, w1) => (result, w1.removeToken)

/-- `handleLogout()` (App.jsx, lines 3063-3080), on the outcome of its request: the `catch`
only logs, and the `finally` resets the state cells. -/
def handleLogout (s : AppState) (w : World) (logoutOutcome : FetchOutcome Unit) :
    HandlerResult :=
  match api.logout w logoutOutcome with
  | (_, w1) =>
    { state := { s with
        isAuthenticated := false, userId := none, userName := [], userEmail := [],
        userData := none, userProfile := none, roadmap := none, improvementData := none,
        lenderData := none, currentScreen := Screen.login },
      world := w1, calls := [.logout], started := [] }

/-- The component state of the user `u1` on the dashboard with every per-user cache
filled. -/
def fullState : AppState :=
  { currentScreen := Screen.dashboard, isAuthenticated := true, userId := some "u1".toList,
    userName := "Asha".toList, userEmail := "asha@example.com".toList,
    userData := some
      { name := "Asha".toList, score := 500, riskLevel := "High".toList,
        riskColor := "text-red-500".toList, percentile := 12, confidence := 9 / 10,
        factors := [], total_signals_analyzed := 13, behavioralData := none },
    userProfile := some scoredProfile, roadmap := some { text := "[]".toList },
    improvementData := some { text := "plan".toList },
    lenderData := some { text := "lender".toList }, loading := false, error := none }

/-! ## The request configuration of `apiRequest` (api.js, lines 32-49) -/

/-- A JavaScript object whose values are strings, as the list of its own properties in
insertion order. -/
abbrev StrObject := List (Str × Str)

/-- The assignment `obj[key] = value`: an existing property keeps its place and takes the
new value, a new property is added last. -/
def setProperty (obj : StrObject) (key value : Str) : StrObject :=
  if obj.any (fun p => p.1 == key) then
    obj.map (fun p => if p.1 == key then (key, value) else p)
  else obj ++ [(key, value)]

/-- The read `obj[key]`; `none` is `undefined`. -/
def getProperty (obj : StrObject) (key : Str) : Option Str :=
  (obj.find? (fun p => p.1 == key)).map (fun p => p.2)

/-- The object literal that spreads `a` and then `b`; `b` is `none` when it is `undefined`,
which spreads to nothing. -/
def spread (a : StrObject) (b : Option StrObject) : StrObject :=
  (b.getD []).foldl (fun acc p => setProperty acc p.1 p.2) a

/-- The argument `options` of `apiRequest`, with the properties its callers and `fetch`
use.  A field is `none` when the object has no such property. -/
structure RequestOptions where
  method : Option Str
  body : Option Str
  headers : Option StrObject
  deriving DecidableEq, Repr

/-- The object `config` handed to `fetch`. -/
structure RequestConfig where
  headers : StrObject
  method : Option Str
  body : Option Str
  deriving DecidableEq, Repr

/-- The constant `headers` of `apiRequest` after lines 35-44. -/
def requestHeaders (w : World) (options : RequestOptions) : StrObject :=
  let headers := spread [("Content-Type".toList, "application/json".toList)] options.headers
  -- Add auth token if available
  match w.token with
  | some (c :: t) => setProperty headers "Authorization".toList ("Bearer ".toList ++ c :: t)
  | _ => headers

/-- The constant `config` of `apiRequest` (lines 46-49): the object literal with `headers`
first and the spread of `options` after it, in which a `headers` property of `options`
replaces the one written first. -/
def requestConfig (w : World) (options : RequestOptions) : RequestConfig :=
  { headers :=
      match options.headers with
      | some own => own
      | none => requestHeaders w options
    method := options.method
    body := options.body }

/-- Options with a `headers` property of their own; no call of `apiRequest` in the
repository passes one. -/
def optionsWithHeaders : RequestOptions :=
  { method := some "POST".toList, body := none,
    headers := some [("X-Request-Id".toList, "42".toList)] }

/-- The eleven calls of `apiRequest`, all in the object `api` (api.js, lines 88-193);
`apiRequest` is not exported, so these are all the calls there are. -/
inductive CallSite where
  | register
  | login
  | getCurrentUser
  | logout
  | submitConsent
  | calculateScore
  | getExplainability
  | getImprovementPlan
  | getRoadmap
  | getLenderView
  | submitLenderDecision
  deriving DecidableEq, Repr

/-- The options object a call passes to `apiRequest`; `json` is the text
`JSON.stringify(...)` gives for the data of the call.  The calls without a second argument
get the default, the empty object. -/
def CallSite.options (site : CallSite) (json : Str) : RequestOptions :=
  match site with
  | .register | .login | .submitConsent | .calculateScore | .submitLenderDecision =>
    { method := some "POST".toList, body := some json, headers := none }
  | .logout => { method := some "POST".toList, body := none, headers := none }
  | .getCurrentUser | .getExplainability | .getImprovementPlan | .getRoadmap
  | .getLenderView =>
    { method := none, body := none, headers := none }

/-! ## Texts and counts of `ExplainabilityDetail` and `Dashboard` -/

/-- The first sentence of the Assessment Methodology footer (App.jsx, line 1350). -/
def assessmentMethodologyText : Str :=
  "Total Maximum Score: 360 points across all 12 rules.".toList

/-- The number a text states after its first colon and blank. -/
def statedNumber (text : Str) : Nat :=
  digitsValue (((text.dropWhile (fun c => c != ':')).drop 2).takeWhile isDigit)

/-- The number shown as Rule Compliance Score, `Math.round(userData.score * 0.4)`
(line 1058), before the text ` of 360 possible points`: for an integer score, four tenths
of it rounded to the nearest integer, which is the floor of `(4 * score + 5) / 10`. -/
def ruleComplianceScore (score : Int) : Int :=
  (4 * score + 5) / 10

/-- The numeric range a band label prints between its brackets, as `(low, high)`. -/
def printedRange (label : Str) : Nat × Nat :=
  let inner := (label.dropWhile (fun c => c != '(')).drop 1
  (digitsValue (inner.takeWhile isDigit),
   digitsValue (((inner.dropWhile isDigit).drop 1).takeWhile isDigit))

/-- `n || fallback` for a value `n` that is a number or `undefined` (`none`): the fallback
replaces `undefined` and also 0. -/
def orNumber (n : Option Nat) (fallback : Nat) : Nat :=
  match n with
  | some (k + 1) => k + 1
  | _ => fallback

/-- `userData.factors?.filter(f => f.type === type).length`; `factors` is `none` when the
property is missing. -/
def countOfType (factors : Option (List Factor)) (type : FactorType) : Option Nat :=
  factors.map (fun fs => (fs.filter (fun f => decide (f.type = type))).length)

/-- The number shown over `Rules Fully Satisfied` (line 1042). -/
def rulesFullySatisfied (factors : Option (List Factor)) : Nat :=
  orNumber (countOfType factors FactorType.positive) 10

/-- The number shown over `Rules Partially Satisfied` (line 1046). -/
def rulesPartiallySatisfied (factors : Option (List Factor)) : Nat :=
  orNumber (countOfType factors FactorType.neutral) 2

/-- The number shown over `Rules Not Met` (line 1050). -/
def rulesNotMet (factors : Option (List Factor)) : Nat :=
  orNumber (countOfType factors FactorType.negative) 0

/-- The `onClick` of the logo (App.jsx, line 3181). -/
def handleLogoClick (s : AppState) : AppState × List ApiCall :=
  if s.isAuthenticated then handleNavigate s Screen.dashboard
  else ({ s with currentScreen := Screen.login }, [])

/-! ## The rendering of the rule cards, with its random source (App.jsx, lines 1069-1330) -/

/-- The number rendered in the line `Your Score` of a rule card (line 1327):
`Math.floor(Math.random() * rule.maxPoints * 0.8) + Math.floor(rule.maxPoints * 0.2)`.
`Math.random()` returns a multiple of `2^-53` below 1; `random` is its numerator. -/
def yourScorePoints (random : Nat) (maxPoints : Nat) : Nat :=
  random * maxPoints * 8 / (10 * 2 ^ 53) + maxPoints * 2 / 10

/-- What the callback of `allRules.map` renders for one rule: the reconciled record, and the
number of the line `Your Score`, which is rendered for an evaluated rule only. -/
structure RenderedRuleCard where
  card : RuleCard
  yourScore : Option Nat
  deriving DecidableEq

/-- One call of the callback of `allRules.map`, as it runs: `draws` lists the values
`Math.random()` returns call after call, and `used` counts the calls made so far. -/
def renderRuleCard (factors : List Factor) (draws : Nat → Nat) (used : Nat)
    (rule : RuleDefinition) : RenderedRuleCard × Nat :=
  let card := ruleCard factors rule
  if card.isEvaluated then
    ({ card := card, yourScore := some (yourScorePoints (draws used) rule.maxPoints) },
      used + 1)
  else ({ card := card, yourScore := none }, used)

/-- The cards of one render, `allRules.map(rule => ...)`, rule after rule. -/
def renderRuleCards (factors : List Factor) (draws : Nat → Nat) :
    Nat → List RuleDefinition → List RenderedRuleCard
  | _, [] => []
  | used, rule :: rest =>
    (renderRuleCard factors draws used rule).1 ::
      renderRuleCards factors draws (renderRuleCard factors draws used rule).2 rest

/-- The extractor with the second pattern family removed: the loop of `extractDataValue`
over the first and the third pattern only. -/
def extractDataValueWithoutSecond (description : Str) : Option Str :=
  extractLoop description [pattern1, pattern3]

/-- The response has status 401 and a JSON body, so that the branch `Handle unauthorized`
of `apiRequest` runs (api.js, lines 57-60). -/
def FetchOutcome.unauthorized {α : Type} : FetchOutcome α → Bool
  | .failure status _ _ => decide (status = 401)
  | _ => false

/-- The component state the page is left with once a handler has settled.  When the handler
has run `window.location.href = '/'`, the page is loaded anew: the component is mounted
again with the initial values of its cells and its mount effect runs `checkAuth` on the
token that is left; `profileOutcome` is the outcome of the request `checkAuth` makes when a
token is stored. -/
def pageAfter (r : HandlerResult) (profileOutcome : FetchOutcome Profile) : AppState :=
  if r.world.redirected then
    (checkAuth AppState.initial { r.world with redirected := false } profileOutcome).state
  else r.state

/-! # Theorems -/

/-! ## The matcher -/

theorem starAux_suffix (step : Str → List (List Str × Str))
    (hstep : ∀ s m, m ∈ step s → m.2 <:+ s) :
    ∀ fuel s m, m ∈ starAux step fuel s → m.2 <:+ s := by
  intro fuel
  induction fuel with
  | zero =>
    intro s m hm
    simp only [starAux, List.mem_singleton] at hm
    subst hm
    exact List.suffix_refl _
  | succ n ih =>
    intro s m hm
    simp only [starAux, List.mem_append, List.mem_flatMap, List.mem_filter,
      List.mem_singleton] at hm
    rcases hm with ⟨a, ⟨ha, _⟩, hma⟩ | rfl
    · exact (ih _ _ hma).trans (hstep _ _ ha)
    · exact List.suffix_refl _

/-- Every match leaves a suffix of the input. -/
theorem run_suffix (ic : Bool) (r : Re) : ∀ s m, m ∈ r.run ic s → m.2 <:+ s := by
  induction r with
  | chr c =>
    intro s m hm
    cases s with
    | nil => simp [Re.run] at hm
    | cons d t =>
      simp only [Re.run] at hm
      by_cases hc : (if ic then asciiUpper d == asciiUpper c else d == c) = true
      · rw [if_pos hc, List.mem_singleton] at hm
        subst hm
        exact List.suffix_cons _ _
      · rw [if_neg hc] at hm
        simp at hm
  | cls p =>
    intro s m hm
    cases s with
    | nil => simp [Re.run] at hm
    | cons d t =>
      simp only [Re.run] at hm
      split at hm
      · simp only [List.mem_singleton] at hm
        subst hm
        exact List.suffix_cons _ _
      · simp at hm
  | eps =>
    intro s m hm
    simp only [Re.run, List.mem_singleton] at hm
    subst hm
    exact List.suffix_refl _
  | seq a b iha ihb =>
    intro s m hm
    simp only [Re.run, List.mem_flatMap, List.mem_map] at hm
    obtain ⟨m1, h1, m2, h2, rfl⟩ := hm
    exact (ihb _ _ h2).trans (iha _ _ h1)
  | alt a b iha ihb =>
    intro s m hm
    simp only [Re.run, List.mem_append] at hm
    rcases hm with h | h
    · exact iha _ _ h
    · exact ihb _ _ h
  | star a iha =>
    intro s m hm
    simp only [Re.run] at hm
    exact starAux_suffix _ iha _ _ _ hm
  | grp a iha =>
    intro s m hm
    simp only [Re.run, List.mem_map] at hm
    obtain ⟨m1, h1, rfl⟩ := hm
    exact iha _ m1 h1

/-- A pattern that consumes leaves a strictly shorter input. -/
theorem run_consumes (ic : Bool) (r : Re) :
    r.consumes = true → ∀ s m, m ∈ r.run ic s → m.2.length < s.length := by
  induction r with
  | chr c =>
    intro _ s m hm
    cases s with
    | nil => simp [Re.run] at hm
    | cons d t =>
      simp only [Re.run] at hm
      by_cases hc : (if ic then asciiUpper d == asciiUpper c else d == c) = true
      · rw [if_pos hc, List.mem_singleton] at hm
        subst hm
        simp
      · rw [if_neg hc] at hm
        simp at hm
  | cls p =>
    intro _ s m hm
    cases s with
    | nil => simp [Re.run] at hm
    | cons d t =>
      simp only [Re.run] at hm
      split at hm
      · simp only [List.mem_singleton] at hm
        subst hm
        simp
      · simp at hm
  | eps => intro h; simp [Re.consumes] at h
  | seq a b iha ihb =>
    intro h s m hm
    simp only [Re.run, List.mem_flatMap, List.mem_map] at hm
    obtain ⟨m1, h1, m2, h2, rfl⟩ := hm
    have l1 := (run_suffix ic a _ _ h1).length_le
    have l2 := (run_suffix ic b _ _ h2).length_le
    simp only [Re.consumes, Bool.or_eq_true] at h
    rcases h with h | h
    · have := iha h _ _ h1
      show m2.2.length < s.length
      omega
    · have := ihb h _ _ h2
      show m2.2.length < s.length
      omega
  | alt a b iha ihb =>
    intro h s m hm
    simp only [Re.consumes, Bool.and_eq_true] at h
    simp only [Re.run, List.mem_append] at hm
    rcases hm with h1 | h1
    · exact iha h.1 _ _ h1
    · exact ihb h.2 _ _ h1
  | star a _ => intro h; simp [Re.consumes] at h
  | grp a iha =>
    intro h s m hm
    simp only [Re.run, List.mem_map] at hm
    obtain ⟨m1, h1, rfl⟩ := hm
    exact iha h _ m1 h1

/-- The text consumed by a match, followed by the remaining input, is the input. -/
theorem consumed_append {s rest : Str} (h : rest <:+ s) : consumed s rest ++ rest = s := by
  obtain ⟨pre, rfl⟩ := h
  simp [consumed]

theorem consumed_append_left (m post : Str) : consumed (m ++ post) post = m := by
  simp [consumed]

/-- If `exec` succeeds it reports the leftmost match. -/
theorem exec_some (ic : Bool) (r : Re) :
    ∀ d m caps, r.exec ic d = some (m :: caps) → LeftmostMatch ic r d m caps := by
  intro d
  induction d with
  | nil =>
    intro m caps h
    simp only [Re.exec] at h
    cases hr : r.run ic [] with
    | nil => simp [hr] at h
    | cons x tl =>
      simp only [hr, List.head?_cons, Option.some.injEq, List.cons.injEq] at h
      obtain ⟨h1, h2⟩ := h
      have hx := run_suffix ic r [] x (by simp [hr])
      have hx2 : x.2 = [] := List.suffix_nil.mp hx
      refine ⟨[], x.2, tl, ?_, ?_, ?_⟩
      · rw [← h1, hx2]; simp [consumed]
      · rw [← h1, hx2, ← h2]
        simp only [consumed, List.length_nil, List.take_nil, List.append_nil]
        rw [hr]
        have : x = (x.1, []) := by rw [← hx2]
        rw [this]
      · intro pre1 t _ hlt
        simp at hlt
  | cons c s ih =>
    intro m caps h
    simp only [Re.exec] at h
    cases hr : r.run ic (c :: s) with
    | nil =>
      simp only [hr, List.head?_nil] at h
      obtain ⟨pre, post, tl, hd, hrun, hmin⟩ := ih m caps h
      refine ⟨c :: pre, post, tl, by simp [hd], hrun, ?_⟩
      intro pre1 t ht hlt
      cases pre1 with
      | nil =>
        simp only [List.nil_append] at ht
        rw [← ht]; exact hr
      | cons c1 p1 =>
        simp only [List.cons_append, List.cons.injEq] at ht
        exact hmin p1 t ht.2 (by simpa using hlt)
    | cons x tl =>
      simp only [hr, List.head?_cons, Option.some.injEq, List.cons.injEq] at h
      obtain ⟨h1, h2⟩ := h
      have hx := run_suffix ic r (c :: s) x (by simp [hr])
      refine ⟨[], x.2, tl, ?_, ?_, ?_⟩
      · rw [← h1]; simp [consumed_append hx]
      · rw [← h1, consumed_append hx, hr, ← h2]
      · intro pre1 t _ hlt
        simp at hlt

/-- The result of `exec` always has the whole match as its first element. -/
theorem exec_ne_nil (ic : Bool) (r : Re) : ∀ d, r.exec ic d ≠ some [] := by
  intro d
  induction d with
  | nil =>
    simp only [Re.exec]
    cases r.run ic [] <;> simp
  | cons c s ih =>
    simp only [Re.exec]
    cases r.run ic (c :: s) <;> simp [ih]

/-- The leftmost match is what `exec` reports. -/
theorem exec_of_leftmost (ic : Bool) (r : Re) (d m : Str) (caps : List Str)
    (h : LeftmostMatch ic r d m caps) : r.exec ic d = some (m :: caps) := by
  obtain ⟨pre, post, tl, hd, hrun, hmin⟩ := h
  subst hd
  induction pre with
  | nil =>
    simp only [List.nil_append]
    cases hmp : m ++ post with
    | nil =>
      rw [hmp] at hrun
      simp only [Re.exec, hrun, List.head?_cons]
      have : m = [] := (List.append_eq_nil.mp hmp).1
      have hp : post = [] := (List.append_eq_nil.mp hmp).2
      simp [consumed, this]
    | cons c s =>
      rw [hmp] at hrun
      simp only [Re.exec, hrun, List.head?_cons]
      rw [← hmp, consumed_append_left]
  | cons c p ih =>
    have h0 : r.run ic (c :: p ++ (m ++ post)) = [] := hmin [] _ rfl (by simp)
    simp only [List.cons_append] at h0 ⊢
    simp only [Re.exec, h0, List.head?_nil]
    apply ih
    intro pre1 t ht hlt
    exact hmin (c :: pre1) t (by simp [ht]) (by simpa using hlt)

/-- `exec` fails exactly when the pattern matches nowhere. -/
theorem exec_none (ic : Bool) (r : Re) :
    ∀ d, r.exec ic d = none ↔ MatchesNowhere ic r d := by
  intro d
  induction d with
  | nil =>
    simp only [Re.exec, MatchesNowhere, List.suffix_nil]
    cases hr : r.run ic [] with
    | nil => simp [hr]
    | cons x tl =>
      simp only [List.head?_cons]
      constructor
      · intro h; cases h
      · intro h
        have := h [] rfl
        rw [hr] at this
        cases this
  | cons c s ih =>
    simp only [Re.exec, MatchesNowhere]
    cases hr : r.run ic (c :: s) with
    | nil =>
      simp only [List.head?_nil, ih, MatchesNowhere, List.suffix_cons_iff]
      constructor
      · intro h t ht
        rcases ht with rfl | ht
        · exact hr
        · exact h t ht
      · intro h t ht
        exact h t (Or.inr ht)
    | cons x tl =>
      simp only [List.head?_cons]
      constructor
      · intro h; cases h
      · intro h
        have := h (c :: s) (List.suffix_refl _)
        rw [hr] at this
        cases this

theorem leftmost_iff_exec (ic : Bool) (r : Re) (d m : Str) :
    (∃ caps, LeftmostMatch ic r d m caps) ↔ ∃ caps, r.exec ic d = some (m :: caps) :=
  ⟨fun ⟨caps, h⟩ => ⟨caps, exec_of_leftmost ic r d m caps h⟩,
   fun ⟨caps, h⟩ => ⟨caps, exec_some ic r d m caps h⟩⟩

/-- The whole match is a contiguous part of the input. -/
theorem leftmost_contiguous {ic : Bool} {r : Re} {d m : Str} {caps : List Str}
    (h : LeftmostMatch ic r d m caps) : m <:+: d := by
  obtain ⟨pre, post, _, hd, _, _⟩ := h
  exact ⟨pre, post, by rw [hd]; simp⟩

/-- A match of a consuming pattern is not empty. -/
theorem leftmost_ne_nil {ic : Bool} {r : Re} {d m : Str} {caps : List Str}
    (hc : r.consumes = true) (h : LeftmostMatch ic r d m caps) : m ≠ [] := by
  obtain ⟨pre, post, tl, _, hrun, _⟩ := h
  intro hm
  have := run_consumes ic r hc (m ++ post) (caps, post) (by rw [hrun]; simp)
  simp [hm] at this

/-! ### Preferred matches -/

theorem run_cls_nil (ic : Bool) (p : Char → Bool) : (Re.cls p).run ic [] = [] := rfl

theorem run_cls_cons (ic : Bool) (p : Char → Bool) (d : Char) (t : Str) :
    (Re.cls p).run ic (d :: t) = if p d then [([], t)] else [] := rfl

theorem run_chr_nil (ic : Bool) (c : Char) : (Re.chr c).run ic [] = [] := rfl

theorem run_chr_cons (ic : Bool) (c d : Char) (t : Str) :
    (Re.chr c).run ic (d :: t) =
      if (if ic then asciiUpper d == asciiUpper c else d == c) then [([], t)] else [] := rfl

theorem run_seq (ic : Bool) (a b : Re) (s : Str) :
    (Re.seq a b).run ic s =
      (a.run ic s).flatMap (fun m => (b.run ic m.2).map (fun m2 => (m.1 ++ m2.1, m2.2))) := rfl

theorem run_alt (ic : Bool) (a b : Re) (s : Str) :
    (Re.alt a b).run ic s = a.run ic s ++ b.run ic s := rfl

theorem run_star (ic : Bool) (a : Re) (s : Str) :
    (Re.star a).run ic s = starAux (a.run ic) s.length s := rfl

theorem run_grp (ic : Bool) (a : Re) (s : Str) :
    (Re.grp a).run ic s = (a.run ic s).map (fun m => (consumed s m.2 :: m.1, m.2)) := rfl

theorem run_eps (ic : Bool) (s : Str) : Re.eps.run ic s = [([], s)] := rfl

theorem first_eps (ic : Bool) (s : Str) : Re.eps.First ic s [] s := ⟨[], rfl⟩

theorem first_chr (c : Char) (t : Str) : (Re.chr c).First false (c :: t) [] t :=
  ⟨[], by simp [run_chr_cons]⟩

theorem first_chr_fold (c d : Char) (t : Str) (h : asciiUpper d = asciiUpper c) :
    (Re.chr c).First true (d :: t) [] t :=
  ⟨[], by simp [run_chr_cons, h]⟩

theorem first_cls (ic : Bool) (p : Char → Bool) (d : Char) (t : Str) (h : p d = true) :
    (Re.cls p).First ic (d :: t) [] t :=
  ⟨[], by simp [run_cls_cons, h]⟩

theorem first_seq {ic : Bool} {a b : Re} {s s1 s2 : Str} {c1 c2 : List Str}
    (ha : a.First ic s c1 s1) (hb : b.First ic s1 c2 s2) :
    (Re.seq a b).First ic s (c1 ++ c2) s2 := by
  obtain ⟨t1, h1⟩ := ha
  obtain ⟨t2, h2⟩ := hb
  unfold Re.First
  rw [run_seq, h1, List.flatMap_cons, h2, List.map_cons, List.cons_append]
  exact ⟨_, rfl⟩

theorem first_grp {ic : Bool} {a : Re} {s s1 : Str} {c : List Str}
    (ha : a.First ic s c s1) : (Re.grp a).First ic s (consumed s s1 :: c) s1 := by
  obtain ⟨t1, h1⟩ := ha
  unfold Re.First
  rw [run_grp, h1, List.map_cons]
  exact ⟨_, rfl⟩

theorem starAux_succ (step : Str → List (List Str × Str)) (fuel : Nat) (s : Str) :
    starAux step (fuel + 1) s =
      (((step s).filter (fun m => decide (m.2.length < s.length))).flatMap
        (fun m => starAux step fuel m.2)) ++ [([], s)] := rfl

theorem starAux_cls_first (ic : Bool) (p : Char → Bool) :
    ∀ fuel s, s.length ≤ fuel →
      ∃ tl, starAux ((Re.cls p).run ic) fuel s = ([], s.dropWhile p) :: tl := by
  intro fuel
  induction fuel with
  | zero =>
    intro s hs
    have : s = [] := List.length_eq_zero.mp (Nat.le_zero.mp hs)
    subst this
    exact ⟨[], rfl⟩
  | succ n ih =>
    intro s hs
    cases s with
    | nil =>
      refine ⟨[], ?_⟩
      rw [starAux_succ, run_cls_nil]
      rfl
    | cons c t =>
      by_cases hp : p c = true
      · obtain ⟨tl, htl⟩ := ih t (by simpa using hs)
        refine ⟨tl ++ [([], c :: t)], ?_⟩
        rw [starAux_succ, run_cls_cons, if_pos hp]
        simp only [List.filter_cons, List.length_cons, Nat.lt_succ_self, decide_True, if_true,
          List.filter_nil, List.flatMap_cons, List.flatMap_nil, List.append_nil, htl,
          List.dropWhile_cons, hp, List.cons_append]
      · refine ⟨[], ?_⟩
        rw [starAux_succ, run_cls_cons, if_neg hp]
        simp [List.dropWhile_cons, hp]

theorem first_star_cls (ic : Bool) (p : Char → Bool) (s : Str) :
    (Re.star (Re.cls p)).First ic s [] (s.dropWhile p) := by
  obtain ⟨tl, h⟩ := starAux_cls_first ic p s.length s (Nat.le_refl _)
  exact ⟨tl, by rw [run_star, h]⟩

theorem first_plus_cls (ic : Bool) (p : Char → Bool) (d : Char) (t : Str) (h : p d = true) :
    (Re.plus (Re.cls p)).First ic (d :: t) [] (t.dropWhile p) :=
  first_seq (first_cls ic p d t h) (first_star_cls ic p t)

/-- The preferred match at the start of the input is what `exec` reports. -/
theorem exec_of_first {ic : Bool} {r : Re} {s rest : Str} {caps : List Str}
    (h : r.First ic s caps rest) : r.exec ic s = some (consumed s rest :: caps) := by
  obtain ⟨tl, h⟩ := h
  cases s <;> simp [Re.exec, h]

/-- Where the pattern has no match at the first position, `exec` moves on. -/
theorem exec_skip {ic : Bool} {r : Re} (c : Char) (s : Str) (h : r.run ic (c :: s) = []) :
    r.exec ic (c :: s) = r.exec ic s := by
  simp [Re.exec, h]

theorem run_seq_nil {ic : Bool} {a : Re} (b : Re) {s : Str} (h : a.run ic s = []) :
    (Re.seq a b).run ic s = [] := by
  rw [run_seq, h]
  rfl

theorem dropWhile_append_stop (p : Char → Bool) (ds : Str) (x : Char) (t : Str)
    (hds : ∀ c ∈ ds, p c = true) (hx : p x = false) :
    (ds ++ x :: t).dropWhile p = x :: t := by
  induction ds with
  | nil => simp [List.dropWhile, hx]
  | cons d ds ih =>
    have hd := hds d (by simp)
    simp only [List.cons_append, List.dropWhile_cons, hd, if_true]
    exact ih (fun c hc => hds c (by simp [hc]))

theorem dropWhile_all (p : Char → Bool) (ds : Str) (hds : ∀ c ∈ ds, p c = true) :
    ds.dropWhile p = [] := by
  induction ds with
  | nil => rfl
  | cons d ds ih =>
    have hd := hds d (by simp)
    simp only [List.dropWhile_cons, hd, if_true]
    exact ih (fun c hc => hds c (by simp [hc]))

/-! ### Trimming -/

theorem trimStart_length_le (s : Str) : (trimStart s).length ≤ s.length := by
  unfold trimStart
  exact (List.dropWhile_suffix _).length_le

theorem trimEnd_length_le (s : Str) : (trimEnd s).length ≤ s.length := by
  unfold trimEnd
  have := (List.dropWhile_suffix (l := s.reverse) isWhiteSpace).length_le
  simpa using this

theorem trimStart_cons (c : Char) (s : Str) (h : isWhiteSpace c = false) :
    trimStart (c :: s) = c :: s := by
  simp [trimStart, List.dropWhile_cons, h]

theorem trimEnd_append_last (x s : Str) (c : Char) (h : isWhiteSpace c = false) :
    trimEnd (x ++ (s ++ [c])) = x ++ (s ++ [c]) := by
  simp [trimEnd, List.dropWhile_cons, h]

/-- A non-empty string that trimming leaves unchanged starts with a non-blank character. -/
theorem head_of_trim_eq {s : Str} (h : trim s = s) (hne : s ≠ []) :
    ∃ c t, s = c :: t ∧ isWhiteSpace c = false := by
  cases s with
  | nil => exact absurd rfl hne
  | cons c t =>
    refine ⟨c, t, rfl, ?_⟩
    by_contra hc
    have hc1 : isWhiteSpace c = true := by simpa using hc
    have h1 : (trimStart (c :: t)).length ≤ t.length := by
      unfold trimStart
      rw [List.dropWhile_cons, if_pos hc1]
      exact (List.dropWhile_suffix _).length_le
    have h2 := trimEnd_length_le (trimStart (c :: t))
    have h3 : (trim (c :: t)).length = (c :: t).length := by rw [h]
    unfold trim at h3
    simp only [List.length_cons] at h3
    omega

/-- A non-empty string that trimming leaves unchanged ends with a non-blank character. -/
theorem last_of_trim_eq {s : Str} (h : trim s = s) (hne : s ≠ []) :
    ∃ t c, s = t ++ [c] ∧ isWhiteSpace c = false := by
  obtain ⟨c0, t0, hs, hc0⟩ := head_of_trim_eq h hne
  have hstart : trimStart s = s := by rw [hs]; exact trimStart_cons c0 t0 hc0
  have hend : trimEnd s = s := by
    have := h
    unfold trim at this
    rwa [hstart] at this
  obtain ⟨t, c, hsc⟩ : ∃ t c, s = t ++ [c] := by
    rcases List.eq_nil_or_concat s with h0 | ⟨t, c, h1⟩
    · exact absurd h0 hne
    · exact ⟨t, c, by simpa using h1⟩
  refine ⟨t, c, hsc, ?_⟩
  by_contra hc
  have hc1 : isWhiteSpace c = true := by simpa using hc
  have hlen : (trimEnd s).length = s.length := by rw [hend]
  rw [hsc] at hlen
  unfold trimEnd at hlen
  simp only [List.reverse_append, List.reverse_cons, List.reverse_nil, List.nil_append,
    List.singleton_append, List.dropWhile_cons, hc1, if_true, List.length_reverse,
    List.length_append, List.length_singleton] at hlen
  have := (List.dropWhile_suffix (l := t.reverse) isWhiteSpace).length_le
  simp only [List.length_reverse] at this
  omega

/-- Trimming leaves `x ++ s` unchanged when `x` starts and `s` ends with a non-blank
character. -/
theorem trim_append_eq (c : Char) (x s : Str) (hc : isWhiteSpace c = false)
    (hs : trim s = s) (hne : s ≠ []) : trim (c :: (x ++ s)) = c :: (x ++ s) := by
  obtain ⟨t, e, hse, he⟩ := last_of_trim_eq hs hne
  unfold trim
  rw [trimStart_cons _ _ hc, hse]
  have := trimEnd_append_last (c :: x) t e he
  simpa using this

/-- Trimming leaves a trimmed string unchanged. -/
theorem trim_idem_of_eq {s : Str} (hs : trim s = s) : trim (trim s) = trim s := by
  rw [hs, hs]

/-! ## ValueExtractor -/

theorem extractLoop_cons (d : Str) (pattern : Re) (rest : List Re)
    (hc : pattern.consumes = true) :
    extractLoop d (pattern :: rest) =
      match pattern.exec true d with
      | some (m0 :: _) => some m0
      | _ => extractLoop d rest := by
  cases he : pattern.exec true d with
  | none => simp [extractLoop, he]
  | some l =>
    cases l with
    | nil => simp [extractLoop, he]
    | cons m0 caps =>
      have hne : m0 ≠ [] := leftmost_ne_nil hc (exec_some true pattern d m0 caps he)
      simp [extractLoop, he, hne]

theorem extractDataValue_eq (d : Str) :
    extractDataValue d =
      match pattern1.exec true d with
      | some (m0 :: _) => some m0
      | _ =>
        match pattern2.exec true d with
        | some (m0 :: _) => some m0
        | _ =>
          match pattern3.exec true d with
          | some (m0 :: _) => some m0
          | _ => none := by
  unfold extractDataValue patterns
  rw [extractLoop_cons d pattern1 _ (by decide), extractLoop_cons d pattern2 _ (by decide),
    extractLoop_cons d pattern3 _ (by decide)]
  rfl

/-- C2: `extractDataValue` tries its three pattern families in declared order and returns
the leftmost whole match of the first family that matches anywhere in the text, verbatim
(a contiguous part of the input); it returns `null` exactly when no family matches; and on
the four texts of the specification it returns `52 transactions`, `15%`, `₹25,000` and
`null`. -/
theorem extractDataValue_first_family_leftmost (d : Str) :
    (∀ m, extractDataValue d = some m ↔
      ((∃ caps, LeftmostMatch true pattern1 d m caps) ∨
       (MatchesNowhere true pattern1 d ∧ ∃ caps, LeftmostMatch true pattern2 d m caps) ∨
       (MatchesNowhere true pattern1 d ∧ MatchesNowhere true pattern2 d ∧
          ∃ caps, LeftmostMatch true pattern3 d m caps))) ∧
    (∀ m, extractDataValue d = some m → m <:+: d) ∧
    (extractDataValue d = none ↔
      (MatchesNowhere true pattern1 d ∧ MatchesNowhere true pattern2 d ∧
        MatchesNowhere true pattern3 d)) ∧
    extractDataValue "52 transactions".toList = some "52 transactions".toList ∧
    extractDataValue "Savings growth of 15%".toList = some "15%".toList ∧
    extractDataValue "₹25,000 balance".toList = some "₹25,000".toList ∧
    extractDataValue "no numbers here".toList = none := by
  have key : ∀ m, extractDataValue d = some m ↔
      ((∃ caps, LeftmostMatch true pattern1 d m caps) ∨
       (MatchesNowhere true pattern1 d ∧ ∃ caps, LeftmostMatch true pattern2 d m caps) ∨
       (MatchesNowhere true pattern1 d ∧ MatchesNowhere true pattern2 d ∧
          ∃ caps, LeftmostMatch true pattern3 d m caps)) := by
    intro m
    simp only [leftmost_iff_exec, ← exec_none, extractDataValue_eq]
    have n1 := exec_ne_nil true pattern1 d
    have n2 := exec_ne_nil true pattern2 d
    have n3 := exec_ne_nil true pattern3 d
    rcases h1 : pattern1.exec true d with _ | ⟨_ | ⟨a, ca⟩⟩
    · rcases h2 : pattern2.exec true d with _ | ⟨_ | ⟨b, cb⟩⟩
      · rcases h3 : pattern3.exec true d with _ | ⟨_ | ⟨c, cc⟩⟩
        · simp
        · exact absurd h3 n3
        · simp
      · exact absurd h2 n2
      · simp
    · exact absurd h1 n1
    · simp
  refine ⟨key, ?_, ?_, by decide, by decide, by decide, by decide⟩
  · intro m hm
    rcases (key m).mp hm with ⟨caps, h⟩ | ⟨_, caps, h⟩ | ⟨_, _, caps, h⟩ <;>
      exact leftmost_contiguous h
  · simp only [← exec_none, extractDataValue_eq]
    have n1 := exec_ne_nil true pattern1 d
    have n2 := exec_ne_nil true pattern2 d
    have n3 := exec_ne_nil true pattern3 d
    rcases h1 : pattern1.exec true d with _ | ⟨_ | ⟨a, ca⟩⟩
    · rcases h2 : pattern2.exec true d with _ | ⟨_ | ⟨b, cb⟩⟩
      · rcases h3 : pattern3.exec true d with _ | ⟨_ | ⟨c, cc⟩⟩
        · simp
        · exact absurd h3 n3
        · simp
      · exact absurd h2 n2
      · simp
    · exact absurd h1 n1
    · simp

/-! ## ScoreClassifier -/

theorem classify_cases (x : Int) :
    (x < 550 ∧ classify x = Band.building) ∨
    (550 ≤ x ∧ x < 700 ∧ classify x = Band.developing) ∨
    (700 ≤ x ∧ x < 850 ∧ classify x = Band.strong) ∨
    (850 ≤ x ∧ classify x = Band.exceptional) := by
  unfold classify
  by_cases h1 : x < 550
  · left; exact ⟨h1, if_pos h1⟩
  · by_cases h2 : x < 700
    · right; left
      exact ⟨by omega, h2, by rw [if_neg h1, if_pos h2]⟩
    · by_cases h3 : x < 850
      · right; right; left
        exact ⟨by omega, h3, by rw [if_neg h1, if_neg h2, if_pos h3]⟩
      · right; right; right
        exact ⟨by omega, by rw [if_neg h1, if_neg h2, if_neg h3]⟩

theorem bandLabel_eq_classify (x : Int) : bandLabel x = (classify x).label := by
  unfold bandLabel
  rcases classify_cases x with ⟨h, e⟩ | ⟨h, h', e⟩ | ⟨h, h', e⟩ | ⟨h, e⟩ <;> rw [e]
  · rw [if_neg (by omega), if_neg (by omega), if_neg (by omega)]; rfl
  · rw [if_neg (by omega), if_neg (by omega), if_pos (by omega)]; rfl
  · rw [if_neg (by omega), if_pos (by omega)]; rfl
  · rw [if_pos (by omega)]; rfl

/-- C4: score classification is total with thresholds 550, 700 and 850, ties going to the
higher band: for every integer score the band label, the assessment summary (exactly one
paragraph) and the gauge gradient are those of one and the same band, `classify s`, the
texts of different bands differ, and for `s1 < 700 ≤ s2 < 850` the band of `s1` is not
Strong and the band of `s2` is Strong. -/
theorem classification_total_same_band (s : Int) :
    bandLabel s = (classify s).label ∧
    assessmentSummary s = [(classify s).summary] ∧
    (getGradientColors s).id = (classify s).gradientId ∧
    (classify s = Band.building ↔ s < 550) ∧
    (classify s = Band.developing ↔ 550 ≤ s ∧ s < 700) ∧
    (classify s = Band.strong ↔ 700 ≤ s ∧ s < 850) ∧
    (classify s = Band.exceptional ↔ 850 ≤ s) ∧
    (∀ b1 b2 : Band, b1.label = b2.label → b1 = b2) ∧
    (∀ b1 b2 : Band, b1.summary = b2.summary → b1 = b2) ∧
    (∀ b1 b2 : Band, b1.gradientId = b2.gradientId → b1 = b2) ∧
    (∀ s1 s2 : Int, s1 < 700 → 700 ≤ s2 → s2 < 850 →
      classify s1 ≠ Band.strong ∧ classify s2 = Band.strong ∧
      bandLabel s1 ≠ Band.strong.label ∧ bandLabel s2 = Band.strong.label) := by
  have hinj : ∀ b1 b2 : Band, b1.label = b2.label → b1 = b2 := by
    intro b1 b2
    cases b1 <;> cases b2 <;> decide
  refine ⟨bandLabel_eq_classify s, ?_, ?_, ?_, ?_, ?_, ?_, hinj, ?_, ?_, ?_⟩
  · unfold assessmentSummary
    rcases classify_cases s with ⟨h, e⟩ | ⟨h, h', e⟩ | ⟨h, h', e⟩ | ⟨h, e⟩ <;> rw [e]
    · rw [if_neg (by omega), if_neg (by omega), if_neg (by omega), if_pos (by omega)]; rfl
    · rw [if_neg (by omega), if_neg (by omega), if_pos (by omega), if_neg (by omega)]; rfl
    · rw [if_neg (by omega), if_pos (by omega), if_neg (by omega), if_neg (by omega)]; rfl
    · rw [if_pos (by omega), if_neg (by omega), if_neg (by omega), if_neg (by omega)]; rfl
  · unfold getGradientColors
    rcases classify_cases s with ⟨h, e⟩ | ⟨h, h', e⟩ | ⟨h, h', e⟩ | ⟨h, e⟩ <;> rw [e]
    · rw [if_neg (by omega), if_neg (by omega), if_neg (by omega)]; rfl
    · rw [if_neg (by omega), if_neg (by omega), if_pos (by omega)]; rfl
    · rw [if_neg (by omega), if_pos (by omega)]; rfl
    · rw [if_pos (by omega)]; rfl
  · rcases classify_cases s with ⟨h, e⟩ | ⟨h, h', e⟩ | ⟨h, h', e⟩ | ⟨h, e⟩ <;> rw [e] <;>
      constructor <;> intro g <;> first | rfl | omega | cases g
  · rcases classify_cases s with ⟨h, e⟩ | ⟨h, h', e⟩ | ⟨h, h', e⟩ | ⟨h, e⟩ <;> rw [e] <;>
      constructor <;> intro g <;> first | rfl | omega | cases g
  · rcases classify_cases s with ⟨h, e⟩ | ⟨h, h', e⟩ | ⟨h, h', e⟩ | ⟨h, e⟩ <;> rw [e] <;>
      constructor <;> intro g <;> first | rfl | omega | cases g
  · rcases classify_cases s with ⟨h, e⟩ | ⟨h, h', e⟩ | ⟨h, h', e⟩ | ⟨h, e⟩ <;> rw [e] <;>
      constructor <;> intro g <;> first | rfl | omega | cases g
  · intro b1 b2
    cases b1 <;> cases b2 <;> decide
  · intro b1 b2
    cases b1 <;> cases b2 <;> decide
  · intro s1 s2 h1 h2 h3
    have e2 : classify s2 = Band.strong := by
      rcases classify_cases s2 with ⟨h, e⟩ | ⟨h, h', e⟩ | ⟨h, h', e⟩ | ⟨h, e⟩ <;>
        first | exact e | omega
    have e1 : classify s1 ≠ Band.strong := by
      rcases classify_cases s1 with ⟨h, e⟩ | ⟨h, h', e⟩ | ⟨h, h', e⟩ | ⟨h, e⟩ <;> rw [e] <;>
        first | decide | omega
    refine ⟨e1, e2, ?_, ?_⟩
    · rw [bandLabel_eq_classify s1]
      intro h
      exact e1 (hinj _ _ h)
    · rw [bandLabel_eq_classify s2, e2]

/-- The boundary of C4 at concrete scores: 699 is not Strong, 700 and 849 are Strong. -/
theorem classification_total_same_band_witness :
    classify 699 ≠ Band.strong ∧ classify 700 = Band.strong ∧
    bandLabel 699 ≠ Band.strong.label ∧ bandLabel 700 = Band.strong.label :=
  (classification_total_same_band 0).2.2.2.2.2.2.2.2.2.2 699 700 (by decide) (by decide)
    (by decide)

/-! ## RuleReconciler -/

theorem includes_iff (s p : Str) : includes s p = true ↔ p <:+: s := by
  induction s with
  | nil =>
    simp only [includes, List.isEmpty_iff]
    constructor
    · intro h; rw [h]
    · intro h; exact List.eq_nil_of_infix_nil h
  | cons c s ih =>
    simp only [includes, Bool.or_eq_true, ih, List.isPrefixOf_iff_prefix, List.infix_cons_iff]

theorem factorMatches_iff (rule : RuleDefinition) (f : Factor) :
    factorMatches rule f = true ↔ FactorMatchesRule rule f := by
  unfold factorMatches FactorMatchesRule optIncludes
  cases f.title <;> cases f.description <;> simp [includes_iff]

/-- C3: reconciliation produces exactly one record per catalog rule, in catalog order, for
every factor list; every rule that no factor matches gets the not-evaluated record
(`evaluated = false`, current value `N/A`, required value the rule's threshold text,
progress 0, no gap description); and reconciling the catalog `allRules` against the empty
factor list yields 12 records, all not evaluated with progress 0. -/
theorem reconcile_one_record_per_rule (catalog : List RuleDefinition) (factors : List Factor) :
    (reconcile catalog factors).map (fun card => card.rule) = catalog ∧
    (reconcile catalog factors).length = catalog.length ∧
    (∀ card ∈ reconcile catalog factors,
      (∀ f ∈ factors, ¬ FactorMatchesRule card.rule f) →
        card.isEvaluated = false ∧ card.userFactor = none ∧
        card.statusBadge.text = "○ Not Evaluated".toList ∧
        card.statusBadge.currentValue = "N/A".toList ∧
        card.statusBadge.requiredValue = card.rule.threshold ∧
        card.statusBadge.progress = 0 ∧ card.statusBadge.gap = none) ∧
    (reconcile allRules []).length = 12 ∧
    (∀ card ∈ reconcile allRules [],
      card.isEvaluated = false ∧ card.statusBadge.progress = 0) := by
  refine ⟨?_, ?_, ?_, by decide, by decide⟩
  · unfold reconcile
    rw [List.map_map]
    conv_rhs => rw [← List.map_id catalog]
    apply List.map_congr_left
    intro rule _
    rfl
  · simp [reconcile]
  · intro card hcard hno
    simp only [reconcile, List.mem_map] at hcard
    obtain ⟨rule, _, rfl⟩ := hcard
    have hnone : userFactor factors rule = none := by
      unfold userFactor
      rw [List.find?_eq_none]
      intro f hf hm
      exact hno f hf ((factorMatches_iff rule f).mp hm)
    simp [ruleCard, hnone, statusBadge]

/-- C3 at a concrete input: against one factor titled `Account Tenure`, the catalog still
yields its 12 rules in order. -/
theorem reconcile_one_record_per_rule_witness :
    (reconcile allRules
      [{ id := [], title := some "Account Tenure".toList, description := none,
         type := FactorType.neutral, impact := [], icon := [] }]).map
      (fun card => card.rule) = allRules :=
  (reconcile_one_record_per_rule allRules
      [{ id := [], title := some "Account Tenure".toList, description := none,
         type := FactorType.neutral, impact := [], icon := [] }]).1

/-- C5: a rule is evaluated if and only if some factor's title or description contains the
rule's name; the matched factor is then the first such factor of the list; so `evaluated`
is `matchedFactor != null`, and the status is `Not Evaluated` if and only if the rule is not
evaluated.  Stated for the record `ruleCard factors rule` that `reconcile` computes for
each rule. -/
theorem evaluated_iff_first_matching_factor (factors : List Factor) (rule : RuleDefinition) :
    ((ruleCard factors rule).isEvaluated = true ↔ ∃ f ∈ factors, FactorMatchesRule rule f) ∧
    (∀ f, (ruleCard factors rule).userFactor = some f ↔
      ∃ pre post, factors = pre ++ f :: post ∧ FactorMatchesRule rule f ∧
        ∀ g ∈ pre, ¬ FactorMatchesRule rule g) ∧
    ((ruleCard factors rule).isEvaluated = (ruleCard factors rule).userFactor.isSome) ∧
    ((ruleCard factors rule).statusBadge.text = "○ Not Evaluated".toList ↔
      (ruleCard factors rule).isEvaluated = false) := by
  refine ⟨?_, ?_, rfl, ?_⟩
  · simp only [ruleCard, userFactor, List.find?_isSome, factorMatches_iff]
  · intro f
    simp only [ruleCard, userFactor, List.find?_eq_some, factorMatches_iff, Bool.not_eq_true',
      ← Bool.not_eq_true]
    constructor
    · rintro ⟨hm, pre, post, hd, hpre⟩
      exact ⟨pre, post, hd, hm, hpre⟩
    · rintro ⟨pre, post, hd, hm, hpre⟩
      exact ⟨hm, pre, post, hd, hpre⟩
  · simp only [ruleCard]
    cases huf : userFactor factors rule with
    | none => simp [statusBadge]
    | some f =>
      simp only [statusBadge, Option.isSome_some]
      cases f.type <;> simp

/-- C6: for an evaluated rule, satisfaction and gap label are determined by the matched
factor's type alone: satisfied with no gap description if and only if the type is positive,
partial with gap `Additional progress needed` if and only if it is neutral, unsatisfied
with gap `Requirements not met` if and only if it is negative. -/
theorem satisfaction_determined_by_type (factors : List Factor) (rule : RuleDefinition)
    (f : Factor) (h : (ruleCard factors rule).userFactor = some f) :
    ((ruleCard factors rule).statusBadge.text = "✓ Satisfied".toList ↔
      f.type = FactorType.positive) ∧
    ((ruleCard factors rule).statusBadge.gap = none ↔ f.type = FactorType.positive) ∧
    ((ruleCard factors rule).isSatisfied = true ↔ f.type = FactorType.positive) ∧
    ((ruleCard factors rule).statusBadge.text = "◐ Partially Satisfied".toList ↔
      f.type = FactorType.neutral) ∧
    ((ruleCard factors rule).statusBadge.gap = some "Additional progress needed".toList ↔
      f.type = FactorType.neutral) ∧
    ((ruleCard factors rule).isPartial = true ↔ f.type = FactorType.neutral) ∧
    ((ruleCard factors rule).statusBadge.text = "✗ Not Satisfied".toList ↔
      f.type = FactorType.negative) ∧
    ((ruleCard factors rule).statusBadge.gap = some "Requirements not met".toList ↔
      f.type = FactorType.negative) := by
  simp only [ruleCard] at h
  simp only [ruleCard, h, statusBadge]
  obtain ⟨fid, title, desc, ty, impact, icon⟩ := f
  cases ty <;> simp

/-- C6 at a concrete input: a neutral factor titled `Account Tenure` makes rule D1
partially satisfied. -/
theorem satisfaction_determined_by_type_witness :
    (ruleCard [{ id := [], title := some "Account Tenure".toList, description := none,
                 type := FactorType.neutral, impact := [], icon := [] }]
        { id := "D1".toList, category := [], name := "Account Tenure".toList,
          description := [], threshold := [], maxPoints := 30, rationale := [],
          color := [] }).statusBadge.gap = some "Additional progress needed".toList :=
  (satisfaction_determined_by_type
    [{ id := [], title := some "Account Tenure".toList, description := none,
       type := FactorType.neutral, impact := [], icon := [] }]
    { id := "D1".toList, category := [], name := "Account Tenure".toList,
      description := [], threshold := [], maxPoints := 30, rationale := [], color := [] }
    { id := [], title := some "Account Tenure".toList, description := none,
      type := FactorType.neutral, impact := [], icon := [] } (by decide)).2.2.2.2.1.mpr rfl

theorem progressPercentOf_cases (d : Str) :
    progressPercentOf d = 100 ∨ progressPercentOf d = 50 ∨
    ∃ whole g, percentRe.exec false d = some [whole, g] ∧ progressPercentOf d = parseInt g := by
  unfold progressPercentOf
  simp only
  split
  · exact Or.inl rfl
  · split
    · exact Or.inl rfl
    · split
      · rename_i whole g heq
        exact Or.inr (Or.inr ⟨whole, g, heq, rfl⟩)
      · exact Or.inr (Or.inl rfl)

/-- C7, the code at the failing input: for a not-satisfied factor whose description reports
`Your Value: 72.5%` and whose status text has none of the four tokens, `progressPercent` is
5 (the digits that stand directly before `%`), while the value extractor and its
bare-percentage family both read the percentage of that description as `72.5%`. -/
theorem progress_misreads_decimal_percentage :
    (reconcile allRules [decimalPercentFactor]).map (fun card => card.statusBadge.progress) =
      [0, 5, 0, 0, 0, 0, 0, 0, 0, 0, 0, 0] ∧
    statusTextOf (decimalPercentFactor.description.getD []) = "✗ Not Met".toList ∧
    percentRe.exec false (decimalPercentFactor.description.getD []) =
      some ["5%".toList, "5".toList] ∧
    pattern2.exec true (decimalPercentFactor.description.getD []) =
      some ["72.5%".toList, "72.5%".toList] ∧
    extractDataValue (decimalPercentFactor.description.getD []) = some "72.5%".toList := by
  refine ⟨by decide, by decide, by decide, by decide, by decide⟩

/-- Below `2^53` the Number value of an integer is the integer. -/
theorem numberValue_of_lt (n : Nat) (h : n < 2 ^ 53) : numberValue n = (n : ENat) := by
  unfold numberValue
  rw [if_pos h]

theorem excessBits_upper : ∀ fuel n, n < 2 ^ 53 * 2 ^ fuel →
    n / 2 ^ excessBits fuel n < 2 ^ 53 := by
  intro fuel
  induction fuel with
  | zero =>
    intro n h
    simpa [excessBits] using h
  | succ k ih =>
    intro n h
    by_cases hn : n < 2 ^ 53
    · simp only [excessBits, if_pos hn, pow_zero, Nat.div_one]
      exact hn
    · simp only [excessBits, if_neg hn]
      have h2 : n / 2 < 2 ^ 53 * 2 ^ k := by
        rw [pow_succ] at h
        omega
      have := ih (n / 2) h2
      rw [pow_succ, Nat.mul_comm, ← Nat.div_div_eq_div_mul]
      exact this

theorem excessBits_lower : ∀ fuel n, 2 ^ 53 ≤ n → 2 ^ 52 ≤ n / 2 ^ excessBits fuel n := by
  intro fuel
  induction fuel with
  | zero =>
    intro n h
    simp only [excessBits, pow_zero, Nat.div_one]
    omega
  | succ k ih =>
    intro n h
    have hn : ¬ n < 2 ^ 53 := by omega
    have key : ∀ e, n / 2 ^ (e + 1) = n / 2 / 2 ^ e := fun e => by
      rw [pow_succ, Nat.mul_comm, Nat.div_div_eq_div_mul]
    simp only [excessBits, if_neg hn]
    rw [key]
    by_cases h2 : 2 ^ 53 ≤ n / 2
    · exact ih (n / 2) h2
    · have h3 : n / 2 < 2 ^ 53 := by omega
      have h0 : excessBits k (n / 2) = 0 := by
        cases k with
        | zero => rfl
        | succ j => simp only [excessBits, if_pos h3]
      rw [h0, pow_zero, Nat.div_one]
      omega

/-- From `2^53` on, the exponent `numberValue` rounds at leaves a significand of exactly 53
binary digits. -/
theorem excessBits_significand (n : Nat) (h : 2 ^ 53 ≤ n) :
    2 ^ 52 ≤ n / 2 ^ excessBits n n ∧ n / 2 ^ excessBits n n < 2 ^ 53 := by
  refine ⟨excessBits_lower n n h, excessBits_upper n n ?_⟩
  calc n < 2 ^ n := Nat.lt_two_pow n
    _ ≤ 2 ^ 53 * 2 ^ n := Nat.le_mul_of_pos_left _ (by positivity)

/-- Above `2^53` the Number value is the nearest double: `2^53 + 1` lies half-way between
two doubles and goes to the even one, `2^53`; `2^53 + 3` goes to `2^53 + 4`. -/
theorem numberValue_rounds :
    numberValue (2 ^ 53 + 1) = ((2 ^ 53 : Nat) : ENat) ∧
    numberValue (2 ^ 53 + 3) = ((2 ^ 53 + 4 : Nat) : ENat) ∧
    parseInt "9007199254740993".toList = ((9007199254740992 : Nat) : ENat) := by
  refine ⟨by decide, by decide, by decide⟩

set_option maxRecDepth 100000 in
/-- C10 fails as stated: the neutral factor `overHundredFactor` gives rule C2 the progress
150. -/
theorem progress_above_hundred :
    ∃ card ∈ reconcile allRules [overHundredFactor], ¬ card.statusBadge.progress ≤ 100 := by
  refine ⟨ruleCard [overHundredFactor] (allRules.get ⟨7, by decide⟩), ?_, ?_⟩
  · exact List.mem_map_of_mem _ (List.get_mem _ _ _)
  · decide

/-- C10 as amended: for every catalog and factor list, the progress of every reconciled
rule is at most 100, except for an evaluated rule whose factor is not positive and whose
description's leftmost percentage figure (digits directly followed by `%`) is above 100:
there the progress is the Number value `parseInt` gives for that figure, which is above
100 and is the figure itself when the figure is below `2^53`. -/
theorem progress_bounded_unless_percent_above (catalog : List RuleDefinition)
    (factors : List Factor) (card : RuleCard) (hcard : card ∈ reconcile catalog factors) :
    card.statusBadge.progress ≤ 100 ∨
    ∃ f whole g, card.userFactor = some f ∧ f.type ≠ FactorType.positive ∧
      percentRe.exec false (f.description.getD []) = some [whole, g] ∧
      card.statusBadge.progress = parseInt g ∧ 100 < parseInt g ∧ 100 < digitsValue g ∧
      (digitsValue g < 2 ^ 53 → card.statusBadge.progress = (digitsValue g : ENat)) := by
  simp only [reconcile, List.mem_map] at hcard
  obtain ⟨rule, _, rfl⟩ := hcard
  simp only [ruleCard]
  cases huf : userFactor factors rule with
  | none => left; simp [statusBadge]
  | some f =>
    by_cases hp : f.type = FactorType.positive
    · left; simp [statusBadge, hp]
    · have hprog : (statusBadge rule (some f)).progress =
          progressPercentOf (f.description.getD []) := by
        simp only [statusBadge, if_neg hp]
        split <;> rfl
      rw [hprog]
      rcases progressPercentOf_cases (f.description.getD []) with h | h | ⟨whole, g, he, hg⟩
      · left; rw [h]
      · left; rw [h]; decide
      · by_cases hle : parseInt g ≤ 100
        · left; rw [hg]; exact hle
        · right
          have hlt : 100 < parseInt g := lt_of_not_ge hle
          refine ⟨f, whole, g, rfl, hp, he, hg, hlt, ?_, ?_⟩
          · by_contra hc
            have hsmall : digitsValue g < 2 ^ 53 := by omega
            apply hle
            unfold parseInt
            rw [numberValue_of_lt _ hsmall]
            exact_mod_cast (by omega : digitsValue g ≤ 100)
          · intro hsmall
            rw [hg]
            unfold parseInt
            exact numberValue_of_lt _ hsmall

set_option maxRecDepth 100000 in
/-- C10 as amended, at a concrete input: for the neutral factor `overHundredFactor`, whose
description reports 150%, the progress of rule C2 is not at most 100, and it is the
leftmost percentage figure of the description, 150. -/
theorem progress_bounded_unless_percent_above_witness :
    (ruleCard [overHundredFactor] (allRules.get ⟨7, by decide⟩)).statusBadge.progress = 150 ∧
    ∃ f whole g,
      (ruleCard [overHundredFactor] (allRules.get ⟨7, by decide⟩)).userFactor = some f ∧
      f.type ≠ FactorType.positive ∧
      percentRe.exec false (f.description.getD []) = some [whole, g] ∧
      (ruleCard [overHundredFactor] (allRules.get ⟨7, by decide⟩)).statusBadge.progress =
        parseInt g ∧
      100 < parseInt g ∧ 100 < digitsValue g ∧
      (digitsValue g < 2 ^ 53 →
        (ruleCard [overHundredFactor] (allRules.get ⟨7, by decide⟩)).statusBadge.progress =
          (digitsValue g : ENat)) :=
  ⟨by decide,
   (progress_bounded_unless_percent_above allRules [overHundredFactor] _
    (List.mem_map_of_mem _ (List.get_mem _ _ _))).resolve_left (by decide)⟩

/-! ## DescriptionParser -/

theorem split_of_not_mem (sep : Char) (l : Str) (h : sep ∉ l) : split sep l = [l] := by
  induction l with
  | nil => rfl
  | cons c l ih =>
    have hc : c ≠ sep := fun e => h (by simp [e])
    have hl : sep ∉ l := fun e => h (by simp [e])
    simp only [split, if_neg hc, ih hl]

theorem split_append_sep (sep : Char) (l rest : Str) (h : sep ∉ l) :
    split sep (l ++ sep :: rest) = l :: split sep rest := by
  induction l with
  | nil => simp [split]
  | cons c l ih =>
    have hc : c ≠ sep := fun e => h (by simp [e])
    have hl : sep ∉ l := fun e => h (by simp [e])
    have e : split sep (c :: (l ++ sep :: rest)) =
        match split sep (l ++ sep :: rest) with
        | [] => [[c]]
        | l1 :: ls => (c :: l1) :: ls := by
      simp only [split, if_neg hc]
    rw [List.cons_append, e, ih hl]

theorem split_joinLines (ls : List Str) (hne : ls ≠ []) (h : ∀ l ∈ ls, '\n' ∉ l) :
    split '\n' (joinLines ls) = ls := by
  induction ls with
  | nil => exact absurd rfl hne
  | cons l ls ih =>
    cases ls with
    | nil =>
      simp only [joinLines]
      exact split_of_not_mem _ _ (h l (by simp))
    | cons m ms =>
      simp only [joinLines]
      rw [split_append_sep _ _ _ (h l (by simp)), ih (by simp) (fun x hx => h x (by simp [hx]))]

theorem descriptionLines_joinLines (ls : List Str) (hne : ls ≠ [])
    (h : ∀ l ∈ ls, '\n' ∉ l) (hb : ∀ l ∈ ls, trim l ≠ []) :
    descriptionLines (joinLines ls) = ls := by
  unfold descriptionLines
  rw [split_joinLines ls hne h, List.filter_eq_self]
  intro l hl
  simpa [List.isEmpty_iff] using hb l hl

theorem parseRuleDescription_of_ne (d : Str) (h : d ≠ []) :
    parseRuleDescription (some d) =
      some ((descriptionLines d).foldl parseLine ParsedRule.init) := by
  cases d with
  | nil => exact absurd rfl h
  | cons c s => rfl

/-- A text does not start with `p` when it starts with a `q` that parts ways with `p`. -/
theorem startsWith_append_false (p q t : Str) (h1 : p.isPrefixOf q = false)
    (h2 : q.isPrefixOf p = false) : startsWith (q ++ t) p = false := by
  unfold startsWith
  by_contra hc
  have hp : p <+: q ++ t := List.isPrefixOf_iff_prefix.mp (by simpa using hc)
  have hq : q <+: q ++ t := List.prefix_append q t
  rcases Nat.le_total p.length q.length with hle | hle
  · have := List.prefix_of_prefix_length_le hp hq hle
    rw [← List.isPrefixOf_iff_prefix, h1] at this
    cases this
  · have := List.prefix_of_prefix_length_le hq hp hle
    rw [← List.isPrefixOf_iff_prefix, h2] at this
    cases this

theorem startsWith_append_true (p q t : Str) (h : p.isPrefixOf q = true) :
    startsWith (q ++ t) p = true := by
  unfold startsWith
  rw [List.isPrefixOf_iff_prefix] at h ⊢
  exact h.trans (List.prefix_append q t)

theorem eq_append_of_startsWith {s p : Str} (h : startsWith s p = true) :
    ∃ t, s = p ++ t := by
  unfold startsWith at h
  obtain ⟨t, ht⟩ := List.isPrefixOf_iff_prefix.mp h
  exact ⟨t, ht.symm⟩

theorem replace_at_start (pat rep s : Str) (hne : pat ≠ []) :
    replace pat rep (pat ++ s) = rep ++ s := by
  cases pat with
  | nil => exact absurd rfl hne
  | cons c pat =>
    have hp : (c :: pat).isPrefixOf (c :: (pat ++ s)) = true :=
      List.isPrefixOf_iff_prefix.mpr (List.prefix_append (c :: pat) s)
    simp only [List.cons_append, replace, hp, if_true]
    simp

theorem trim_space_cons (s : Str) : trim (' ' :: s) = trim s := by
  unfold trim trimStart
  rw [List.dropWhile_cons, if_pos (by decide)]

theorem first_lit (p t : Str) : (Re.lit p).First false (p ++ t) [] t := by
  induction p with
  | nil => exact first_eps false t
  | cons c p ih => exact first_seq (first_chr c (p ++ t)) ih

theorem consumed_nil (s : Str) : consumed s [] = s := by
  simp [consumed]

/-- The rule header pattern on `Rule <letter><digits>: <name>`. -/
theorem ruleHeader_exec (L : Char) (digits name : Str) (hL : isUpperAZ L = true)
    (hd : digits ≠ []) (hds : ∀ c ∈ digits, isDigit c = true) (hne : name ≠ [])
    (htrim : trim name = name) (hlt : ∀ c ∈ name, isLineTerminator c = false) :
    ruleHeaderRe.exec false ("Rule ".toList ++ (L :: digits) ++ ": ".toList ++ name) =
      some ["Rule ".toList ++ (L :: digits) ++ ": ".toList ++ name, L :: digits, name] := by
  obtain ⟨n0, nt, hname, hn0⟩ := head_of_trim_eq htrim hne
  obtain ⟨d0, dt, hdig⟩ : ∃ d0 dt, digits = d0 :: dt := by
    cases digits with
    | nil => exact absurd rfl hd
    | cons d0 dt => exact ⟨d0, dt, rfl⟩
  have hd0 : isDigit d0 = true := hds d0 (by simp [hdig])
  have hdt : ∀ c ∈ dt, isDigit c = true := fun c hc => hds c (by simp [hdig, hc])
  have hdot : ∀ c ∈ name, isDot c = true := fun c hc => by simp [isDot, hlt c hc]
  have e1 : "Rule ".toList ++ (L :: digits) ++ ": ".toList ++ name =
      "Rule ".toList ++ (L :: (d0 :: (dt ++ ':' :: ' ' :: name))) := by
    simp [hdig]
  -- the five parts of the pattern, in order
  have p1 := first_lit "Rule ".toList (L :: (d0 :: (dt ++ ':' :: ' ' :: name)))
  have p2 : (Re.grp (Re.seq (Re.cls isUpperAZ) (Re.plus (Re.cls isDigit)))).First false
      (L :: (d0 :: (dt ++ ':' :: ' ' :: name))) [L :: digits] (':' :: ' ' :: name) := by
    have h := first_grp (first_seq (first_cls false isUpperAZ L _ hL)
      (first_plus_cls false isDigit d0 (dt ++ ':' :: ' ' :: name) hd0))
    rw [dropWhile_append_stop isDigit dt ':' (' ' :: name) hdt (by decide)] at h
    have hc : consumed (L :: (d0 :: (dt ++ ':' :: ' ' :: name))) (':' :: ' ' :: name) =
        L :: digits := by
      have := consumed_append_left (L :: d0 :: dt) (':' :: ' ' :: name)
      simpa [hdig] using this
    rw [hc] at h
    exact h
  have p3 := first_chr ':' (' ' :: name)
  have p4 : (Re.star (Re.cls isWhiteSpace)).First false (' ' :: name) [] name := by
    have h := first_star_cls false isWhiteSpace (' ' :: name)
    rw [List.dropWhile_cons, if_pos (by decide), hname, List.dropWhile_cons,
      if_neg (by simp [hn0])] at h
    rw [hname]
    exact h
  have p5 : (Re.grp (Re.plus (Re.cls isDot))).First false name [name] [] := by
    have h := first_grp (first_plus_cls false isDot n0 nt (hdot n0 (by simp [hname])))
    rw [dropWhile_all isDot nt (fun c hc => hdot c (by simp [hname, hc])), consumed_nil,
      ← hname] at h
    exact h
  have hall : ruleHeaderRe.First false
      ("Rule ".toList ++ (L :: (d0 :: (dt ++ ':' :: ' ' :: name)))) [L :: digits, name] [] :=
    first_seq p1 (first_seq p2 (first_seq p3 (first_seq p4 (first_seq p5 (first_eps false [])))))
  rw [e1, exec_of_first hall, consumed_nil]

theorem parseLine_ruleHeader (p : ParsedRule) (L : Char) (digits name : Str)
    (hL : isUpperAZ L = true) (hd : digits ≠ []) (hds : ∀ c ∈ digits, isDigit c = true)
    (hne : name ≠ []) (htrim : trim name = name)
    (hlt : ∀ c ∈ name, isLineTerminator c = false) :
    parseLine p ("Rule ".toList ++ (L :: digits) ++ ": ".toList ++ name) =
      { p with ruleId := some (L :: digits), ruleName := some name } := by
  have hline : trim ("Rule ".toList ++ (L :: digits) ++ ": ".toList ++ name) =
      "Rule ".toList ++ (L :: digits) ++ ": ".toList ++ name := by
    have := trim_append_eq 'R' ("ule ".toList ++ (L :: digits) ++ ": ".toList) name
      (by decide) htrim hne
    simpa using this
  have e : "Rule ".toList ++ (L :: digits) ++ ": ".toList ++ name =
      "Rule ".toList ++ ((L :: digits) ++ ": ".toList ++ name) := by simp
  have f1 : startsWith ("Rule ".toList ++ (L :: digits) ++ ": ".toList ++ name)
      "Rule ".toList = true := by
    rw [e]; exact startsWith_append_true _ _ _ (by decide)
  have f2 : startsWith ("Rule ".toList ++ (L :: digits) ++ ": ".toList ++ name)
      "Your Value:".toList = false := by
    rw [e]; exact startsWith_append_false _ _ _ (by decide) (by decide)
  have f3 : startsWith ("Rule ".toList ++ (L :: digits) ++ ": ".toList ++ name)
      "Required Threshold:".toList = false := by
    rw [e]; exact startsWith_append_false _ _ _ (by decide) (by decide)
  have f4 : startsWith ("Rule ".toList ++ (L :: digits) ++ ": ".toList ++ name)
      "Status:".toList = false := by
    rw [e]; exact startsWith_append_false _ _ _ (by decide) (by decide)
  have f5 : startsWith ("Rule ".toList ++ (L :: digits) ++ ": ".toList ++ name)
      "Based on documented".toList = false := by
    rw [e]; exact startsWith_append_false _ _ _ (by decide) (by decide)
  simp only [parseLine, hline, f1, f2, f3, f4, f5,
    ruleHeader_exec L digits name hL hd hds hne htrim hlt]
  simp

theorem parseLine_yourValue (p : ParsedRule) (v : Str) (hv : trim v = v) (hne : v ≠ []) :
    parseLine p ("Your Value: ".toList ++ v) = { p with yourValue := some v } := by
  have hline : trim ("Your Value: ".toList ++ v) = "Your Value: ".toList ++ v :=
    trim_append_eq 'Y' "our Value: ".toList v (by decide) hv hne
  have f1 : startsWith ("Your Value: ".toList ++ v) "Rule ".toList = false :=
    startsWith_append_false _ _ _ (by decide) (by decide)
  have f2 : startsWith ("Your Value: ".toList ++ v) "Your Value:".toList = true :=
    startsWith_append_true _ _ _ (by decide)
  have f3 : startsWith ("Your Value: ".toList ++ v) "Required Threshold:".toList = false :=
    startsWith_append_false _ _ _ (by decide) (by decide)
  have f4 : startsWith ("Your Value: ".toList ++ v) "Status:".toList = false :=
    startsWith_append_false _ _ _ (by decide) (by decide)
  have f5 : startsWith ("Your Value: ".toList ++ v) "Based on documented".toList = false :=
    startsWith_append_false _ _ _ (by decide) (by decide)
  have hrep : replace "Your Value:".toList [] ("Your Value: ".toList ++ v) = ' ' :: v :=
    replace_at_start "Your Value:".toList [] (' ' :: v) (by decide)
  simp only [parseLine, hline, f1, f2, f3, f4, f5, hrep, trim_space_cons, hv]
  simp

theorem parseLine_requiredThreshold (p : ParsedRule) (v : Str) (hv : trim v = v)
    (hne : v ≠ []) :
    parseLine p ("Required Threshold: ".toList ++ v) =
      { p with requiredThreshold := some v } := by
  have hline : trim ("Required Threshold: ".toList ++ v) = "Required Threshold: ".toList ++ v :=
    trim_append_eq 'R' "equired Threshold: ".toList v (by decide) hv hne
  have f1 : startsWith ("Required Threshold: ".toList ++ v) "Rule ".toList = false :=
    startsWith_append_false _ _ _ (by decide) (by decide)
  have f2 : startsWith ("Required Threshold: ".toList ++ v) "Your Value:".toList = false :=
    startsWith_append_false _ _ _ (by decide) (by decide)
  have f3 : startsWith ("Required Threshold: ".toList ++ v)
      "Required Threshold:".toList = true :=
    startsWith_append_true _ _ _ (by decide)
  have f4 : startsWith ("Required Threshold: ".toList ++ v) "Status:".toList = false :=
    startsWith_append_false _ _ _ (by decide) (by decide)
  have f5 : startsWith ("Required Threshold: ".toList ++ v)
      "Based on documented".toList = false :=
    startsWith_append_false _ _ _ (by decide) (by decide)
  have hrep : replace "Required Threshold:".toList [] ("Required Threshold: ".toList ++ v) =
      ' ' :: v :=
    replace_at_start "Required Threshold:".toList [] (' ' :: v) (by decide)
  simp only [parseLine, hline, f1, f2, f3, f4, f5, hrep, trim_space_cons, hv]
  simp

theorem parseLine_status (p : ParsedRule) (v : Str) (hv : trim v = v) (hne : v ≠ []) :
    parseLine p ("Status: ".toList ++ v) = { p with status := some v } := by
  have hline : trim ("Status: ".toList ++ v) = "Status: ".toList ++ v :=
    trim_append_eq 'S' "tatus: ".toList v (by decide) hv hne
  have f1 : startsWith ("Status: ".toList ++ v) "Rule ".toList = false :=
    startsWith_append_false _ _ _ (by decide) (by decide)
  have f2 : startsWith ("Status: ".toList ++ v) "Your Value:".toList = false :=
    startsWith_append_false _ _ _ (by decide) (by decide)
  have f3 : startsWith ("Status: ".toList ++ v) "Required Threshold:".toList = false :=
    startsWith_append_false _ _ _ (by decide) (by decide)
  have f4 : startsWith ("Status: ".toList ++ v) "Status:".toList = true :=
    startsWith_append_true _ _ _ (by decide)
  have f5 : startsWith ("Status: ".toList ++ v) "Based on documented".toList = false :=
    startsWith_append_false _ _ _ (by decide) (by decide)
  have hrep : replace "Status:".toList [] ("Status: ".toList ++ v) = ' ' :: v :=
    replace_at_start "Status:".toList [] (' ' :: v) (by decide)
  simp only [parseLine, hline, f1, f2, f3, f4, f5, hrep, trim_space_cons, hv]
  simp

/-- A line without a recognised prefix is appended to the explanation when the status
parsed so far is non-empty, and changes nothing otherwise. -/
theorem parseLine_plain (p : ParsedRule) (raw : Str)
    (h : hasRecognisedPrefix (trim raw) = false) :
    parseLine p raw =
      if truthy p.status then { p with explanation := p.explanation ++ [trim raw] } else p := by
  simp only [hasRecognisedPrefix, Bool.or_eq_false_iff] at h
  obtain ⟨⟨⟨⟨f1, f2⟩, f3⟩, f4⟩, f5⟩ := h
  simp only [parseLine, f1, f2, f3, f4, f5]
  by_cases ht : truthy p.status = true
  · simp [ht]
  · simp [ht]

theorem parseLine_insight (p : ParsedRule) (raw : Str)
    (h : startsWith (trim raw) "Based on documented".toList = true) :
    parseLine p raw = { p with insight := some (trim raw) } := by
  obtain ⟨t, ht⟩ := eq_append_of_startsWith h
  have f1 : startsWith (trim raw) "Rule ".toList = false := by
    rw [ht]; exact startsWith_append_false _ _ _ (by decide) (by decide)
  have f2 : startsWith (trim raw) "Your Value:".toList = false := by
    rw [ht]; exact startsWith_append_false _ _ _ (by decide) (by decide)
  have f3 : startsWith (trim raw) "Required Threshold:".toList = false := by
    rw [ht]; exact startsWith_append_false _ _ _ (by decide) (by decide)
  have f4 : startsWith (trim raw) "Status:".toList = false := by
    rw [ht]; exact startsWith_append_false _ _ _ (by decide) (by decide)
  simp only [parseLine, f1, f2, f3, f4, h]
  simp

theorem foldl_parseLine_plain (ls : List Str)
    (h : ∀ l ∈ ls, trim l = l ∧ hasRecognisedPrefix l = false) :
    ∀ p : ParsedRule, truthy p.status = true →
      ls.foldl parseLine p = { p with explanation := p.explanation ++ ls } := by
  induction ls with
  | nil => intro p _; simp
  | cons l ls ih =>
    intro p hp
    have hl := h l (by simp)
    have hpre : hasRecognisedPrefix (trim l) = false := by rw [hl.1]; exact hl.2
    rw [List.foldl_cons, parseLine_plain p l hpre, if_pos hp, hl.1,
      ih (fun x hx => h x (by simp [hx])) { p with explanation := p.explanation ++ [l] } hp]
    simp

theorem not_mem_of_all {q : Char → Bool} {s : Str} {x : Char} (h : ∀ c ∈ s, q c = true)
    (hx : q x = false) : x ∉ s := by
  intro hmem
  rw [h x hmem] at hx
  cases hx

/-- The fields parsed from a well-formed description. -/
theorem parse_well_formed_fields (L : Char) (digits name value threshold status : Str)
    (explanation : List Str) (insight : Str)
    (hL : isUpperAZ L = true) (hd : digits ≠ []) (hds : ∀ c ∈ digits, isDigit c = true)
    (hname : name ≠ [] ∧ trim name = name ∧ ∀ c ∈ name, isLineTerminator c = false)
    (hvalue : value ≠ [] ∧ trim value = value ∧ '\n' ∉ value)
    (hthreshold : threshold ≠ [] ∧ trim threshold = threshold ∧ '\n' ∉ threshold)
    (hstatus : status ≠ [] ∧ trim status = status ∧ '\n' ∉ status)
    (hexpl : ∀ l ∈ explanation,
      l ≠ [] ∧ trim l = l ∧ '\n' ∉ l ∧ hasRecognisedPrefix l = false)
    (hins : trim insight = insight ∧ '\n' ∉ insight ∧
      startsWith insight "Based on documented".toList = true) :
    parseRuleDescription
        (some (wellFormedDescription (L :: digits) name value threshold status
          explanation insight)) =
      some { ruleId := some (L :: digits), ruleName := some name, yourValue := some value,
             requiredThreshold := some threshold, status := some status,
             explanation := explanation, insight := some insight } := by
  obtain ⟨hn1, hn2, hn3⟩ := hname
  obtain ⟨hv1, hv2, hv3⟩ := hvalue
  obtain ⟨ht1, ht2, ht3⟩ := hthreshold
  obtain ⟨hs1, hs2, hs3⟩ := hstatus
  obtain ⟨hi1, hi2, hi3⟩ := hins
  have hins_ne : insight ≠ [] := by
    obtain ⟨t, ht⟩ := eq_append_of_startsWith hi3
    rw [ht]
    exact fun h => by cases h
  -- each line is unchanged by trimming and contains no line feed
  have tr1 : trim ("Rule ".toList ++ (L :: digits) ++ ": ".toList ++ name) =
      "Rule ".toList ++ (L :: digits) ++ ": ".toList ++ name := by
    have := trim_append_eq 'R' ("ule ".toList ++ (L :: digits) ++ ": ".toList) name
      (by decide) hn2 hn1
    simpa using this
  have tr2 : trim ("Your Value: ".toList ++ value) = "Your Value: ".toList ++ value :=
    trim_append_eq 'Y' "our Value: ".toList value (by decide) hv2 hv1
  have tr3 : trim ("Required Threshold: ".toList ++ threshold) =
      "Required Threshold: ".toList ++ threshold :=
    trim_append_eq 'R' "equired Threshold: ".toList threshold (by decide) ht2 ht1
  have tr4 : trim ("Status: ".toList ++ status) = "Status: ".toList ++ status :=
    trim_append_eq 'S' "tatus: ".toList status (by decide) hs2 hs1
  have nl1 : '\n' ∉ "Rule ".toList ++ (L :: digits) ++ ": ".toList ++ name := by
    have a1 : '\n' ∉ digits := not_mem_of_all hds (by decide)
    have a2 : '\n' ∉ name := fun hmem => by
      have := hn3 '\n' hmem
      revert this
      decide
    have a3 : '\n' ≠ L := fun e => by
      rw [← e] at hL
      revert hL
      decide
    have a4 : '\n' ∉ "Rule ".toList := by decide
    have a5 : '\n' ∉ ": ".toList := by decide
    simp only [List.mem_append, List.mem_cons, not_or]
    exact ⟨⟨⟨a4, a3, a1⟩, a5⟩, a2⟩
  have nl2 : '\n' ∉ "Your Value: ".toList ++ value := by
    have a4 : '\n' ∉ "Your Value: ".toList := by decide
    simp only [List.mem_append, not_or]
    exact ⟨a4, hv3⟩
  have nl3 : '\n' ∉ "Required Threshold: ".toList ++ threshold := by
    have a4 : '\n' ∉ "Required Threshold: ".toList := by decide
    simp only [List.mem_append, not_or]
    exact ⟨a4, ht3⟩
  have nl4 : '\n' ∉ "Status: ".toList ++ status := by
    have a4 : '\n' ∉ "Status: ".toList := by decide
    simp only [List.mem_append, not_or]
    exact ⟨a4, hs3⟩
  have hlines : descriptionLines (wellFormedDescription (L :: digits) name value threshold
      status explanation insight) =
      ["Rule ".toList ++ (L :: digits) ++ ": ".toList ++ name,
       "Your Value: ".toList ++ value,
       "Required Threshold: ".toList ++ threshold,
       "Status: ".toList ++ status] ++ explanation ++ [insight] := by
    unfold wellFormedDescription
    apply descriptionLines_joinLines
    · simp
    · intro l hl
      simp only [List.mem_append, List.mem_cons, List.mem_singleton, List.not_mem_nil,
        or_false] at hl
      rcases hl with ((rfl | rfl | rfl | rfl) | hl) | rfl
      · exact nl1
      · exact nl2
      · exact nl3
      · exact nl4
      · exact (hexpl l hl).2.2.1
      · exact hi2
    · intro l hl
      simp only [List.mem_append, List.mem_cons, List.mem_singleton, List.not_mem_nil,
        or_false] at hl
      rcases hl with ((rfl | rfl | rfl | rfl) | hl) | rfl
      · rw [tr1]; simp
      · rw [tr2]; simp
      · rw [tr3]; simp
      · rw [tr4]; simp
      · rw [(hexpl l hl).2.1]; exact (hexpl l hl).1
      · rw [hi1]; exact hins_ne
  have hne : wellFormedDescription (L :: digits) name value threshold status explanation
      insight ≠ [] := by
    intro h0
    rw [h0] at hlines
    revert hlines
    simp [descriptionLines, split, trim, trimStart, trimEnd]
  rw [parseRuleDescription_of_ne _ hne, hlines, List.foldl_append, List.foldl_append]
  simp only [List.foldl_cons, List.foldl_nil]
  rw [parseLine_ruleHeader _ L digits name hL hd hds hn1 hn2 hn3,
    parseLine_yourValue _ value hv2 hv1, parseLine_requiredThreshold _ threshold ht2 ht1,
    parseLine_status _ status hs2 hs1,
    foldl_parseLine_plain explanation (fun l hl => ⟨(hexpl l hl).2.1, (hexpl l hl).2.2.2⟩) _
      (by
        obtain ⟨c, t, hst, _⟩ := head_of_trim_eq hs2 hs1
        simp [truthy, hst]),
    parseLine_insight _ insight (by rw [hi1]; exact hi3), hi1]
  simp [ParsedRule.init]

/-- C1 as amended: `parseRuleDescription` on a well-formed description returns exactly its
embedded fields.  For every rule id made of one letter `A`-`Z` followed by one or more
digits, every non-empty, whitespace-trimmed name without a line terminator, every
non-empty, whitespace-trimmed, one-line value, threshold and status text, every list of
non-empty, whitespace-trimmed, one-line explanation lines that start with none of the
recognised prefixes, and every whitespace-trimmed one-line insight starting with
`Based on documented`, parsing the text built from them yields exactly these fields. -/
theorem parse_well_formed_description (L : Char) (digits name value threshold status : Str)
    (explanation : List Str) (insight : Str)
    (hL : isUpperAZ L = true) (hd : digits ≠ []) (hds : ∀ c ∈ digits, isDigit c = true)
    (hname : name ≠ [] ∧ trim name = name ∧ ∀ c ∈ name, isLineTerminator c = false)
    (hvalue : value ≠ [] ∧ trim value = value ∧ '\n' ∉ value)
    (hthreshold : threshold ≠ [] ∧ trim threshold = threshold ∧ '\n' ∉ threshold)
    (hstatus : status ≠ [] ∧ trim status = status ∧ '\n' ∉ status)
    (hexpl : ∀ l ∈ explanation,
      l ≠ [] ∧ trim l = l ∧ '\n' ∉ l ∧ hasRecognisedPrefix l = false)
    (hins : trim insight = insight ∧ '\n' ∉ insight ∧
      startsWith insight "Based on documented".toList = true) :
    parseRuleDescription
        (some (wellFormedDescription (L :: digits) name value threshold status
          explanation insight)) =
      some { ruleId := some (L :: digits), ruleName := some name, yourValue := some value,
             requiredThreshold := some threshold, status := some status,
             explanation := explanation, insight := some insight } :=
  parse_well_formed_fields L digits name value threshold status explanation insight hL hd hds
    hname hvalue hthreshold hstatus hexpl hins

set_option maxRecDepth 100000 in
/-- C1 as amended, at the A1 `Utility Payment Consistency` description of the
specification. -/
theorem parse_well_formed_description_witness :
    parseRuleDescription (some
      "Rule A1: Utility Payment Consistency\nYour Value: 18 months\nRequired Threshold: 12+ consecutive months\nStatus: ✓ Satisfied\nConsistent payments show discipline.\nBased on documented account history.".toList) =
      some { ruleId := some "A1".toList,
             ruleName := some "Utility Payment Consistency".toList,
             yourValue := some "18 months".toList,
             requiredThreshold := some "12+ consecutive months".toList,
             status := some "✓ Satisfied".toList,
             explanation := ["Consistent payments show discipline.".toList],
             insight := some "Based on documented account history.".toList } :=
  parse_well_formed_description 'A' "1".toList "Utility Payment Consistency".toList
    "18 months".toList "12+ consecutive months".toList "✓ Satisfied".toList
    ["Consistent payments show discipline.".toList]
    "Based on documented account history.".toList
    (by decide) (by decide) (by decide) (by decide) (by decide) (by decide) (by decide)
    (by decide) (by decide)

set_option maxRecDepth 100000 in
/-- C1 fails as stated.  In `indentedDescription` the explanation line is non-blank and
starts with none of the recognised prefixes and the insight line starts with
`Based on documented`, yet the parsed explanation and insight are not these lines but their
trimmed forms.  In `carriageReturnDescription` the name is non-empty, trimmed and free of
line feeds, yet the parsed name stops at its carriage return. -/
theorem parse_untrimmed_lines_differ :
    (trim "  Consistent payments show discipline.".toList ≠ [] ∧
     hasRecognisedPrefix "  Consistent payments show discipline.".toList = false ∧
     startsWith "Based on documented account history. ".toList
       "Based on documented".toList = true) ∧
    parseRuleDescription (some indentedDescription) =
      some { ruleId := some "A1".toList,
             ruleName := some "Utility Payment Consistency".toList,
             yourValue := some "18 months".toList,
             requiredThreshold := some "12+ consecutive months".toList,
             status := some "✓ Satisfied".toList,
             explanation := ["Consistent payments show discipline.".toList],
             insight := some "Based on documented account history.".toList } ∧
    parseRuleDescription (some indentedDescription) ≠
      some { ruleId := some "A1".toList,
             ruleName := some "Utility Payment Consistency".toList,
             yourValue := some "18 months".toList,
             requiredThreshold := some "12+ consecutive months".toList,
             status := some "✓ Satisfied".toList,
             explanation := ["  Consistent payments show discipline.".toList],
             insight := some "Based on documented account history. ".toList } ∧
    (trim "Utility\rPayment".toList = "Utility\rPayment".toList ∧
     '\n' ∉ "Utility\rPayment".toList) ∧
    (parseRuleDescription (some carriageReturnDescription)).map (fun r => r.ruleName) =
      some (some "Utility".toList) := by
  refine ⟨by decide, by decide, by decide, by decide, by decide⟩

/-- The loop body is the composition of its six blocks. -/
theorem parseLine_eq_blocks (p : ParsedRule) (raw : Str) :
    parseLine p raw =
      insightBlock (trim raw) (explanationBlock (trim raw) (statusBlock (trim raw)
        (requiredThresholdBlock (trim raw) (yourValueBlock (trim raw)
          (ruleHeaderBlock (trim raw) p))))) := rfl

theorem ruleHeaderBlock_status (line : Str) (p : ParsedRule) :
    (ruleHeaderBlock line p).status = p.status := by
  unfold ruleHeaderBlock
  repeat' split
  all_goals rfl

theorem ruleHeaderBlock_explanation (line : Str) (p : ParsedRule) :
    (ruleHeaderBlock line p).explanation = p.explanation := by
  unfold ruleHeaderBlock
  repeat' split
  all_goals rfl

theorem yourValueBlock_status (line : Str) (p : ParsedRule) :
    (yourValueBlock line p).status = p.status := by
  unfold yourValueBlock
  split <;> rfl

theorem yourValueBlock_explanation (line : Str) (p : ParsedRule) :
    (yourValueBlock line p).explanation = p.explanation := by
  unfold yourValueBlock
  split <;> rfl

theorem requiredThresholdBlock_status (line : Str) (p : ParsedRule) :
    (requiredThresholdBlock line p).status = p.status := by
  unfold requiredThresholdBlock
  split <;> rfl

theorem requiredThresholdBlock_explanation (line : Str) (p : ParsedRule) :
    (requiredThresholdBlock line p).explanation = p.explanation := by
  unfold requiredThresholdBlock
  split <;> rfl

theorem statusBlock_status (line : Str) (p : ParsedRule) :
    (statusBlock line p).status =
      if startsWith line "Status:".toList then
        some (trim (replace "Status:".toList [] line))
      else p.status := by
  unfold statusBlock
  split <;> rfl

theorem statusBlock_explanation (line : Str) (p : ParsedRule) :
    (statusBlock line p).explanation = p.explanation := by
  unfold statusBlock
  split <;> rfl

theorem explanationBlock_status (line : Str) (p : ParsedRule) :
    (explanationBlock line p).status = p.status := by
  unfold explanationBlock
  split <;> rfl

theorem explanationBlock_explanation (line : Str) (p : ParsedRule) :
    (explanationBlock line p).explanation =
      if truthy p.status && !hasRecognisedPrefix line then p.explanation ++ [line]
      else p.explanation := by
  unfold explanationBlock hasRecognisedPrefix
  generalize startsWith line "Rule ".toList = b1
  generalize startsWith line "Your Value:".toList = b2
  generalize startsWith line "Required Threshold:".toList = b3
  generalize startsWith line "Status:".toList = b4
  generalize startsWith line "Based on documented".toList = b5
  generalize truthy p.status = b0
  cases b0 <;> cases b1 <;> cases b2 <;> cases b3 <;> cases b4 <;> cases b5 <;> rfl

theorem insightBlock_status (line : Str) (p : ParsedRule) :
    (insightBlock line p).status = p.status := by
  unfold insightBlock
  split <;> rfl

theorem insightBlock_explanation (line : Str) (p : ParsedRule) :
    (insightBlock line p).explanation = p.explanation := by
  unfold insightBlock
  split <;> rfl

/-- The status after one line. -/
theorem parseLine_status_field (p : ParsedRule) (raw : Str) :
    (parseLine p raw).status =
      if startsWith (trim raw) "Status:".toList then
        some (trim (replace "Status:".toList [] (trim raw)))
      else p.status := by
  rw [parseLine_eq_blocks, insightBlock_status, explanationBlock_status, statusBlock_status,
    requiredThresholdBlock_status, yourValueBlock_status, ruleHeaderBlock_status]

/-- The explanation after one line: the trimmed line is appended exactly when the status
is then non-empty and the trimmed line has no recognised prefix. -/
theorem parseLine_explanation_field (p : ParsedRule) (raw : Str) :
    (parseLine p raw).explanation =
      if truthy (parseLine p raw).status && !hasRecognisedPrefix (trim raw) then
        p.explanation ++ [trim raw]
      else p.explanation := by
  rw [parseLine_status_field, parseLine_eq_blocks, insightBlock_explanation,
    explanationBlock_explanation, statusBlock_status, statusBlock_explanation,
    requiredThresholdBlock_status, requiredThresholdBlock_explanation,
    yourValueBlock_status, yourValueBlock_explanation, ruleHeaderBlock_status,
    ruleHeaderBlock_explanation]

theorem foldl_parseLine_status (b : List Str)
    (hb : ∀ k ∈ b, startsWith (trim k) "Status:".toList = false) :
    ∀ p : ParsedRule, (b.foldl parseLine p).status = p.status := by
  induction b with
  | nil => intro p; rfl
  | cons k b ih =>
    intro p
    rw [List.foldl_cons, ih (fun x hx => hb x (by simp [hx])), parseLine_status_field,
      hb k (by simp)]
    simp

/-- Parsing further lines only appends to the explanation, and what it appends is a
subsequence of these lines, trimmed. -/
theorem foldl_parseLine_explanation (ls : List Str) :
    ∀ p : ParsedRule, ∃ added,
      (ls.foldl parseLine p).explanation = p.explanation ++ added ∧
      List.Sublist added (ls.map trim) := by
  induction ls with
  | nil => intro p; exact ⟨[], by simp, List.Sublist.refl _⟩
  | cons k ls ih =>
    intro p
    obtain ⟨added, h1, h2⟩ := ih (parseLine p k)
    rw [List.foldl_cons, h1, parseLine_explanation_field]
    by_cases hc : (truthy (parseLine p k).status && !hasRecognisedPrefix (trim k)) = true
    · rw [if_pos hc]
      refine ⟨trim k :: added, by simp, ?_⟩
      rw [List.map_cons]
      exact h2.cons₂ _
    · rw [if_neg hc]
      refine ⟨added, rfl, ?_⟩
      rw [List.map_cons]
      exact h2.cons _

theorem foldl_parseLine_status_open (pre : List Str) (h : StatusOpen pre) (p : ParsedRule) :
    truthy (pre.foldl parseLine p).status = true := by
  obtain ⟨a, s, b, hpre, hs, hne, hb⟩ := h
  rw [hpre, List.foldl_append, List.foldl_cons, foldl_parseLine_status b hb,
    parseLine_status_field, if_pos hs]
  cases hv : trim (replace "Status:".toList [] (trim s)) with
  | nil => exact absurd hv hne
  | cons c t => rfl

/-- C8 as amended: for every description, every non-blank line whose trimmed form starts
with none of the recognised prefixes, and before which the last line starting with
`Status:` exists and carries a non-empty status text, is appended (trimmed) to the parsed
explanation; the explanation is a subsequence of the trimmed lines, with the entries of
earlier lines before that line's entry and the entries of later lines after it. -/
theorem explanation_appended_after_status (d : Str) (pre post : List Str) (l : Str)
    (hlines : descriptionLines d = pre ++ l :: post)
    (hplain : hasRecognisedPrefix (trim l) = false) (hopen : StatusOpen pre) :
    ∃ r earlier later, parseRuleDescription (some d) = some r ∧
      r.explanation = earlier ++ trim l :: later ∧
      List.Sublist earlier (pre.map trim) ∧ List.Sublist later (post.map trim) ∧
      List.Sublist r.explanation ((descriptionLines d).map trim) := by
  have hne : d ≠ [] := by
    intro h0
    rw [h0] at hlines
    have h1 : descriptionLines [] = [] := by decide
    rw [h1] at hlines
    cases pre <;> cases hlines
  obtain ⟨earlier, he1, he2⟩ := foldl_parseLine_explanation pre ParsedRule.init
  have hst := foldl_parseLine_status_open pre hopen ParsedRule.init
  obtain ⟨later, hl1, hl2⟩ :=
    foldl_parseLine_explanation post (parseLine (pre.foldl parseLine ParsedRule.init) l)
  have hstep : (parseLine (pre.foldl parseLine ParsedRule.init) l).explanation =
      earlier ++ [trim l] := by
    rw [parseLine_plain _ l hplain, if_pos hst]
    simp only [he1]
    simp [ParsedRule.init]
  obtain ⟨all, ha1, ha2⟩ := foldl_parseLine_explanation (descriptionLines d) ParsedRule.init
  refine ⟨(descriptionLines d).foldl parseLine ParsedRule.init, earlier, later,
    parseRuleDescription_of_ne d hne, ?_, ?_, hl2, ?_⟩
  · rw [hlines, List.foldl_append, List.foldl_cons, hl1, hstep]
    simp
  · simpa [ParsedRule.init] using he2
  · rw [ha1]
    simpa [ParsedRule.init] using ha2

set_option maxRecDepth 100000 in
/-- C8 as amended, at the A1 description of the specification: its explanation line,
which follows `Status: ✓ Satisfied`, is the explanation. -/
theorem explanation_appended_after_status_witness :
    ∃ r earlier later,
      parseRuleDescription (some
        "Rule A1: Utility Payment Consistency\nYour Value: 18 months\nRequired Threshold: 12+ consecutive months\nStatus: ✓ Satisfied\nConsistent payments show discipline.\nBased on documented account history.".toList) =
        some r ∧
      r.explanation = earlier ++ trim "Consistent payments show discipline.".toList :: later ∧
      List.Sublist earlier
        (["Rule A1: Utility Payment Consistency".toList, "Your Value: 18 months".toList,
          "Required Threshold: 12+ consecutive months".toList,
          "Status: ✓ Satisfied".toList].map trim) ∧
      List.Sublist later (["Based on documented account history.".toList].map trim) ∧
      List.Sublist r.explanation ((descriptionLines
        "Rule A1: Utility Payment Consistency\nYour Value: 18 months\nRequired Threshold: 12+ consecutive months\nStatus: ✓ Satisfied\nConsistent payments show discipline.\nBased on documented account history.".toList).map
        trim) :=
  explanation_appended_after_status _
    ["Rule A1: Utility Payment Consistency".toList, "Your Value: 18 months".toList,
      "Required Threshold: 12+ consecutive months".toList, "Status: ✓ Satisfied".toList]
    ["Based on documented account history.".toList]
    "Consistent payments show discipline.".toList
    (by decide) (by decide)
    ⟨["Rule A1: Utility Payment Consistency".toList, "Your Value: 18 months".toList,
        "Required Threshold: 12+ consecutive months".toList],
      "Status: ✓ Satisfied".toList, [], by decide, by decide, by decide, by decide⟩

/-- C8 fails as stated: in the description `Status:` followed by the line `foo`, the line
`foo` is non-blank, starts with none of the recognised prefixes and comes after a line
starting with `Status:`, yet it is not appended: the status text is empty, and the
explanation stays empty. -/
theorem explanation_dropped_after_empty_status :
    descriptionLines "Status:\nfoo".toList = ["Status:".toList, "foo".toList] ∧
    startsWith "Status:".toList "Status:".toList = true ∧
    hasRecognisedPrefix "foo".toList = false ∧
    parseRuleDescription (some "Status:\nfoo".toList) =
      some { ruleId := none, ruleName := none, yourValue := none, requiredThreshold := none,
             status := some [], explanation := [], insight := none } := by
  refine ⟨by decide, by decide, by decide, by decide⟩

/-! ## The reconciler's own reading of `Your Value:` -/

theorem lit_cons (c : Char) (p : Str) : Re.lit (c :: p) = Re.seq (Re.chr c) (Re.lit p) := rfl

/-- A literal has no match where the text does not start with it, letter case aside. -/
theorem run_lit_fold_nil (p : Str) :
    ∀ s, ciStartsWith s p = false → (Re.lit p).run true s = [] := by
  induction p with
  | nil => intro s h; simp [ciStartsWith] at h
  | cons c p ih =>
    intro s h
    rw [lit_cons, run_seq]
    cases s with
    | nil => rfl
    | cons d t =>
      rw [run_chr_cons]
      by_cases hc : (asciiUpper d == asciiUpper c) = true
      · have ht : ciStartsWith t p = false := by
          have hc2 : asciiUpper d = asciiUpper c := by simpa using hc
          simp only [ciStartsWith, List.map_cons, List.isPrefixOf, hc2, beq_self_eq_true,
            Bool.true_and] at h
          exact h
        simp only [if_true, hc, List.flatMap_cons, List.flatMap_nil, List.append_nil,
          ih t ht, List.map_nil]
      · simp only [if_true, hc, Bool.false_eq_true, if_false, List.flatMap_nil]

theorem first_lit_fold (p t : Str) : (Re.lit p).First true (p ++ t) [] t := by
  induction p with
  | nil => exact first_eps true t
  | cons c p ih => exact first_seq (first_chr_fold c c (p ++ t) rfl) ih

/-- `exec` moves past a stretch of text at no position of which the pattern matches. -/
theorem exec_skip_prefix (ic : Bool) (r : Re) (t : Str) :
    ∀ pre : Str, (∀ b, b ≠ [] → b <:+ pre → r.run ic (b ++ t) = []) →
      r.exec ic (pre ++ t) = r.exec ic t := by
  intro pre
  induction pre with
  | nil => intro _; rfl
  | cons c pre ih =>
    intro h
    have h0 := h (c :: pre) (by simp) (List.suffix_refl _)
    rw [List.cons_append] at h0 ⊢
    rw [exec_skip c (pre ++ t) h0]
    exact ih (fun b hb hs => h b hb (hs.trans (List.suffix_cons c pre)))

/-- A prefix that avoids the character `c` cannot reach across it. -/
theorem prefix_before_char {p a x : Str} {c : Char} (hc : c ∉ p)
    (h : p <+: a ++ c :: x) : p <+: a := by
  rcases Nat.le_total p.length a.length with hle | hle
  · exact List.prefix_of_prefix_length_le h (List.prefix_append a (c :: x)) hle
  · have ha : a <+: p :=
      List.prefix_of_prefix_length_le (List.prefix_append a (c :: x)) h hle
    obtain ⟨q, hq⟩ := ha
    obtain ⟨y, hy⟩ := h
    rw [← hq, List.append_assoc] at hy
    have hy2 := List.append_cancel_left hy
    cases q with
    | nil => rw [← hq]; simp
    | cons e q =>
      simp only [List.cons_append, List.cons.injEq] at hy2
      exfalso
      apply hc
      rw [← hq, ← hy2.1]
      simp

theorem ciStartsWith_of_suffix {d t key : Str} (hd : ciIncludes d key = false)
    (ht : t <:+ d) : ciStartsWith t key = false := by
  by_contra hc
  have hc1 : ciStartsWith t key = true := by simpa using hc
  unfold ciStartsWith at hc1
  rw [List.isPrefixOf_iff_prefix] at hc1
  have : (key.map asciiUpper) <:+: (d.map asciiUpper) := by
    obtain ⟨pre, hpre⟩ := ht
    rw [List.infix_iff_prefix_suffix]
    exact ⟨t.map asciiUpper, hc1, ⟨pre.map asciiUpper, by rw [← hpre]; simp⟩⟩
  rw [← includes_iff] at this
  unfold ciIncludes at hd
  rw [hd] at this
  cases this

/-- Without an occurrence of `Your Value:` in any letter case the reconciler finds no
current value. -/
theorem currentValueOf_absent (d : Str) (h : ciIncludes d "Your Value:".toList = false) :
    currentValueOf d = "See details".toList := by
  have hnone : yourValueRe.exec true d = none := by
    rw [exec_none]
    intro t ht
    exact run_seq_nil _ (run_lit_fold_nil _ t (ciStartsWith_of_suffix h ht))
  unfold currentValueOf
  rw [hnone]

theorem isNotNewline_of_ne (c : Char) (h : c ≠ '\n') : isNotNewline c = true := by
  unfold isNotNewline
  by_contra hc
  apply h
  have h10 : c.toNat = 10 := by simpa using hc
  have : c = Char.ofNat c.toNat := (Char.ofNat_toNat c).symm
  rw [this, h10]

theorem suffix_concat_cases {b l : Str} {c : Char} (hb : b ≠ []) (h : b <:+ l ++ [c]) :
    ∃ a, b = a ++ [c] ∧ a <:+ l := by
  obtain ⟨x, hx⟩ := h
  rcases List.eq_nil_or_concat b with h0 | ⟨a, e, hae⟩
  · exact absurd h0 hb
  · have hae2 : b = a ++ [e] := by simpa using hae
    rw [hae2, ← List.append_assoc] at hx
    have := List.append_inj' hx rfl
    refine ⟨a, ?_, ⟨x, this.1⟩⟩
    rw [hae2]
    have he : e = c := by simpa using this.2
    rw [he]

theorem joinLines_cons_of_ne (l : Str) (ls : List Str) (h : ls ≠ []) :
    joinLines (l :: ls) = l ++ '\n' :: joinLines ls := by
  cases ls with
  | nil => exact absurd rfl h
  | cons m ms => rfl

theorem trimStart_ws_append (ws s : Str) (h : ∀ c ∈ ws, isWhiteSpace c = true) :
    trimStart (ws ++ s) = trimStart s := by
  induction ws with
  | nil => rfl
  | cons c ws ih =>
    have hc := h c (by simp)
    have ih2 := ih (fun x hx => h x (by simp [hx]))
    unfold trimStart at ih2 ⊢
    rw [List.cons_append, List.dropWhile_cons, if_pos hc]
    exact ih2

theorem trimEnd_append_ws (s ws : Str) (h : ∀ c ∈ ws, isWhiteSpace c = true) :
    trimEnd (s ++ ws) = trimEnd s := by
  have h2 := trimStart_ws_append ws.reverse s.reverse
    (fun c hc => h c (List.mem_reverse.1 hc))
  unfold trimStart at h2
  unfold trimEnd
  rw [List.reverse_append, h2]

/-- Trimming strips the blanks around a value that is itself trimmed. -/
theorem trim_ws_value_ws (ws1 value ws2 : Str) (h1 : ∀ c ∈ ws1, isWhiteSpace c = true)
    (h2 : ∀ c ∈ ws2, isWhiteSpace c = true) (hv : trim value = value) (hne : value ≠ []) :
    trim (ws1 ++ (value ++ ws2)) = value := by
  obtain ⟨c0, t0, hs, hc0⟩ := head_of_trim_eq hv hne
  have hst : trimStart (value ++ ws2) = value ++ ws2 := by
    rw [hs]; exact trimStart_cons c0 _ hc0
  have hst2 : trimStart value = value := by
    rw [hs]; exact trimStart_cons c0 t0 hc0
  have hend : trimEnd value = value := by
    have hv2 := hv
    unfold trim at hv2
    rw [hst2] at hv2
    exact hv2
  unfold trim
  rw [trimStart_ws_append _ _ h1, hst, trimEnd_append_ws _ _ h2, hend]

/-- A blank is not folded onto the letter `Y`. -/
theorem asciiUpper_ws_ne (c : Char) (h : isWhiteSpace c = true) :
    (asciiUpper c == asciiUpper 'Y') = false := by
  have hY : asciiUpper 'Y' = 'Y' := by decide
  have hne : c ≠ 'Y' := by
    intro e
    rw [e] at h
    exact absurd h (by decide)
  rw [hY]
  unfold asciiUpper
  split
  · rename_i hr
    exfalso
    unfold isWhiteSpace at h
    simp only [Bool.or_eq_true, beq_iff_eq, Bool.and_eq_true, decide_eq_true_eq] at h
    omega
  · simpa using hne

/-- The reconciler's pattern has no match that starts inside a line without `Your Value:`
in any letter case, or at the line break after it. -/
theorem yourValueRe_skip_line (l t : Str) (hno : ciIncludes l "Your Value:".toList = false) :
    yourValueRe.exec true (l ++ '\n' :: t) = yourValueRe.exec true t := by
  have e : l ++ '\n' :: t = (l ++ ['\n']) ++ t := by simp
  rw [e]
  apply exec_skip_prefix
  intro b hb hsuf
  obtain ⟨a, hba, ha⟩ := suffix_concat_cases hb hsuf
  apply run_seq_nil
  apply run_lit_fold_nil
  by_contra hc
  have hc1 : ciStartsWith (b ++ t) "Your Value:".toList = true := by simpa using hc
  unfold ciStartsWith at hc1
  rw [List.isPrefixOf_iff_prefix, hba] at hc1
  have e1 : (a ++ ['\n'] ++ t).map asciiUpper =
      a.map asciiUpper ++ '\n' :: t.map asciiUpper := by
    simp only [List.map_append, List.map_cons, List.map_nil, List.append_assoc,
      List.singleton_append]
    rfl
  rw [e1] at hc1
  have hpre := prefix_before_char (by decide) hc1
  have hfalse := ciStartsWith_of_suffix hno ha
  unfold ciStartsWith at hfalse
  rw [← List.isPrefixOf_iff_prefix, hfalse] at hpre
  cases hpre

theorem yourValueRe_skip_lines (before rest : List Str) (hne : rest ≠ [])
    (h : ∀ l ∈ before, ciIncludes l "Your Value:".toList = false) :
    yourValueRe.exec true (joinLines (before ++ rest)) =
      yourValueRe.exec true (joinLines rest) := by
  induction before with
  | nil => rfl
  | cons l ls ih =>
    rw [List.cons_append, joinLines_cons_of_ne l (ls ++ rest) (by simp [hne]),
      yourValueRe_skip_line l _ (h l (by simp)), ih (fun x hx => h x (by simp [hx]))]

theorem yourValueRe_skip_indent (indent t : Str)
    (h : ∀ c ∈ indent, isWhiteSpace c = true) :
    yourValueRe.exec true (indent ++ t) = yourValueRe.exec true t := by
  apply exec_skip_prefix
  intro b hb hsuf
  cases b with
  | nil => exact absurd rfl hb
  | cons c b1 =>
    have hc : isWhiteSpace c = true := h c (hsuf.subset (by simp))
    apply run_seq_nil
    show (Re.lit "Your Value:".toList).run true (c :: b1 ++ t) = []
    have hl : Re.lit "Your Value:".toList = Re.seq (Re.chr 'Y') (Re.lit "our Value:".toList) :=
      rfl
    rw [hl]
    apply run_seq_nil
    rw [List.cons_append, run_chr_cons]
    simp only [if_true, asciiUpper_ws_ne c hc, Bool.false_eq_true, if_false]

/-- The reconciler's pattern at a line `Your Value:`, blanks, a value, blanks. -/
theorem yourValueRe_at_line (ws1 value ws2 post : Str)
    (hws1 : ∀ c ∈ ws1, isWhiteSpace c = true)
    (hws2 : ∀ c ∈ ws2, c ≠ '\n')
    (hne : value ≠ []) (htrim : trim value = value) (hnl : '\n' ∉ value)
    (hpost : post = [] ∨ ∃ q, post = '\n' :: q) :
    ∃ whole, yourValueRe.exec true ("Your Value:".toList ++ (ws1 ++ ((value ++ ws2) ++ post))) =
      some [whole, value ++ ws2] := by
  obtain ⟨v0, vt, hv, hv0⟩ := head_of_trim_eq htrim hne
  have p1 := first_lit_fold "Your Value:".toList (ws1 ++ ((value ++ ws2) ++ post))
  have e0 : (value ++ ws2) ++ post = v0 :: ((vt ++ ws2) ++ post) := by
    rw [hv]; simp
  have p2 : (Re.star (Re.cls isWhiteSpace)).First true
      (ws1 ++ ((value ++ ws2) ++ post)) [] (v0 :: ((vt ++ ws2) ++ post)) := by
    have h := first_star_cls true isWhiteSpace (ws1 ++ ((value ++ ws2) ++ post))
    rw [e0, dropWhile_append_stop isWhiteSpace ws1 v0 _ hws1 hv0] at h
    rw [e0]
    exact h
  have hrest : ∀ c ∈ vt ++ ws2, isNotNewline c = true := by
    intro c hc
    apply isNotNewline_of_ne
    rcases List.mem_append.1 hc with hc | hc
    · exact fun e => hnl (by rw [hv, ← e]; simp [hc])
    · exact hws2 c hc
  have hv0n : isNotNewline v0 = true :=
    isNotNewline_of_ne v0 (fun e => hnl (by rw [hv, ← e]; simp))
  have hdrop : ((vt ++ ws2) ++ post).dropWhile isNotNewline = post := by
    rcases hpost with rfl | ⟨q, rfl⟩
    · rw [List.append_nil]
      exact dropWhile_all isNotNewline _ hrest
    · exact dropWhile_append_stop isNotNewline _ '\n' q hrest (by decide)
  have p3 : (Re.grp (Re.plus (Re.cls isNotNewline))).First true
      (v0 :: ((vt ++ ws2) ++ post)) [value ++ ws2] post := by
    have h := first_grp (first_plus_cls true isNotNewline v0 ((vt ++ ws2) ++ post) hv0n)
    rw [hdrop] at h
    have hc : consumed (v0 :: ((vt ++ ws2) ++ post)) post = value ++ ws2 := by
      have := consumed_append_left (value ++ ws2) post
      rw [e0] at this
      exact this
    rw [hc] at h
    exact h
  have hall : yourValueRe.First true
      ("Your Value:".toList ++ (ws1 ++ ((value ++ ws2) ++ post))) [value ++ ws2] post :=
    first_seq p1 (first_seq p2 (first_seq p3 (first_eps true _)))
  exact ⟨_, exec_of_first hall⟩

/-- The reconciler's reading of a description whose first line with `Your Value:` in any
letter case is a line `Your Value:`, blanks, a value, blanks, possibly indented. -/
theorem currentValueOf_line (before after : List Str) (indent ws1 value ws2 : Str)
    (hbefore : ∀ l ∈ before, ciIncludes l "Your Value:".toList = false)
    (hindent : ∀ c ∈ indent, isWhiteSpace c = true)
    (hws1 : ∀ c ∈ ws1, isWhiteSpace c = true)
    (hws2 : ∀ c ∈ ws2, isWhiteSpace c = true ∧ c ≠ '\n')
    (hne : value ≠ []) (htrim : trim value = value) (hnl : '\n' ∉ value) :
    currentValueOf (joinLines
      (before ++ (indent ++ ("Your Value:".toList ++ (ws1 ++ (value ++ ws2)))) :: after)) =
      value := by
  have hpost : ∃ post, (post = [] ∨ ∃ q, post = '\n' :: q) ∧
      joinLines ((indent ++ ("Your Value:".toList ++ (ws1 ++ (value ++ ws2)))) :: after) =
        indent ++ ("Your Value:".toList ++ (ws1 ++ ((value ++ ws2) ++ post))) := by
    cases after with
    | nil => exact ⟨[], Or.inl rfl, by simp [joinLines]⟩
    | cons m ms =>
      refine ⟨'\n' :: joinLines (m :: ms), Or.inr ⟨_, rfl⟩, ?_⟩
      rw [joinLines_cons_of_ne _ _ (by simp)]
      simp
  obtain ⟨post, hp, hj⟩ := hpost
  obtain ⟨whole, hex⟩ := yourValueRe_at_line ws1 value ws2 post hws1
    (fun c hc => (hws2 c hc).2) hne htrim hnl hp
  unfold currentValueOf
  rw [yourValueRe_skip_lines before _ (by simp) hbefore, hj,
    yourValueRe_skip_indent indent _ hindent, hex]
  have := trim_ws_value_ws [] value ws2 (by simp) (fun c hc => (hws2 c hc).1) htrim hne
  simpa using this

theorem parseLine_yourValue_field (p : ParsedRule) (raw : Str) :
    (parseLine p raw).yourValue =
      if startsWith (trim raw) "Your Value:".toList then
        some (trim (replace "Your Value:".toList [] (trim raw)))
      else p.yourValue := by
  have h1 : ∀ line q, (insightBlock line q).yourValue = q.yourValue := by
    intro line q; unfold insightBlock; split <;> rfl
  have h2 : ∀ line q, (explanationBlock line q).yourValue = q.yourValue := by
    intro line q; unfold explanationBlock; split <;> rfl
  have h3 : ∀ line q, (statusBlock line q).yourValue = q.yourValue := by
    intro line q; unfold statusBlock; split <;> rfl
  have h4 : ∀ line q, (requiredThresholdBlock line q).yourValue = q.yourValue := by
    intro line q; unfold requiredThresholdBlock; split <;> rfl
  have h5 : ∀ line q, (ruleHeaderBlock line q).yourValue = q.yourValue := by
    intro line q
    unfold ruleHeaderBlock
    repeat' split
    all_goals rfl
  have h6 : ∀ line q, (yourValueBlock line q).yourValue =
      if startsWith line "Your Value:".toList then
        some (trim (replace "Your Value:".toList [] line))
      else q.yourValue := by
    intro line q; unfold yourValueBlock; split <;> rfl
  rw [parseLine_eq_blocks, h1, h2, h3, h4, h6, h5]

/-- The first piece of a split text is a prefix of the text, every other piece a
contiguous part of it. -/
theorem split_pieces (sep : Char) :
    ∀ d : Str, ∃ h tl, split sep d = h :: tl ∧ h <+: d ∧ ∀ l ∈ tl, l <:+: d := by
  intro d
  induction d with
  | nil => exact ⟨[], [], rfl, List.prefix_refl _, by simp⟩
  | cons c s ih =>
    obtain ⟨h, tl, hs, hp, hi⟩ := ih
    by_cases hc : c = sep
    · refine ⟨[], h :: tl, by simp only [split, if_pos hc, hs], List.nil_prefix, ?_⟩
      intro l hl
      rcases List.mem_cons.mp hl with rfl | hl
      · exact (List.infix_cons hp.isInfix)
      · exact List.infix_cons (hi l hl)
    · refine ⟨c :: h, tl, by simp only [split, if_neg hc, hs], ?_, ?_⟩
      · obtain ⟨t, ht⟩ := hp
        exact ⟨t, by rw [← ht]; rfl⟩
      · intro l hl
        exact List.infix_cons (hi l hl)

theorem split_mem_part (sep : Char) (d l : Str) (h : l ∈ split sep d) : l <:+: d := by
  obtain ⟨h0, tl, hs, hp, hi⟩ := split_pieces sep d
  rw [hs] at h
  rcases List.mem_cons.mp h with rfl | hl
  · exact hp.isInfix
  · exact hi l hl

theorem trim_part_of (s : Str) : trim s <:+: s := by
  have h1 : trimStart s <:+ s := List.dropWhile_suffix _
  have h2 : trimEnd (trimStart s) <+: trimStart s := by
    unfold trimEnd
    have := List.dropWhile_suffix (l := (trimStart s).reverse) isWhiteSpace
    have h3 := List.reverse_prefix.mpr this
    simpa using h3
  exact h2.isInfix.trans h1.isInfix

/-- A line of the description starting with `Your Value:` is an occurrence of it in the
description. -/
theorem ciIncludes_of_line (d l : Str) (hl : l ∈ descriptionLines d)
    (h : startsWith (trim l) "Your Value:".toList = true) :
    ciIncludes d "Your Value:".toList = true := by
  unfold descriptionLines at hl
  have hmem := (List.mem_filter.mp hl).1
  have hinf : "Your Value:".toList <:+: d := by
    unfold startsWith at h
    have hp := List.isPrefixOf_iff_prefix.mp h
    exact hp.isInfix.trans ((trim_part_of l).trans (split_mem_part '\n' d l hmem))
  unfold ciIncludes
  rw [includes_iff]
  obtain ⟨x, y, hxy⟩ := hinf
  exact ⟨x.map asciiUpper, y.map asciiUpper, by rw [← hxy]; simp⟩

theorem foldl_parseLine_yourValue_none (ls : List Str)
    (h : ∀ l ∈ ls, startsWith (trim l) "Your Value:".toList = false) :
    ∀ p : ParsedRule, (ls.foldl parseLine p).yourValue = p.yourValue := by
  induction ls with
  | nil => intro p; rfl
  | cons l ls ih =>
    intro p
    rw [List.foldl_cons, ih (fun x hx => h x (by simp [hx])), parseLine_yourValue_field,
      h l (by simp)]
    simp

theorem joinLines_ne_nil (before after : List Str) (l : Str) (hl : l ≠ [])
    (hnl : ∀ x ∈ before ++ l :: after, '\n' ∉ x) :
    joinLines (before ++ l :: after) ≠ [] := by
  intro e
  have hs := split_joinLines (before ++ l :: after) (by simp) hnl
  rw [e] at hs
  cases before with
  | nil =>
    simp only [List.nil_append, split] at hs
    have := (List.cons.inj hs).1
    exact hl this.symm
  | cons b bs =>
    simp only [List.cons_append, split] at hs
    have := (List.cons.inj hs).2
    cases bs <;> cases this

/-- The parser's reading of a description whose last line starting with `Your Value:` is
a line `Your Value:`, blanks, a value, blanks, possibly indented. -/
theorem parse_yourValue_line (before after : List Str) (indent ws1 value ws2 : Str)
    (hbefore : ∀ l ∈ before, '\n' ∉ l)
    (hindent : ∀ c ∈ indent, isWhiteSpace c = true ∧ c ≠ '\n')
    (hws1 : ∀ c ∈ ws1, isWhiteSpace c = true ∧ c ≠ '\n')
    (hws2 : ∀ c ∈ ws2, isWhiteSpace c = true ∧ c ≠ '\n')
    (hne : value ≠ []) (htrim : trim value = value) (hnl : '\n' ∉ value)
    (hafter : ∀ l ∈ after, '\n' ∉ l ∧ startsWith (trim l) "Your Value:".toList = false) :
    ∃ r, parseRuleDescription (some (joinLines
        (before ++ (indent ++ ("Your Value:".toList ++ (ws1 ++ (value ++ ws2)))) :: after))) =
      some r ∧ r.yourValue = some value := by
  have hline : trim (indent ++ ("Your Value:".toList ++ (ws1 ++ (value ++ ws2)))) =
      "Your Value:".toList ++ (ws1 ++ value) := by
    have hk : trim ("Your Value:".toList ++ (ws1 ++ value)) =
        "Your Value:".toList ++ (ws1 ++ value) := by
      have := trim_append_eq 'Y' ("our Value:".toList ++ ws1) value (by decide) htrim hne
      simpa using this
    have := trim_ws_value_ws indent ("Your Value:".toList ++ (ws1 ++ value)) ws2
      (fun c hc => (hindent c hc).1) (fun c hc => (hws2 c hc).1) hk (by simp)
    simpa using this
  have hlnl : '\n' ∉ indent ++ ("Your Value:".toList ++ (ws1 ++ (value ++ ws2))) := by
    intro hm
    rcases List.mem_append.1 hm with h | h
    · exact (hindent _ h).2 rfl
    · rcases List.mem_append.1 h with h | h
      · revert h; decide
      · rcases List.mem_append.1 h with h | h
        · exact (hws1 _ h).2 rfl
        · rcases List.mem_append.1 h with h | h
          · exact hnl h
          · exact (hws2 _ h).2 rfl
  have hall : ∀ x ∈ before ++
      (indent ++ ("Your Value:".toList ++ (ws1 ++ (value ++ ws2)))) :: after, '\n' ∉ x := by
    intro x hx
    rcases List.mem_append.1 hx with h | h
    · exact hbefore x h
    · rcases List.mem_cons.1 h with rfl | h
      · exact hlnl
      · exact (hafter x h).1
  have hdne := joinLines_ne_nil before after _
    (by simp : indent ++ ("Your Value:".toList ++ (ws1 ++ (value ++ ws2))) ≠ []) hall
  refine ⟨_, parseRuleDescription_of_ne _ hdne, ?_⟩
  unfold descriptionLines
  rw [split_joinLines _ (by simp) hall, List.filter_append, List.filter_cons]
  have hkeep : (!(trim (indent ++ ("Your Value:".toList ++ (ws1 ++ (value ++ ws2))))).isEmpty) =
      true := by
    rw [hline]; rfl
  rw [if_pos hkeep, List.foldl_append, List.foldl_cons,
    foldl_parseLine_yourValue_none _
      (fun l hl => (hafter l (List.mem_filter.1 hl).1).2),
    parseLine_yourValue_field, hline]
  have hsw : startsWith ("Your Value:".toList ++ (ws1 ++ value)) "Your Value:".toList = true :=
    startsWith_append_true _ _ _ (by decide)
  rw [if_pos hsw, replace_at_start _ _ _ (by decide)]
  have := trim_ws_value_ws ws1 value [] (fun c hc => (hws1 c hc).1) (by simp) htrim hne
  simp only [List.append_nil] at this
  simp only [List.nil_append]
  rw [this]

theorem statusBadge_currentValue (rule : RuleDefinition) (f : Factor) :
    (statusBadge rule (some f)).currentValue = currentValueOf (f.description.getD []) := by
  unfold statusBadge
  simp only []
  split
  · rfl
  · split <;> rfl

/-- C9 as amended: for every evaluated rule with matched factor `f`, (1) when the
description of `f` contains no `Your Value:` in any letter case, `parseRuleDescription`
extracts no `yourValue` and `currentValue` is the literal `See details`; (2) when the
first line of the description that contains `Your Value:` in any letter case is a line
`Your Value:`, blanks, a value, blanks, possibly indented, and no later line starts with
`Your Value:`, `currentValue` equals the `yourValue` field that `parseRuleDescription`
extracts, the value. -/
theorem currentValue_agrees_with_parsed (factors : List Factor) (rule : RuleDefinition)
    (f : Factor) (hf : (ruleCard factors rule).userFactor = some f) :
    (ciIncludes (f.description.getD []) "Your Value:".toList = false →
      (ruleCard factors rule).statusBadge.currentValue = "See details".toList ∧
      ∀ r, parseRuleDescription f.description = some r → r.yourValue = none) ∧
    (∀ (before after : List Str) (indent ws1 value ws2 : Str),
      (∀ l ∈ before, '\n' ∉ l ∧ ciIncludes l "Your Value:".toList = false) →
      (∀ c ∈ indent ++ (ws1 ++ ws2), isWhiteSpace c = true ∧ c ≠ '\n') →
      (value ≠ [] ∧ trim value = value ∧ '\n' ∉ value) →
      (∀ l ∈ after, '\n' ∉ l ∧ startsWith (trim l) "Your Value:".toList = false) →
      f.description = some (joinLines
        (before ++ (indent ++ ("Your Value:".toList ++ (ws1 ++ (value ++ ws2)))) :: after)) →
      (ruleCard factors rule).statusBadge.currentValue = value ∧
      ∃ r, parseRuleDescription f.description = some r ∧ r.yourValue = some value) := by
  have hcv : (ruleCard factors rule).statusBadge.currentValue =
      currentValueOf (f.description.getD []) := by
    simp only [ruleCard] at hf
    simp only [ruleCard, hf]
    exact statusBadge_currentValue rule f
  refine ⟨?_, ?_⟩
  · intro hno
    refine ⟨by rw [hcv]; exact currentValueOf_absent _ hno, ?_⟩
    intro r hr
    cases hd : f.description with
    | none => rw [hd] at hr; cases hr
    | some d =>
      rw [hd] at hr hno
      simp only [Option.getD_some] at hno
      cases d with
      | nil => cases hr
      | cons c t =>
        rw [parseRuleDescription_of_ne _ (by simp)] at hr
        have hr2 := Option.some.inj hr
        rw [← hr2, foldl_parseLine_yourValue_none]
        · rfl
        · intro l hl
          by_contra hc
          have := ciIncludes_of_line (c :: t) l hl (by simpa using hc)
          rw [hno] at this
          cases this
  · intro before after indent ws1 value ws2 hbefore hws hvalue hafter hdesc
    have hindent : ∀ c ∈ indent, isWhiteSpace c = true ∧ c ≠ '\n' :=
      fun c hc => hws c (by simp [hc])
    have hws1 : ∀ c ∈ ws1, isWhiteSpace c = true ∧ c ≠ '\n' :=
      fun c hc => hws c (by simp [hc])
    have hws2 : ∀ c ∈ ws2, isWhiteSpace c = true ∧ c ≠ '\n' :=
      fun c hc => hws c (by simp [hc])
    refine ⟨?_, ?_⟩
    · rw [hcv, hdesc, Option.getD_some]
      exact currentValueOf_line before after indent ws1 value ws2
        (fun l hl => (hbefore l hl).2) (fun c hc => (hindent c hc).1)
        (fun c hc => (hws1 c hc).1) hws2 hvalue.1 hvalue.2.1 hvalue.2.2
    · rw [hdesc]
      exact parse_yourValue_line before after indent ws1 value ws2
        (fun l hl => (hbefore l hl).1) hindent hws1 hws2 hvalue.1 hvalue.2.1 hvalue.2.2
        hafter

set_option maxRecDepth 100000 in
/-- C9 as amended, at a description without an insight line: for the factor
`decimalPercentFactor` the current value of rule A2 is `72.5%`, the `yourValue` the parser
extracts. -/
theorem currentValue_agrees_with_parsed_witness :
    (ruleCard [decimalPercentFactor] (allRules.get ⟨1, by decide⟩)).statusBadge.currentValue =
      "72.5%".toList ∧
    ∃ r, parseRuleDescription decimalPercentFactor.description = some r ∧
      r.yourValue = some "72.5%".toList :=
  (currentValue_agrees_with_parsed [decimalPercentFactor] (allRules.get ⟨1, by decide⟩)
    decimalPercentFactor (by decide)).2
    ["Rule A2: Payment Reliability Score".toList]
    ["Required Threshold: 75%+ on-time payment rate".toList, "Status: ✗ Not Met".toList,
      "Payment reliability is below the documented threshold.".toList]
    [] " ".toList "72.5%".toList []
    (by decide) (by decide) (by decide) (by decide) (by decide)

set_option maxRecDepth 100000 in
/-- C9 fails as stated: for the factor `inlineValueFactor`, whose description mentions
`Your value: 24 months` inside a sentence, `parseRuleDescription` extracts no `yourValue`,
yet the current value of rule D1 is `24 months`, not `See details`. -/
theorem currentValue_differs_from_parsed :
    (ruleCard [inlineValueFactor] (allRules.get ⟨9, by decide⟩)).userFactor =
      some inlineValueFactor ∧
    (parseRuleDescription inlineValueFactor.description).map (fun r => r.yourValue) =
      some none ∧
    (ruleCard [inlineValueFactor] (allRules.get ⟨9, by decide⟩)).statusBadge.currentValue =
      "24 months".toList ∧
    (ruleCard [inlineValueFactor] (allRules.get ⟨9, by decide⟩)).statusBadge.currentValue ≠
      "See details".toList := by
  refine ⟨by decide, by decide, by decide, by decide⟩

/-! ## Progress and satisfaction -/

theorem progressPercentOf_hundred (d : Str) (h : progressPercentOf d = 100) :
    statusConfirms (statusTextOf d) = true ∨
    ∃ whole g, percentRe.exec false d = some [whole, g] ∧ parseInt g = 100 := by
  unfold progressPercentOf at h
  simp only at h
  unfold statusConfirms
  split at h
  · rename_i hc
    left
    simp only [Bool.or_eq_true] at hc ⊢
    exact Or.inl (Or.inl hc)
  · split at h
    · rename_i hc
      left
      simp only [Bool.or_eq_true] at hc ⊢
      rcases hc with hc | hc
      · exact Or.inl (Or.inr hc)
      · exact Or.inr hc
    · split at h
      · rename_i whole g heq
        exact Or.inr ⟨whole, g, heq, h⟩
      · cases h

set_option maxRecDepth 100000 in
/-- C11 fails as stated: the neutral factor `partlySatisfiedFactor`, whose status text
`◐ Partially Satisfied` contains `Satisfied`, gives rule B3 the progress 100 although the
rule is not satisfied. -/
theorem progress_hundred_not_satisfied :
    (ruleCard [partlySatisfiedFactor] (allRules.get ⟨5, by decide⟩)).statusBadge.progress = 100 ∧
    (ruleCard [partlySatisfiedFactor] (allRules.get ⟨5, by decide⟩)).isSatisfied = false ∧
    (ruleCard [partlySatisfiedFactor] (allRules.get ⟨5, by decide⟩)).statusBadge.text =
      "◐ Partially Satisfied".toList := by
  refine ⟨by decide, by decide, by decide⟩

/-- C11 as amended: for every catalog and factor list, a satisfied rule has progress 100;
and a reconciled rule with progress 100 is either satisfied, or evaluated with a factor
that is not positive and whose status text contains `✓`, `Satisfied`, `exceeds` or `above`
or whose description's leftmost percentage figure is 100. -/
theorem progress_hundred_of_satisfied (catalog : List RuleDefinition)
    (factors : List Factor) (card : RuleCard) (hcard : card ∈ reconcile catalog factors) :
    (card.isSatisfied = true →
      card.statusBadge.progress = 100 ∧ card.statusBadge.text = "✓ Satisfied".toList) ∧
    (card.statusBadge.progress = 100 →
      card.isSatisfied = true ∨
      ∃ f, card.userFactor = some f ∧ f.type ≠ FactorType.positive ∧
        (statusConfirms (statusTextOf (f.description.getD [])) = true ∨
         ∃ whole g, percentRe.exec false (f.description.getD []) = some [whole, g] ∧
           parseInt g = 100)) := by
  simp only [reconcile, List.mem_map] at hcard
  obtain ⟨rule, _, rfl⟩ := hcard
  simp only [ruleCard]
  cases huf : userFactor factors rule with
  | none => simp [statusBadge]
  | some f =>
    by_cases hp : f.type = FactorType.positive
    · simp [statusBadge, hp]
    · have hprog : (statusBadge rule (some f)).progress =
          progressPercentOf (f.description.getD []) := by
        simp only [statusBadge, if_neg hp]
        split <;> rfl
      refine ⟨?_, ?_⟩
      · intro hs
        simp [hp] at hs
      · intro h100
        right
        rw [hprog] at h100
        exact ⟨f, rfl, hp, progressPercentOf_hundred _ h100⟩

/-- C11 as amended, at a concrete input: rule A1 with the positive factor
`utilityFactor`. -/
theorem progress_hundred_of_satisfied_witness :
    (ruleCard [utilityFactor] (allRules.get ⟨0, by decide⟩)).statusBadge.progress = 100 ∧
    (ruleCard [utilityFactor] (allRules.get ⟨0, by decide⟩)).statusBadge.text =
      "✓ Satisfied".toList :=
  (progress_hundred_of_satisfied allRules [utilityFactor]
    (ruleCard [utilityFactor] (allRules.get ⟨0, by decide⟩))
    (List.mem_map_of_mem _ (List.get_mem _ _ _))).1 (by decide)

/-! ## What the parser leaves out -/

theorem foldl_parseLine_unrecognised (ls : List Str)
    (h : ∀ l ∈ ls, hasRecognisedPrefix (trim l) = false) :
    ∀ p : ParsedRule, truthy p.status = false → ls.foldl parseLine p = p := by
  induction ls with
  | nil => intro p _; rfl
  | cons l ls ih =>
    intro p hp
    rw [List.foldl_cons, parseLine_plain p l (h l (by simp)), if_neg (by simp [hp])]
    exact ih (fun x hx => h x (by simp [hx])) p hp

/-- What further lines append to the explanation is a subsequence of those of them that,
trimmed, have no recognised prefix. -/
theorem foldl_parseLine_explanation_plain (ls : List Str) :
    ∀ p : ParsedRule, ∃ added,
      (ls.foldl parseLine p).explanation = p.explanation ++ added ∧
      List.Sublist added ((ls.map trim).filter (fun l => !hasRecognisedPrefix l)) := by
  induction ls with
  | nil => intro p; exact ⟨[], by simp, List.Sublist.refl _⟩
  | cons k ls ih =>
    intro p
    obtain ⟨added, h1, h2⟩ := ih (parseLine p k)
    rw [List.foldl_cons, h1, parseLine_explanation_field]
    by_cases hc : (truthy (parseLine p k).status && !hasRecognisedPrefix (trim k)) = true
    · rw [if_pos hc]
      have hk : (!hasRecognisedPrefix (trim k)) = true := (Bool.and_eq_true _ _ ▸ hc).2
      refine ⟨trim k :: added, by simp, ?_⟩
      rw [List.map_cons, List.filter_cons, if_pos hk]
      exact h2.cons₂ _
    · rw [if_neg hc]
      refine ⟨added, rfl, ?_⟩
      rw [List.map_cons, List.filter_cons]
      split
      · exact h2.cons _
      · exact h2

/-- Lines before the first status line leave the status and the explanation as they
are. -/
theorem foldl_parseLine_before_status (pre : List Str)
    (h : ∀ l ∈ pre, startsWith (trim l) "Status:".toList = false) :
    ∀ p : ParsedRule, truthy p.status = false →
      (pre.foldl parseLine p).explanation = p.explanation ∧
      (pre.foldl parseLine p).status = p.status := by
  induction pre with
  | nil => intro p _; exact ⟨rfl, rfl⟩
  | cons l pre ih =>
    intro p hp
    have hst : (parseLine p l).status = p.status := by
      rw [parseLine_status_field, h l (by simp)]
      simp
    have hex : (parseLine p l).explanation = p.explanation := by
      rw [parseLine_explanation_field, hst, hp]
      simp
    obtain ⟨h1, h2⟩ := ih (fun x hx => h x (by simp [hx])) (parseLine p l) (by rw [hst]; exact hp)
    rw [List.foldl_cons]
    exact ⟨h1.trans hex, h2.trans hst⟩

/-- C13: `parseRuleDescription` returns `null` exactly when the description is absent or
empty; for every non-empty description it returns a record; and when no line of the
description (as the parser reads it: a non-blank piece between line feeds, trimmed) starts
with a recognised prefix, that record has `ruleId`, `ruleName`, `yourValue`,
`requiredThreshold`, `status` and `insight` all `null` and an empty explanation. -/
theorem parse_null_iff_absent_or_empty (description : Option Str) :
    (parseRuleDescription description = none ↔
      (description = none ∨ description = some [])) ∧
    (∀ d, description = some d → d ≠ [] →
      ∃ r, parseRuleDescription description = some r) ∧
    (∀ d r, description = some d → parseRuleDescription description = some r →
      (∀ l ∈ descriptionLines d, hasRecognisedPrefix (trim l) = false) →
      r = { ruleId := none, ruleName := none, yourValue := none, requiredThreshold := none,
            status := none, explanation := [], insight := none }) := by
  refine ⟨?_, ?_, ?_⟩
  · cases description with
    | none => simp [parseRuleDescription]
    | some d =>
      cases d with
      | nil => simp [parseRuleDescription]
      | cons c t => simp [parseRuleDescription]
  · intro d hd hne
    rw [hd, parseRuleDescription_of_ne d hne]
    exact ⟨_, rfl⟩
  · intro d r hd hr hno
    rw [hd] at hr
    cases d with
    | nil => cases hr
    | cons c t =>
      rw [parseRuleDescription_of_ne _ (by simp)] at hr
      have := foldl_parseLine_unrecognised _ hno ParsedRule.init rfl
      rw [this] at hr
      exact (Option.some.inj hr).symm

/-- C13 at a concrete input: a description made of two free-text lines parses to the
record with every field `null` and no explanation. -/
theorem parse_null_iff_absent_or_empty_witness :
    ∃ r, parseRuleDescription (some "no structure here\njust text".toList) = some r ∧
      r = { ruleId := none, ruleName := none, yourValue := none, requiredThreshold := none,
            status := none, explanation := [], insight := none } :=
  match (parse_null_iff_absent_or_empty (some "no structure here\njust text".toList)).2.1
      "no structure here\njust text".toList rfl (by decide) with
  | ⟨r, hr⟩ =>
    ⟨r, hr, (parse_null_iff_absent_or_empty (some "no structure here\njust text".toList)).2.2
      "no structure here\njust text".toList r rfl hr (by decide)⟩

/-- C14: for every description, the explanation contains no line that starts with one of
the five recognised prefixes, and no line that occurs before the first `Status:` line:
whenever the lines split into `pre`, without a status line, and `post`, the explanation is
a subsequence of the lines of `post` that have no recognised prefix (lines as the parser
reads them, trimmed). -/
theorem explanation_skips_prefixed_and_early_lines (d : Str) (r : ParsedRule)
    (h : parseRuleDescription (some d) = some r) :
    (∀ e ∈ r.explanation, hasRecognisedPrefix e = false) ∧
    (∀ pre post, descriptionLines d = pre ++ post →
      (∀ l ∈ pre, startsWith (trim l) "Status:".toList = false) →
      List.Sublist r.explanation
        ((post.map trim).filter (fun l => !hasRecognisedPrefix l))) ∧
    ((∀ l ∈ descriptionLines d, startsWith (trim l) "Status:".toList = false) →
      r.explanation = []) := by
  have hr : r = (descriptionLines d).foldl parseLine ParsedRule.init := by
    cases d with
    | nil => cases h
    | cons c t =>
      rw [parseRuleDescription_of_ne _ (by simp)] at h
      exact (Option.some.inj h).symm
  have key : ∀ pre post, descriptionLines d = pre ++ post →
      (∀ l ∈ pre, startsWith (trim l) "Status:".toList = false) →
      List.Sublist r.explanation
        ((post.map trim).filter (fun l => !hasRecognisedPrefix l)) := by
    intro pre post hsplit hpre
    obtain ⟨h1, h2⟩ := foldl_parseLine_before_status pre hpre ParsedRule.init rfl
    obtain ⟨added, ha1, ha2⟩ :=
      foldl_parseLine_explanation_plain post (pre.foldl parseLine ParsedRule.init)
    rw [hr, hsplit, List.foldl_append, ha1, h1]
    simpa [ParsedRule.init] using ha2
  refine ⟨?_, key, ?_⟩
  · intro e he
    have hsub := key [] (descriptionLines d) rfl (by simp)
    have hmem := hsub.subset he
    have := (List.mem_filter.mp hmem).2
    simpa using this
  · intro hno
    have hsub := key (descriptionLines d) [] (by simp) hno
    simpa using hsub

set_option maxRecDepth 100000 in
/-- C14 at the A1 description of the specification: the explanation is its one free-text
line; the header lines and the insight line are left out. -/
theorem explanation_skips_prefixed_and_early_lines_witness :
    (∀ e ∈ ["Consistent payments show discipline.".toList],
      hasRecognisedPrefix e = false) ∧
    (∀ pre post, descriptionLines (utilityFactor.description.getD []) = pre ++ post →
      (∀ l ∈ pre, startsWith (trim l) "Status:".toList = false) →
      List.Sublist ["Consistent payments show discipline.".toList]
        ((post.map trim).filter (fun l => !hasRecognisedPrefix l))) ∧
    ((∀ l ∈ descriptionLines (utilityFactor.description.getD []),
        startsWith (trim l) "Status:".toList = false) →
      ["Consistent payments show discipline.".toList] = []) :=
  explanation_skips_prefixed_and_early_lines (utilityFactor.description.getD [])
    { ruleId := some "A1".toList,
      ruleName := some "Utility Payment Consistency".toList,
      yourValue := some "18 months".toList,
      requiredThreshold := some "12+ consecutive months".toList,
      status := some "✓ Satisfied".toList,
      explanation := ["Consistent payments show discipline.".toList],
      insight := some "Based on documented account history.".toList } (by decide)

/-! ## Nothing is fabricated -/

theorem starAux_caps (step : Str → List (List Str × Str)) :
    ∀ fuel s m, m ∈ starAux step fuel s → m.1 = [] := by
  intro fuel
  induction fuel with
  | zero =>
    intro s m hm
    simp only [starAux, List.mem_singleton] at hm
    rw [hm]
  | succ n ih =>
    intro s m hm
    rw [starAux_succ] at hm
    simp only [List.mem_append, List.mem_flatMap, List.mem_filter, List.mem_singleton] at hm
    rcases hm with ⟨a, _, hma⟩ | rfl
    · exact ih _ _ hma
    · rfl

theorem consumed_is_taken (s rest : Str) : consumed s rest <+: s := by
  unfold consumed
  exact List.take_prefix _ _

/-- Every captured group is a contiguous part of the input. -/
theorem run_caps_part (ic : Bool) (r : Re) :
    ∀ s m, m ∈ r.run ic s → ∀ c ∈ m.1, c <:+: s := by
  induction r with
  | chr c =>
    intro s m hm
    cases s with
    | nil => rw [run_chr_nil] at hm; cases hm
    | cons d t =>
      rw [run_chr_cons] at hm
      by_cases hcond : (if ic then asciiUpper d == asciiUpper c else d == c) = true
      · rw [if_pos hcond, List.mem_singleton] at hm
        rw [hm]
        intro c hc
        cases hc
      · rw [if_neg hcond] at hm
        cases hm
  | cls p =>
    intro s m hm
    cases s with
    | nil => rw [run_cls_nil] at hm; cases hm
    | cons d t =>
      rw [run_cls_cons] at hm
      split at hm
      · rw [List.mem_singleton] at hm
        rw [hm]
        intro c hc
        cases hc
      · cases hm
  | eps =>
    intro s m hm
    rw [run_eps, List.mem_singleton] at hm
    rw [hm]
    intro c hc
    cases hc
  | seq a b iha ihb =>
    intro s m hm
    rw [run_seq] at hm
    simp only [List.mem_flatMap, List.mem_map] at hm
    obtain ⟨m1, h1, m2, h2, rfl⟩ := hm
    intro c hc
    simp only [List.mem_append] at hc
    rcases hc with hc | hc
    · exact iha s m1 h1 c hc
    · exact (ihb m1.2 m2 h2 c hc).trans (run_suffix ic a s m1 h1).isInfix
  | alt a b iha ihb =>
    intro s m hm
    rw [run_alt, List.mem_append] at hm
    rcases hm with h | h
    · exact iha s m h
    · exact ihb s m h
  | star a _ =>
    intro s m hm
    rw [run_star] at hm
    rw [starAux_caps _ _ _ _ hm]
    intro c hc
    cases hc
  | grp a iha =>
    intro s m hm
    rw [run_grp] at hm
    simp only [List.mem_map] at hm
    obtain ⟨m1, h1, rfl⟩ := hm
    intro c hc
    simp only [List.mem_cons] at hc
    rcases hc with rfl | hc
    · exact (consumed_is_taken s m1.2).isInfix
    · exact iha s m1 h1 c hc

/-- Every element of the array `exec` returns is a contiguous part of the input. -/
theorem exec_part (ic : Bool) (r : Re) :
    ∀ d l, r.exec ic d = some l → ∀ c ∈ l, c <:+: d := by
  intro d
  induction d with
  | nil =>
    intro l h c hc
    simp only [Re.exec] at h
    cases hr : r.run ic [] with
    | nil => rw [hr] at h; cases h
    | cons x tl =>
      rw [hr] at h
      simp only [List.head?_cons, Option.some.injEq] at h
      rw [← h] at hc
      simp only [List.mem_cons] at hc
      rcases hc with rfl | hc
      · exact (consumed_is_taken _ _).isInfix
      · exact run_caps_part ic r [] x (by rw [hr]; simp) c hc
  | cons e s ih =>
    intro l h c hc
    simp only [Re.exec] at h
    cases hr : r.run ic (e :: s) with
    | nil =>
      rw [hr] at h
      simp only [List.head?_nil] at h
      exact List.infix_cons (ih l h c hc)
    | cons x tl =>
      rw [hr] at h
      simp only [List.head?_cons, Option.some.injEq] at h
      rw [← h] at hc
      simp only [List.mem_cons] at hc
      rcases hc with rfl | hc
      · exact (consumed_is_taken _ _).isInfix
      · exact run_caps_part ic r (e :: s) x (by rw [hr]; simp) c hc

theorem ruleHeaderBlock_fields (line : Str) (p : ParsedRule) :
    (ruleHeaderBlock line p).yourValue = p.yourValue ∧
    (ruleHeaderBlock line p).requiredThreshold = p.requiredThreshold ∧
    (ruleHeaderBlock line p).insight = p.insight ∧
    (∀ v, (ruleHeaderBlock line p).ruleId = some v → p.ruleId = some v ∨
      ∃ whole g2, ruleHeaderRe.exec false line = some [whole, v, g2]) ∧
    (∀ v, (ruleHeaderBlock line p).ruleName = some v → p.ruleName = some v ∨
      ∃ whole g1, ruleHeaderRe.exec false line = some [whole, g1, v]) := by
  unfold ruleHeaderBlock
  split
  · split
    · rename_i whole g1 g2 heq
      refine ⟨rfl, rfl, rfl, ?_, ?_⟩
      · intro v hv
        right
        have : g1 = v := Option.some.inj hv
        exact ⟨whole, g2, by rw [heq, this]⟩
      · intro v hv
        right
        have : g2 = v := Option.some.inj hv
        exact ⟨whole, g1, by rw [heq, this]⟩
    · exact ⟨rfl, rfl, rfl, fun v hv => Or.inl hv, fun v hv => Or.inl hv⟩
  · exact ⟨rfl, rfl, rfl, fun v hv => Or.inl hv, fun v hv => Or.inl hv⟩

theorem yourValueBlock_fields (line : Str) (p : ParsedRule) :
    (yourValueBlock line p).ruleId = p.ruleId ∧
    (yourValueBlock line p).ruleName = p.ruleName ∧
    (yourValueBlock line p).requiredThreshold = p.requiredThreshold ∧
    (yourValueBlock line p).insight = p.insight := by
  unfold yourValueBlock
  split <;> exact ⟨rfl, rfl, rfl, rfl⟩

theorem requiredThresholdBlock_fields (line : Str) (p : ParsedRule) :
    (requiredThresholdBlock line p).ruleId = p.ruleId ∧
    (requiredThresholdBlock line p).ruleName = p.ruleName ∧
    (requiredThresholdBlock line p).yourValue = p.yourValue ∧
    (requiredThresholdBlock line p).insight = p.insight ∧
    (requiredThresholdBlock line p).requiredThreshold =
      if startsWith line "Required Threshold:".toList then
        some (trim (replace "Required Threshold:".toList [] line))
      else p.requiredThreshold := by
  unfold requiredThresholdBlock
  split <;> exact ⟨rfl, rfl, rfl, rfl, rfl⟩

theorem statusBlock_fields (line : Str) (p : ParsedRule) :
    (statusBlock line p).ruleId = p.ruleId ∧
    (statusBlock line p).ruleName = p.ruleName ∧
    (statusBlock line p).yourValue = p.yourValue ∧
    (statusBlock line p).requiredThreshold = p.requiredThreshold ∧
    (statusBlock line p).insight = p.insight := by
  unfold statusBlock
  split <;> exact ⟨rfl, rfl, rfl, rfl, rfl⟩

theorem explanationBlock_fields (line : Str) (p : ParsedRule) :
    (explanationBlock line p).ruleId = p.ruleId ∧
    (explanationBlock line p).ruleName = p.ruleName ∧
    (explanationBlock line p).yourValue = p.yourValue ∧
    (explanationBlock line p).requiredThreshold = p.requiredThreshold ∧
    (explanationBlock line p).insight = p.insight := by
  unfold explanationBlock
  split <;> exact ⟨rfl, rfl, rfl, rfl, rfl⟩

theorem insightBlock_fields (line : Str) (p : ParsedRule) :
    (insightBlock line p).ruleId = p.ruleId ∧
    (insightBlock line p).ruleName = p.ruleName ∧
    (insightBlock line p).yourValue = p.yourValue ∧
    (insightBlock line p).requiredThreshold = p.requiredThreshold ∧
    (insightBlock line p).insight =
      if startsWith line "Based on documented".toList then some line else p.insight := by
  unfold insightBlock
  split <;> exact ⟨rfl, rfl, rfl, rfl, rfl⟩

/-- The rule id and name after one line. -/
theorem parseLine_header_fields (p : ParsedRule) (raw : Str) :
    (∀ v, (parseLine p raw).ruleId = some v → p.ruleId = some v ∨
      ∃ whole g2, ruleHeaderRe.exec false (trim raw) = some [whole, v, g2]) ∧
    (∀ v, (parseLine p raw).ruleName = some v → p.ruleName = some v ∨
      ∃ whole g1, ruleHeaderRe.exec false (trim raw) = some [whole, g1, v]) := by
  rw [parseLine_eq_blocks, (insightBlock_fields _ _).1, (insightBlock_fields _ _).2.1,
    (explanationBlock_fields _ _).1, (explanationBlock_fields _ _).2.1,
    (statusBlock_fields _ _).1, (statusBlock_fields _ _).2.1,
    (requiredThresholdBlock_fields _ _).1, (requiredThresholdBlock_fields _ _).2.1,
    (yourValueBlock_fields _ _).1, (yourValueBlock_fields _ _).2.1]
  exact ⟨(ruleHeaderBlock_fields _ _).2.2.2.1, (ruleHeaderBlock_fields _ _).2.2.2.2⟩

theorem parseLine_requiredThreshold_field (p : ParsedRule) (raw : Str) :
    (parseLine p raw).requiredThreshold =
      if startsWith (trim raw) "Required Threshold:".toList then
        some (trim (replace "Required Threshold:".toList [] (trim raw)))
      else p.requiredThreshold := by
  rw [parseLine_eq_blocks, (insightBlock_fields _ _).2.2.2.1,
    (explanationBlock_fields _ _).2.2.2.1, (statusBlock_fields _ _).2.2.2.1,
    (requiredThresholdBlock_fields _ _).2.2.2.2, (yourValueBlock_fields _ _).2.2.1,
    (ruleHeaderBlock_fields _ _).2.1]

theorem parseLine_insight_field (p : ParsedRule) (raw : Str) :
    (parseLine p raw).insight =
      if startsWith (trim raw) "Based on documented".toList then some (trim raw)
      else p.insight := by
  rw [parseLine_eq_blocks, (insightBlock_fields _ _).2.2.2.2,
    (explanationBlock_fields _ _).2.2.2.2, (statusBlock_fields _ _).2.2.2.2,
    (requiredThresholdBlock_fields _ _).2.2.2.1, (yourValueBlock_fields _ _).2.2.2,
    (ruleHeaderBlock_fields _ _).2.2.1]

/-- Removing a prefix the line starts with leaves the remainder of the line. -/
theorem replace_of_startsWith {line pat : Str} (hne : pat ≠ [])
    (h : startsWith line pat = true) :
    ∃ rest, line = pat ++ rest ∧ replace pat [] line = rest := by
  obtain ⟨rest, hrest⟩ := eq_append_of_startsWith h
  refine ⟨rest, hrest, ?_⟩
  rw [hrest, replace_at_start pat [] rest hne]
  rfl

theorem extractedFrom_init : ExtractedFrom [] ParsedRule.init := by
  refine ⟨?_, ?_, ?_, ?_, ?_, ?_, ?_⟩ <;> intro v hv <;> cases hv

theorem extractedFrom_parseLine (ls : List Str) (p : ParsedRule) (l : Str)
    (h : ExtractedFrom ls p) : ExtractedFrom (ls ++ [l]) (parseLine p l) := by
  obtain ⟨h1, h2, h3, h4, h5, h6, h7⟩ := h
  have hl : l ∈ ls ++ [l] := by simp
  have mono : ∀ x, x ∈ ls → x ∈ ls ++ [l] := fun x hx => by simp [hx]
  refine ⟨?_, ?_, ?_, ?_, ?_, ?_, ?_⟩
  · intro v hv
    rcases (parseLine_header_fields p l).1 v hv with hp | ⟨whole, g2, he⟩
    · obtain ⟨x, hx, w⟩ := h1 v hp
      exact ⟨x, mono x hx, w⟩
    · exact ⟨l, hl, whole, g2, he⟩
  · intro v hv
    rcases (parseLine_header_fields p l).2 v hv with hp | ⟨whole, g1, he⟩
    · obtain ⟨x, hx, w⟩ := h2 v hp
      exact ⟨x, mono x hx, w⟩
    · exact ⟨l, hl, whole, g1, he⟩
  · intro v hv
    rw [parseLine_yourValue_field] at hv
    split at hv
    · rename_i hs
      obtain ⟨rest, hline, hrep⟩ := replace_of_startsWith (by decide) hs
      rw [hrep] at hv
      exact ⟨l, hl, rest, hline, (Option.some.inj hv).symm⟩
    · obtain ⟨x, hx, w⟩ := h3 v hv
      exact ⟨x, mono x hx, w⟩
  · intro v hv
    rw [parseLine_requiredThreshold_field] at hv
    split at hv
    · rename_i hs
      obtain ⟨rest, hline, hrep⟩ := replace_of_startsWith (by decide) hs
      rw [hrep] at hv
      exact ⟨l, hl, rest, hline, (Option.some.inj hv).symm⟩
    · obtain ⟨x, hx, w⟩ := h4 v hv
      exact ⟨x, mono x hx, w⟩
  · intro v hv
    rw [parseLine_status_field] at hv
    split at hv
    · rename_i hs
      obtain ⟨rest, hline, hrep⟩ := replace_of_startsWith (by decide) hs
      rw [hrep] at hv
      exact ⟨l, hl, rest, hline, (Option.some.inj hv).symm⟩
    · obtain ⟨x, hx, w⟩ := h5 v hv
      exact ⟨x, mono x hx, w⟩
  · intro v hv
    rw [parseLine_insight_field] at hv
    split at hv
    · exact ⟨l, hl, (Option.some.inj hv).symm⟩
    · obtain ⟨x, hx, w⟩ := h6 v hv
      exact ⟨x, mono x hx, w⟩
  · intro e he
    rw [parseLine_explanation_field] at he
    split at he
    · rcases List.mem_append.mp he with he | he
      · obtain ⟨x, hx, w⟩ := h7 e he
        exact ⟨x, mono x hx, w⟩
      · exact ⟨l, hl, List.mem_singleton.mp he⟩
    · obtain ⟨x, hx, w⟩ := h7 e he
      exact ⟨x, mono x hx, w⟩

theorem extractedFrom_foldl (ls : List Str) :
    ∀ (done : List Str) (p : ParsedRule), ExtractedFrom done p →
      ExtractedFrom (done ++ ls) (ls.foldl parseLine p) := by
  induction ls with
  | nil => intro done p h; simpa using h
  | cons l ls ih =>
    intro done p h
    have := ih (done ++ [l]) (parseLine p l) (extractedFrom_parseLine done p l h)
    simpa using this

/-- A trimmed line of the description is a contiguous part of the description. -/
theorem line_part {d l : Str} (h : l ∈ descriptionLines d) : trim l <:+: d := by
  unfold descriptionLines at h
  exact (trim_part_of l).trans (split_mem_part '\n' d l (List.mem_filter.mp h).1)

theorem trimmed_rest_part {d l pre rest : Str} (h : l ∈ descriptionLines d)
    (hl : trim l = pre ++ rest) : trim rest <:+: d := by
  have h1 : rest <:+: trim l := by
    rw [hl]
    exact (List.suffix_append pre rest).isInfix
  exact (trim_part_of rest).trans (h1.trans (line_part h))

/-- C12: parsing never fabricates values.  For every description, each non-null field of
the result and each element of the explanation is a contiguous part of the description,
read from one of its lines: the rule id and the rule name are the two groups the header
pattern captures on a trimmed line, the value, threshold and status are the trimmed
remainder of a trimmed line after its prefix, and the insight and every explanation entry
are a trimmed line. -/
theorem parsed_fields_are_parts (d : Str) (r : ParsedRule)
    (h : parseRuleDescription (some d) = some r) :
    (∀ v, r.ruleId = some v → v <:+: d ∧
      ∃ l ∈ descriptionLines d, ∃ whole g2,
        ruleHeaderRe.exec false (trim l) = some [whole, v, g2]) ∧
    (∀ v, r.ruleName = some v → v <:+: d ∧
      ∃ l ∈ descriptionLines d, ∃ whole g1,
        ruleHeaderRe.exec false (trim l) = some [whole, g1, v]) ∧
    (∀ v, r.yourValue = some v → v <:+: d ∧
      ∃ l ∈ descriptionLines d, ∃ rest,
        trim l = "Your Value:".toList ++ rest ∧ v = trim rest) ∧
    (∀ v, r.requiredThreshold = some v → v <:+: d ∧
      ∃ l ∈ descriptionLines d, ∃ rest,
        trim l = "Required Threshold:".toList ++ rest ∧ v = trim rest) ∧
    (∀ v, r.status = some v → v <:+: d ∧
      ∃ l ∈ descriptionLines d, ∃ rest,
        trim l = "Status:".toList ++ rest ∧ v = trim rest) ∧
    (∀ v, r.insight = some v → v <:+: d ∧ ∃ l ∈ descriptionLines d, v = trim l) ∧
    (∀ e ∈ r.explanation, e <:+: d ∧ ∃ l ∈ descriptionLines d, e = trim l) := by
  have hr : r = (descriptionLines d).foldl parseLine ParsedRule.init := by
    cases d with
    | nil => cases h
    | cons c t =>
      rw [parseRuleDescription_of_ne _ (by simp)] at h
      exact (Option.some.inj h).symm
  have hx := extractedFrom_foldl (descriptionLines d) [] ParsedRule.init extractedFrom_init
  rw [List.nil_append, ← hr] at hx
  obtain ⟨h1, h2, h3, h4, h5, h6, h7⟩ := hx
  refine ⟨?_, ?_, ?_, ?_, ?_, ?_, ?_⟩
  · intro v hv
    obtain ⟨l, hl, whole, g2, he⟩ := h1 v hv
    exact ⟨(exec_part false ruleHeaderRe _ _ he v (by simp)).trans (line_part hl),
      l, hl, whole, g2, he⟩
  · intro v hv
    obtain ⟨l, hl, whole, g1, he⟩ := h2 v hv
    exact ⟨(exec_part false ruleHeaderRe _ _ he v (by simp)).trans (line_part hl),
      l, hl, whole, g1, he⟩
  · intro v hv
    obtain ⟨l, hl, rest, hline, hval⟩ := h3 v hv
    exact ⟨by rw [hval]; exact trimmed_rest_part hl hline, l, hl, rest, hline, hval⟩
  · intro v hv
    obtain ⟨l, hl, rest, hline, hval⟩ := h4 v hv
    exact ⟨by rw [hval]; exact trimmed_rest_part hl hline, l, hl, rest, hline, hval⟩
  · intro v hv
    obtain ⟨l, hl, rest, hline, hval⟩ := h5 v hv
    exact ⟨by rw [hval]; exact trimmed_rest_part hl hline, l, hl, rest, hline, hval⟩
  · intro v hv
    obtain ⟨l, hl, hval⟩ := h6 v hv
    exact ⟨by rw [hval]; exact line_part hl, l, hl, hval⟩
  · intro e he
    obtain ⟨l, hl, hval⟩ := h7 e he
    exact ⟨by rw [hval]; exact line_part hl, l, hl, hval⟩

set_option maxRecDepth 100000 in
/-- C12 at the A1 description of the specification: the parsed value `18 months` is a
contiguous part of the description, the trimmed remainder of its `Your Value:` line. -/
theorem parsed_fields_are_parts_witness :
    "18 months".toList <:+: utilityFactor.description.getD [] ∧
    ∃ l ∈ descriptionLines (utilityFactor.description.getD []), ∃ rest,
      trim l = "Your Value:".toList ++ rest ∧ "18 months".toList = trim rest :=
  (parsed_fields_are_parts (utilityFactor.description.getD [])
    { ruleId := some "A1".toList,
      ruleName := some "Utility Payment Consistency".toList,
      yourValue := some "18 months".toList,
      requiredThreshold := some "12+ consecutive months".toList,
      status := some "✓ Satisfied".toList,
      explanation := ["Consistent payments show discipline.".toList],
      insight := some "Based on documented account history.".toList }
    (by decide)).2.2.1 "18 months".toList rfl

/-! ## API service -/

theorem apiRequest_success {α : Type} (w : World) (status : Nat)
    (h : responseOk status = true) (data : α) :
    apiRequest w (FetchOutcome.success status h data) = (Except.ok data, w) := rfl

/-- A request either returns the payload of a successful outcome and leaves the world as
it is, or throws. -/
theorem apiRequest_cases {α : Type} (w : World) (o : FetchOutcome α) :
    (o.succeeds = true ∧ ∃ data, apiRequest w o = (Except.ok data, w)) ∨
    (o.succeeds = false ∧ ∃ err w1, apiRequest w o = (Except.error err, w1)) := by
  cases o with
  | rejected => exact Or.inr ⟨rfl, _, _, rfl⟩
  | unparseable status => exact Or.inr ⟨rfl, _, _, rfl⟩
  | failure status h body =>
    cases body with
    | null => exact Or.inr ⟨rfl, _, _, rfl⟩
    | object detail => exact Or.inr ⟨rfl, _, _, rfl⟩
  | success status h data => exact Or.inl ⟨rfl, data, rfl⟩

/-- C16, the code at the failing input: a response with status 401 whose body is not JSON
leaves the stored token in place and does not redirect, the call failing with the generic
network error of status 0; whereas for every 401 response whose body is JSON the token is
removed and the call fails. -/
theorem unauthorized_without_json_keeps_token :
    (apiRequest loggedInWorld (FetchOutcome.unparseable 401 : FetchOutcome Profile)).2.token =
      some "token-1".toList ∧
    (apiRequest loggedInWorld (FetchOutcome.unparseable 401 : FetchOutcome Profile)).2.redirected =
      false ∧
    (∃ w1, apiRequest loggedInWorld (FetchOutcome.unparseable 401 : FetchOutcome Profile) =
      (Except.error networkError, w1)) ∧
    (∀ (w : World) (body : ErrorBody),
      (apiRequest w (FetchOutcome.failure 401 rfl body : FetchOutcome Profile)).2.token = none ∧
      ∃ err w1, apiRequest w (FetchOutcome.failure 401 rfl body : FetchOutcome Profile) =
        (Except.error err, w1)) := by
  refine ⟨rfl, rfl, ⟨_, rfl⟩, ?_⟩
  intro w body
  cases body with
  | null => exact ⟨rfl, _, _, rfl⟩
  | object detail => exact ⟨rfl, _, _, rfl⟩

/-! ## SessionController -/

/-- C15, the code at the failing input: two assessments with the same score 500, in the
band Building.  The one `loadUserData` builds after a login shows the risk label `Low`, the
constant of line 2715; the one `handleConsentSubmit` builds shows the `risk_level` of the
score response, here `High`. -/
theorem risk_label_differs_within_band :
    (loadUserData AppState.initial loggedInWorld [] "u1".toList
        (FetchOutcome.success 200 rfl sampleExplainability)
        (FetchOutcome.success 200 rfl sampleRoadmap)).state.userData.map
      (fun u => (u.score, riskBadgeText u)) =
      some (500, "Low Risk (Rule Coverage High)".toList) ∧
    (handleConsentSubmit consentState loggedInWorld SAMPLE_BEHAVIORAL_DATA
        (FetchOutcome.success 200 rfl ()) (FetchOutcome.success 200 rfl sampleScore)
        (FetchOutcome.success 200 rfl sampleExplainability)
        (FetchOutcome.success 200 rfl sampleRoadmap)).state.userData.map
      (fun u => (u.score, riskBadgeText u)) =
      some (500, "High Risk (Rule Coverage High)".toList) ∧
    classify 500 = Band.building := by
  refine ⟨rfl, rfl, by decide⟩

theorem orDefault_ne_nil (x : Option Str) (fallback : Str) (h : fallback ≠ []) :
    orDefault x fallback ≠ [] := by
  unfold orDefault
  split
  · exact fun e => by cases e
  · exact h

/-- A request returns the payload and leaves the world as it is, or throws and leaves the
world as it is, or, on a 401 with a JSON body, throws after removing the token and
asking for the page `/`. -/
theorem apiRequest_world {α : Type} (w : World) (o : FetchOutcome α) :
    (o.succeeds = true ∧ o.unauthorized = false ∧ ∃ data, apiRequest w o = (Except.ok data, w)) ∨
    (o.succeeds = false ∧ o.unauthorized = false ∧
      ∃ err, apiRequest w o = (Except.error err, w)) ∨
    (o.succeeds = false ∧ o.unauthorized = true ∧
      ∃ err, apiRequest w o = (Except.error err, { w.removeToken with redirected := true })) := by
  cases o with
  | rejected => exact Or.inr (Or.inl ⟨rfl, rfl, _, rfl⟩)
  | unparseable status => exact Or.inr (Or.inl ⟨rfl, rfl, _, rfl⟩)
  | failure status h body =>
    by_cases h401 : status = 401
    · subst h401
      refine Or.inr (Or.inr ⟨rfl, rfl, ?_⟩)
      cases body with
      | null => exact ⟨_, rfl⟩
      | object detail => exact ⟨_, rfl⟩
    · refine Or.inr (Or.inl ⟨rfl, by simp [FetchOutcome.unauthorized, h401], ?_⟩)
      cases body with
      | null => exact ⟨networkError, by simp [apiRequest, h401]⟩
      | object detail =>
        exact ⟨{ message := orDefault detail "An error occurred".toList, status := status },
          by simp [apiRequest, h401]⟩
  | success status h data => exact Or.inl ⟨rfl, rfl, data, rfl⟩

/-- C17 fails as stated: on the consent screen of the user `u1`, the consent request is
answered with status 401 and a JSON body.  `apiRequest` removes the token and asks for the
page `/`; the page is loaded anew and, no token being stored, stays on the login screen
with no error message: the screen does not stay the consent screen and no error message is
stored. -/
theorem consent_unauthorized_reloads_to_login :
    (handleConsentSubmit consentState loggedInWorld SAMPLE_BEHAVIORAL_DATA
      (FetchOutcome.failure 401 rfl (ErrorBody.object (some "Not authenticated".toList)))
      (FetchOutcome.success 200 rfl sampleScore)
      (FetchOutcome.success 200 rfl sampleExplainability)
      (FetchOutcome.success 200 rfl sampleRoadmap)).world =
      { token := none, redirected := true } ∧
    (∀ po : FetchOutcome Profile,
      pageAfter
        (handleConsentSubmit consentState loggedInWorld SAMPLE_BEHAVIORAL_DATA
          (FetchOutcome.failure 401 rfl (ErrorBody.object (some "Not authenticated".toList)))
          (FetchOutcome.success 200 rfl sampleScore)
          (FetchOutcome.success 200 rfl sampleExplainability)
          (FetchOutcome.success 200 rfl sampleRoadmap)) po = AppState.initial) ∧
    AppState.initial.currentScreen = Screen.login ∧
    AppState.initial.error = none ∧
    consentState.currentScreen = Screen.consent := by
  refine ⟨rfl, fun po => rfl, rfl, rfl, rfl⟩

/-- C17 as amended: consent submission is an ordered all-or-nothing pipeline.  For every
combination of outcomes of the four requests, started on the consent screen with no reload
pending: the requests are issued in the order submit consent, compute score, fetch
explainability, fetch roadmap, each only if every earlier one succeeded; the page is
reloaded exactly when the first failing response is a 401 with a JSON body; the screen
becomes the dashboard if and only if all four succeed; if one fails without a reload the
screen stays the consent screen, a non-empty error message is stored and the cached
assessment data and roadmap are unchanged; if one fails with a reload the token is removed
and the page is left in its initial state, on the login screen; in every case the loading
flag ends false. -/
theorem consent_pipeline_unless_unauthorized (s : AppState) (w : World) (b : BehavioralData)
    (o1 : FetchOutcome Unit) (o2 : FetchOutcome ScoreResponse)
    (o3 : FetchOutcome ExplainabilityResponse) (o4 : FetchOutcome RoadmapResponse)
    (po : FetchOutcome Profile)
    (hs : s.currentScreen = Screen.consent) (hw : w.redirected = false) :
    (handleConsentSubmit s w b o1 o2 o3 o4).calls =
      ApiCall.submitConsent ::
        (if o1.succeeds then
          ApiCall.calculateScore s.userId ::
            (if o2.succeeds then
              ApiCall.getExplainability s.userId ::
                (if o3.succeeds then [ApiCall.getRoadmap s.userId] else [])
             else [])
         else []) ∧
    (handleConsentSubmit s w b o1 o2 o3 o4).world.redirected =
      (o1.unauthorized || (o1.succeeds && (o2.unauthorized || (o2.succeeds &&
        (o3.unauthorized || (o3.succeeds && o4.unauthorized)))))) ∧
    ((pageAfter (handleConsentSubmit s w b o1 o2 o3 o4) po).currentScreen = Screen.dashboard ↔
      (o1.succeeds = true ∧ o2.succeeds = true ∧ o3.succeeds = true ∧ o4.succeeds = true)) ∧
    (¬ (o1.succeeds = true ∧ o2.succeeds = true ∧ o3.succeeds = true ∧ o4.succeeds = true) →
      (handleConsentSubmit s w b o1 o2 o3 o4).world.redirected = false →
      (pageAfter (handleConsentSubmit s w b o1 o2 o3 o4) po).currentScreen = Screen.consent ∧
      (∃ msg, (pageAfter (handleConsentSubmit s w b o1 o2 o3 o4) po).error = some msg ∧
        msg ≠ []) ∧
      (pageAfter (handleConsentSubmit s w b o1 o2 o3 o4) po).userData = s.userData ∧
      (pageAfter (handleConsentSubmit s w b o1 o2 o3 o4) po).roadmap = s.roadmap ∧
      (handleConsentSubmit s w b o1 o2 o3 o4).world = w) ∧
    ((handleConsentSubmit s w b o1 o2 o3 o4).world.redirected = true →
      (handleConsentSubmit s w b o1 o2 o3 o4).world.token = none ∧
      pageAfter (handleConsentSubmit s w b o1 o2 o3 o4) po = AppState.initial ∧
      (pageAfter (handleConsentSubmit s w b o1 o2 o3 o4) po).currentScreen = Screen.login) ∧
    ((o1.succeeds = true ∧ o2.succeeds = true ∧ o3.succeeds = true ∧ o4.succeeds = true) →
      (pageAfter (handleConsentSubmit s w b o1 o2 o3 o4) po).error = none ∧
      (pageAfter (handleConsentSubmit s w b o1 o2 o3 o4) po).userData.isSome = true ∧
      (pageAfter (handleConsentSubmit s w b o1 o2 o3 o4) po).roadmap.isSome = true ∧
      (handleConsentSubmit s w b o1 o2 o3 o4).world = w) ∧
    (pageAfter (handleConsentSubmit s w b o1 o2 o3 o4) po).loading = false := by
  have hmsg : ∀ m : Str, orDefault (some m) "An error occurred. Please try again.".toList ≠ [] :=
    fun m => orDefault_ne_nil _ _ (by decide)
  have hinit : ∀ s0 : AppState,
      (checkAuth s0 { token := none, redirected := false } po).state = s0 := fun _ => rfl
  rcases apiRequest_world w o1 with ⟨s1, u1, d1, e1⟩ | ⟨s1, u1, err, e1⟩ | ⟨s1, u1, err, e1⟩
  · rcases apiRequest_world w o2 with ⟨s2, u2, d2, e2⟩ | ⟨s2, u2, err, e2⟩ | ⟨s2, u2, err, e2⟩
    · rcases apiRequest_world w o3 with
        ⟨s3, u3, d3, e3⟩ | ⟨s3, u3, err, e3⟩ | ⟨s3, u3, err, e3⟩
      · rcases apiRequest_world w o4 with
          ⟨s4, u4, d4, e4⟩ | ⟨s4, u4, err, e4⟩ | ⟨s4, u4, err, e4⟩
        · simp only [handleConsentSubmit, pageAfter, e1, e2, e3, e4, s1, s2, s3, s4, u1, u2,
            u3, u4, hw]
          simp
        · simp only [handleConsentSubmit, pageAfter, e1, e2, e3, e4, s1, s2, s3, s4, u1, u2,
            u3, u4, hw]
          simpa [hs] using hmsg err.message
        · simp only [handleConsentSubmit, pageAfter, e1, e2, e3, e4, s1, s2, s3, s4, u1, u2,
            u3, u4, World.removeToken]
          simp [hinit, AppState.initial]
      · simp only [handleConsentSubmit, pageAfter, e1, e2, e3, s1, s2, s3, u1, u2, u3, hw]
        simpa [hs] using hmsg err.message
      · simp only [handleConsentSubmit, pageAfter, e1, e2, e3, s1, s2, s3, u1, u2, u3,
          World.removeToken]
        simp [hinit, AppState.initial]
    · simp only [handleConsentSubmit, pageAfter, e1, e2, s1, s2, u1, u2, hw]
      simpa [hs] using hmsg err.message
    · simp only [handleConsentSubmit, pageAfter, e1, e2, s1, s2, u1, u2, World.removeToken]
      simp [hinit, AppState.initial]
  · simp only [handleConsentSubmit, pageAfter, e1, s1, u1, hw]
    simpa [hs] using hmsg err.message
  · simp only [handleConsentSubmit, pageAfter, e1, s1, u1, World.removeToken]
    simp [hinit, AppState.initial]

/-- C17 as amended, at a concrete input: on the consent screen of user `u1`, the score
request fails with status 500; two requests are issued, no reload is asked for, and the
screen stays the consent screen. -/
theorem consent_pipeline_unless_unauthorized_witness :
    (handleConsentSubmit consentState loggedInWorld SAMPLE_BEHAVIORAL_DATA
        (FetchOutcome.success 200 rfl ())
        (FetchOutcome.failure 500 rfl (ErrorBody.object (some "Scoring failed".toList)))
        (FetchOutcome.success 200 rfl sampleExplainability)
        (FetchOutcome.success 200 rfl sampleRoadmap)).calls =
      [ApiCall.submitConsent, ApiCall.calculateScore (some "u1".toList)] ∧
    (pageAfter
      (handleConsentSubmit consentState loggedInWorld SAMPLE_BEHAVIORAL_DATA
        (FetchOutcome.success 200 rfl ())
        (FetchOutcome.failure 500 rfl (ErrorBody.object (some "Scoring failed".toList)))
        (FetchOutcome.success 200 rfl sampleExplainability)
        (FetchOutcome.success 200 rfl sampleRoadmap))
      FetchOutcome.rejected).currentScreen = Screen.consent :=
  ⟨(consent_pipeline_unless_unauthorized consentState loggedInWorld SAMPLE_BEHAVIORAL_DATA
      (FetchOutcome.success 200 rfl ())
      (FetchOutcome.failure 500 rfl (ErrorBody.object (some "Scoring failed".toList)))
      (FetchOutcome.success 200 rfl sampleExplainability)
      (FetchOutcome.success 200 rfl sampleRoadmap) FetchOutcome.rejected rfl rfl).1,
   ((consent_pipeline_unless_unauthorized consentState loggedInWorld SAMPLE_BEHAVIORAL_DATA
      (FetchOutcome.success 200 rfl ())
      (FetchOutcome.failure 500 rfl (ErrorBody.object (some "Scoring failed".toList)))
      (FetchOutcome.success 200 rfl sampleExplainability)
      (FetchOutcome.success 200 rfl sampleRoadmap) FetchOutcome.rejected rfl rfl).2.2.2.1
      (by decide) rfl).1⟩

/-- C18: after a successful login, and after a successful token check on start-up, the
next screen is the dashboard if the fetched profile has `has_score`, otherwise the dashboard
if it has `consent_given`, otherwise the consent screen; `loadUserData` is started exactly
once, for the user id of the profile, when `has_score` is true and not at all otherwise;
one run of `loadUserData` issues the explainability request exactly once, followed by the
roadmap request if the first succeeds; and navigating to the dashboard issues no request. -/
theorem login_routes_by_profile (s : AppState) (w : World) (st1 st2 : Nat)
    (h1 : responseOk st1 = true) (h2 : responseOk st2 = true)
    (auth : AuthResponse) (profile : Profile) :
    (handleLogin s w (.success st1 h1 auth) (.success st2 h2 profile)).state.currentScreen =
      (if profile.has_score then Screen.dashboard
       else if profile.consent_given then Screen.dashboard else Screen.consent) ∧
    (handleLogin s w (.success st1 h1 auth) (.success st2 h2 profile)).started =
      (if profile.has_score then [profile.user_id] else []) ∧
    (handleLogin s w (.success st1 h1 auth) (.success st2 h2 profile)).calls =
      [ApiCall.login, ApiCall.getCurrentUser] ∧
    (w.hasToken = true →
      (checkAuth s w (.success st2 h2 profile)).state.currentScreen =
        (if profile.has_score then Screen.dashboard
         else if profile.consent_given then Screen.dashboard else Screen.consent) ∧
      (checkAuth s w (.success st2 h2 profile)).started =
        (if profile.has_score then [profile.user_id] else []) ∧
      (checkAuth s w (.success st2 h2 profile)).calls = [ApiCall.getCurrentUser]) ∧
    (∀ (s1 : AppState) (w1 : World) (name : Str)
        (o3 : FetchOutcome ExplainabilityResponse) (o4 : FetchOutcome RoadmapResponse),
      (loadUserData s1 w1 name profile.user_id o3 o4).calls =
        ApiCall.getExplainability (some profile.user_id) ::
          (if o3.succeeds then [ApiCall.getRoadmap (some profile.user_id)] else [])) ∧
    (∀ s1 : AppState,
      (handleNavigate s1 Screen.dashboard).2 = [] ∧
      (handleNavigate s1 Screen.dashboard).1.currentScreen = Screen.dashboard) := by
  refine ⟨?_, ?_, ?_, ?_, ?_, ?_⟩
  · simp only [handleLogin, api.login, apiRequest]
    by_cases hs : profile.has_score = true <;> by_cases hc : profile.consent_given = true <;>
      simp [hs, hc]
  · simp only [handleLogin, api.login, apiRequest]
    by_cases hs : profile.has_score = true <;> by_cases hc : profile.consent_given = true <;>
      simp [hs, hc]
  · simp only [handleLogin, api.login, apiRequest]
    by_cases hs : profile.has_score = true <;> by_cases hc : profile.consent_given = true <;>
      simp [hs, hc]
  · intro hw
    simp only [checkAuth, hw, apiRequest, if_true]
    by_cases hs : profile.has_score = true <;> by_cases hc : profile.consent_given = true <;>
      simp [hs, hc]
  · intro s1 w1 name o3 o4
    rcases apiRequest_cases w1 o3 with ⟨s3, d3, e3⟩ | ⟨s3, err, w3, e3⟩
    · rcases apiRequest_cases w1 o4 with ⟨s4, d4, e4⟩ | ⟨s4, err, w4, e4⟩
      · simp [loadUserData, e3, e4, s3]
      · simp [loadUserData, e3, e4, s3]
    · simp [loadUserData, e3, s3]
  · intro s1
    simp [handleNavigate]

/-- C18 at a concrete input: the user `u1` logs in and the profile reports a score; the
dashboard is entered and `loadUserData` is started once, for `u1`. -/
theorem login_routes_by_profile_witness :
    (handleLogin AppState.initial loggedOutWorld (FetchOutcome.success 200 rfl sampleAuth)
        (FetchOutcome.success 200 rfl scoredProfile)).state.currentScreen = Screen.dashboard ∧
    (handleLogin AppState.initial loggedOutWorld (FetchOutcome.success 200 rfl sampleAuth)
        (FetchOutcome.success 200 rfl scoredProfile)).started = ["u1".toList] :=
  ⟨(login_routes_by_profile AppState.initial loggedOutWorld 200 200 rfl rfl sampleAuth
      scoredProfile).1,
   (login_routes_by_profile AppState.initial loggedOutWorld 200 200 rfl rfl sampleAuth
      scoredProfile).2.1⟩

/-- C19, counterexample: the user `u1` registers and the fetched profile reports a computed
score.  Registration ends on the consent screen and starts no assessment fetch, while a
login with the same profile ends on the dashboard and starts `loadUserData` for `u1`. -/
theorem register_ignores_profile_score :
    (handleRegister AppState.initial loggedOutWorld (FetchOutcome.success 200 rfl sampleAuth)
        (FetchOutcome.success 200 rfl scoredProfile)).state.currentScreen = Screen.consent ∧
    (handleRegister AppState.initial loggedOutWorld (FetchOutcome.success 200 rfl sampleAuth)
        (FetchOutcome.success 200 rfl scoredProfile)).started = [] ∧
    scoredProfile.has_score = true ∧
    (handleLogin AppState.initial loggedOutWorld (FetchOutcome.success 200 rfl sampleAuth)
        (FetchOutcome.success 200 rfl scoredProfile)).state.currentScreen = Screen.dashboard ∧
    (handleLogin AppState.initial loggedOutWorld (FetchOutcome.success 200 rfl sampleAuth)
        (FetchOutcome.success 200 rfl scoredProfile)).started = ["u1".toList] := by
  refine ⟨rfl, rfl, rfl, rfl, rfl⟩

/-- C19, amended: after a successful registration the next screen is the consent screen
whatever the fetched profile reports, the profile is stored, the two requests issued are
the registration and the profile request, and no assessment fetch is started; this is the
screen and the fetch a login with the same profile gives exactly when the profile reports
neither `has_score` nor `consent_given`. -/
theorem register_always_enters_consent (s : AppState) (w : World) (st1 st2 : Nat)
    (h1 : responseOk st1 = true) (h2 : responseOk st2 = true)
    (auth : AuthResponse) (profile : Profile) :
    (handleRegister s w (.success st1 h1 auth) (.success st2 h2 profile)).state.currentScreen =
      Screen.consent ∧
    (handleRegister s w (.success st1 h1 auth) (.success st2 h2 profile)).started = [] ∧
    (handleRegister s w (.success st1 h1 auth) (.success st2 h2 profile)).calls =
      [ApiCall.register, ApiCall.getCurrentUser] ∧
    (handleRegister s w (.success st1 h1 auth) (.success st2 h2 profile)).state.userProfile =
      some profile ∧
    (((handleRegister s w (.success st1 h1 auth) (.success st2 h2 profile)).state.currentScreen =
        (handleLogin s w (.success st1 h1 auth) (.success st2 h2 profile)).state.currentScreen ∧
      (handleRegister s w (.success st1 h1 auth) (.success st2 h2 profile)).started =
        (handleLogin s w (.success st1 h1 auth) (.success st2 h2 profile)).started) ↔
      (profile.has_score = false ∧ profile.consent_given = false)) := by
  refine ⟨?_, ?_, ?_, ?_, ?_⟩
  · simp [handleRegister, api.register, api.login, apiRequest]
  · simp [handleRegister, api.register, api.login, apiRequest]
  · simp [handleRegister, api.register, api.login, apiRequest]
  · simp [handleRegister, api.register, api.login, apiRequest]
  · simp only [handleRegister, handleLogin, api.register, api.login, apiRequest]
    by_cases hs : profile.has_score = true <;> by_cases hc : profile.consent_given = true <;>
      simp [hs, hc]

/-- C19, amended, at a concrete input: the user `u1` registers and the profile reports a
computed score; the consent screen is entered. -/
theorem register_always_enters_consent_witness :
    (handleRegister AppState.initial loggedOutWorld (FetchOutcome.success 201 rfl sampleAuth)
        (FetchOutcome.success 200 rfl scoredProfile)).state.currentScreen = Screen.consent :=
  (register_always_enters_consent AppState.initial loggedOutWorld 201 200 rfl rfl sampleAuth
    scoredProfile).1

theorem loadImprovementDataStart_fields (s : AppState) :
    (loadImprovementDataStart s).1.improvementData = s.improvementData ∧
    (loadImprovementDataStart s).1.lenderData = s.lenderData ∧
    (loadImprovementDataStart s).1.userId = s.userId ∧
    (loadImprovementDataStart s).2 = (truthy s.userId && s.improvementData.isNone) := by
  unfold loadImprovementDataStart
  cases hu : truthy s.userId <;> cases hd : s.improvementData <;> simp [hd]

theorem loadLenderDataStart_fields (s : AppState) :
    (loadLenderDataStart s).1.improvementData = s.improvementData ∧
    (loadLenderDataStart s).1.lenderData = s.lenderData ∧
    (loadLenderDataStart s).1.userId = s.userId ∧
    (loadLenderDataStart s).2 = (truthy s.userId && s.lenderData.isNone) := by
  unfold loadLenderDataStart
  cases hu : truthy s.userId <;> cases hd : s.lenderData <;> simp [hd]

theorem handleNavigate_fields (s : AppState) (screen : Screen) :
    (handleNavigate s screen).1.improvementData = s.improvementData ∧
    (handleNavigate s screen).1.lenderData = s.lenderData ∧
    (handleNavigate s screen).1.userId = s.userId ∧
    (handleNavigate s screen).1.currentScreen = screen := by
  unfold handleNavigate
  split
  · simp [loadImprovementDataStart_fields]
  · split
    · simp [loadLenderDataStart_fields]
    · simp

theorem handleNavigate_calls (s : AppState) (screen : Screen) :
    (handleNavigate s screen).2 =
      if screen = Screen.improvement then
        (if truthy s.userId && s.improvementData.isNone then
          [ApiCall.getImprovementPlan s.userId] else [])
      else if screen = Screen.lender then
        (if truthy s.userId && s.lenderData.isNone then
          [ApiCall.getLenderView s.userId] else [])
      else [] := by
  unfold handleNavigate
  by_cases h1 : screen = Screen.improvement
  · subst h1
    cases hd : s.improvementData
    · simp [hd, loadImprovementDataStart_fields]
    · simp [hd]
  · by_cases h2 : screen = Screen.lender
    · subst h2
      cases hd : s.lenderData
      · simp [hd, loadLenderDataStart_fields]
      · simp [hd]
    · simp [h1, h2]

theorem loadImprovementDataSettle_fields (s : AppState) (w : World) (o : FetchOutcome Json) :
    (s.improvementData.isSome = true →
      (loadImprovementDataSettle s w o).1.improvementData.isSome = true) ∧
    (loadImprovementDataSettle s w o).1.lenderData = s.lenderData := by
  unfold loadImprovementDataSettle
  rcases apiRequest_cases w o with ⟨_, d, e⟩ | ⟨_, err, w1, e⟩ <;> simp [e]

theorem loadLenderDataSettle_fields (s : AppState) (w : World) (o : FetchOutcome Json) :
    (s.lenderData.isSome = true →
      (loadLenderDataSettle s w o).1.lenderData.isSome = true) ∧
    (loadLenderDataSettle s w o).1.improvementData = s.improvementData := by
  unfold loadLenderDataSettle
  rcases apiRequest_cases w o with ⟨_, d, e⟩ | ⟨_, err, w1, e⟩ <;> simp [e]

theorem step_keeps_improvement (sess : Session) (e : Event)
    (h : sess.app.improvementData.isSome = true) :
    (sess.step e).app.improvementData.isSome = true ∧
    ∃ new, (sess.step e).log = sess.log ++ new ∧ ∀ c ∈ new, c.isImprovementPlan = false := by
  cases e with
  | navigate screen =>
    refine ⟨?_, (handleNavigate sess.app screen).2, rfl, ?_⟩
    · show (handleNavigate sess.app screen).1.improvementData.isSome = true
      rw [(handleNavigate_fields _ _).1]; exact h
    · intro c hc
      rw [handleNavigate_calls] at hc
      have hn : sess.app.improvementData.isNone = false := by
        cases hd : sess.app.improvementData <;> simp_all
      rw [hn] at hc
      by_cases h1 : screen = Screen.improvement
      · simp [h1] at hc
      · by_cases h2 : screen = Screen.lender
        · simp only [h2, if_neg (by decide : ¬ Screen.lender = Screen.improvement),
            if_true] at hc
          split at hc
          · rw [List.mem_singleton] at hc; subst hc; rfl
          · cases hc
        · simp [h1, h2] at hc
  | improvementSettles o =>
    by_cases h0 : sess.improvementInFlight = 0
    · simp only [Session.step, h0, if_true]
      exact ⟨h, [], by simp, by simp⟩
    · simp only [Session.step, h0, if_false]
      exact ⟨(loadImprovementDataSettle_fields _ _ _).1 h, [], by simp, by simp⟩
  | lenderSettles o =>
    by_cases h0 : sess.lenderInFlight = 0
    · simp only [Session.step, h0, if_true]
      exact ⟨h, [], by simp, by simp⟩
    · simp only [Session.step, h0, if_false]
      refine ⟨?_, [], by simp, by simp⟩
      show (loadLenderDataSettle _ _ _).1.improvementData.isSome = true
      rw [(loadLenderDataSettle_fields _ _ _).2]; exact h

theorem step_keeps_lender (sess : Session) (e : Event)
    (h : sess.app.lenderData.isSome = true) :
    (sess.step e).app.lenderData.isSome = true ∧
    ∃ new, (sess.step e).log = sess.log ++ new ∧ ∀ c ∈ new, c.isLenderView = false := by
  cases e with
  | navigate screen =>
    refine ⟨?_, (handleNavigate sess.app screen).2, rfl, ?_⟩
    · show (handleNavigate sess.app screen).1.lenderData.isSome = true
      rw [(handleNavigate_fields _ _).2.1]; exact h
    · intro c hc
      rw [handleNavigate_calls] at hc
      have hn : sess.app.lenderData.isNone = false := by
        cases hd : sess.app.lenderData <;> simp_all
      rw [hn] at hc
      by_cases h1 : screen = Screen.improvement
      · simp only [h1, if_true] at hc
        split at hc
        · rw [List.mem_singleton] at hc; subst hc; rfl
        · cases hc
      · by_cases h2 : screen = Screen.lender
        · simp [h2] at hc
        · simp [h1, h2] at hc
  | improvementSettles o =>
    by_cases h0 : sess.improvementInFlight = 0
    · simp only [Session.step, h0, if_true]
      exact ⟨h, [], by simp, by simp⟩
    · simp only [Session.step, h0, if_false]
      refine ⟨?_, [], by simp, by simp⟩
      show (loadImprovementDataSettle _ _ _).1.lenderData.isSome = true
      rw [(loadImprovementDataSettle_fields _ _ _).2]; exact h
  | lenderSettles o =>
    by_cases h0 : sess.lenderInFlight = 0
    · simp only [Session.step, h0, if_true]
      exact ⟨h, [], by simp, by simp⟩
    · simp only [Session.step, h0, if_false]
      exact ⟨(loadLenderDataSettle_fields _ _ _).1 h, [], by simp, by simp⟩

theorem run_keeps_improvement (events : List Event) :
    ∀ sess : Session, sess.app.improvementData.isSome = true →
      (sess.run events).app.improvementData.isSome = true ∧
      ∃ new, (sess.run events).log = sess.log ++ new ∧
        ∀ c ∈ new, c.isImprovementPlan = false := by
  induction events with
  | nil => intro sess h; exact ⟨h, [], by simp [Session.run], by simp⟩
  | cons e es ih =>
    intro sess h
    obtain ⟨h1, n1, hl1, hn1⟩ := step_keeps_improvement sess e h
    obtain ⟨h2, n2, hl2, hn2⟩ := ih (sess.step e) h1
    refine ⟨h2, n1 ++ n2, ?_, ?_⟩
    · show ((sess.step e).run es).log = _
      rw [hl2, hl1, List.append_assoc]
    · intro c hc
      rcases List.mem_append.1 hc with hc | hc
      · exact hn1 c hc
      · exact hn2 c hc

theorem run_keeps_lender (events : List Event) :
    ∀ sess : Session, sess.app.lenderData.isSome = true →
      (sess.run events).app.lenderData.isSome = true ∧
      ∃ new, (sess.run events).log = sess.log ++ new ∧
        ∀ c ∈ new, c.isLenderView = false := by
  induction events with
  | nil => intro sess h; exact ⟨h, [], by simp [Session.run], by simp⟩
  | cons e es ih =>
    intro sess h
    obtain ⟨h1, n1, hl1, hn1⟩ := step_keeps_lender sess e h
    obtain ⟨h2, n2, hl2, hn2⟩ := ih (sess.step e) h1
    refine ⟨h2, n1 ++ n2, ?_, ?_⟩
    · show ((sess.step e).run es).log = _
      rw [hl2, hl1, List.append_assoc]
    · intro c hc
      rcases List.mem_append.1 hc with hc | hc
      · exact hn1 c hc
      · exact hn2 c hc

/-- C20, counterexample: the user `u1` opens the improvement screen, goes back to the
dashboard and opens the improvement screen again before the first response arrives.  After
the first two navigations one improvement-plan request is in flight and nothing is loaded;
the third navigation issues a second request for the same resource, so two are in flight. -/
theorem improvement_fetched_again_while_in_flight :
    (dashboardSession.run [Event.navigate Screen.improvement,
        Event.navigate Screen.dashboard]).improvementInFlight = 1 ∧
    (dashboardSession.run [Event.navigate Screen.improvement,
        Event.navigate Screen.dashboard]).app.improvementData = none ∧
    (handleNavigate (dashboardSession.run [Event.navigate Screen.improvement,
        Event.navigate Screen.dashboard]).app Screen.improvement).2 =
      [ApiCall.getImprovementPlan (some "u1".toList)] ∧
    (dashboardSession.run [Event.navigate Screen.improvement, Event.navigate Screen.dashboard,
        Event.navigate Screen.improvement]).log =
      [ApiCall.getImprovementPlan (some "u1".toList),
       ApiCall.getImprovementPlan (some "u1".toList)] ∧
    (dashboardSession.run [Event.navigate Screen.improvement, Event.navigate Screen.dashboard,
        Event.navigate Screen.improvement]).improvementInFlight = 2 := by
  refine ⟨rfl, rfl, rfl, rfl, rfl⟩

/-- C20, amended: lazy resources are cached once loaded, and not single-flight.  A
navigation issues a fetch of the improvement plan (respectively the lender view) exactly
when it goes to that screen with a user id set and the resource not yet loaded, whether or
not another fetch of it is in flight; and in every sequence of navigation events and
response arrivals that starts with the resource loaded, the resource stays loaded and no
fetch of it is issued. -/
theorem lazy_resources_cached_once_loaded (sess : Session) (events : List Event) :
    (∀ (s : AppState) (screen : Screen),
      (handleNavigate s screen).2 =
        if screen = Screen.improvement then
          (if truthy s.userId && s.improvementData.isNone then
            [ApiCall.getImprovementPlan s.userId] else [])
        else if screen = Screen.lender then
          (if truthy s.userId && s.lenderData.isNone then
            [ApiCall.getLenderView s.userId] else [])
        else []) ∧
    (sess.app.improvementData.isSome = true →
      (sess.run events).app.improvementData.isSome = true ∧
      ∃ new, (sess.run events).log = sess.log ++ new ∧
        ∀ c ∈ new, c.isImprovementPlan = false) ∧
    (sess.app.lenderData.isSome = true →
      (sess.run events).app.lenderData.isSome = true ∧
      ∃ new, (sess.run events).log = sess.log ++ new ∧
        ∀ c ∈ new, c.isLenderView = false) :=
  ⟨handleNavigate_calls, run_keeps_improvement events sess, run_keeps_lender events sess⟩

/-- C20, amended, at a concrete input: with the improvement plan loaded, opening the
improvement screen, the dashboard and the improvement screen again keeps it loaded. -/
theorem lazy_resources_cached_once_loaded_witness :
    loadedSession.app.improvementData.isSome = true ∧
    (loadedSession.run [Event.navigate Screen.improvement, Event.navigate Screen.dashboard,
        Event.navigate Screen.improvement]).app.improvementData.isSome = true :=
  ⟨rfl,
   ((lazy_resources_cached_once_loaded loadedSession
      [Event.navigate Screen.improvement, Event.navigate Screen.dashboard,
        Event.navigate Screen.improvement]).2.1 rfl).1⟩

/-- C21: logout is best-effort.  Whatever the outcome of the logout request (success, a
status outside 2xx, a body that is not JSON, a failed transport), after `handleLogout` the
stored token is absent, the screen is login, the session is unauthenticated, and the user
id, name, email, assessment data, profile, roadmap, improvement data and lender data are
reset to their empty values; the one request issued is the logout request. -/
theorem logout_resets_session (s : AppState) (w : World) (o : FetchOutcome Unit) :
    (handleLogout s w o).world.token = none ∧
    (handleLogout s w o).state.currentScreen = Screen.login ∧
    (handleLogout s w o).state.isAuthenticated = false ∧
    (handleLogout s w o).state.userId = none ∧
    (handleLogout s w o).state.userName = [] ∧
    (handleLogout s w o).state.userEmail = [] ∧
    (handleLogout s w o).state.userData = none ∧
    (handleLogout s w o).state.userProfile = none ∧
    (handleLogout s w o).state.roadmap = none ∧
    (handleLogout s w o).state.improvementData = none ∧
    (handleLogout s w o).state.lenderData = none ∧
    (handleLogout s w o).calls = [ApiCall.logout] ∧
    (handleLogout fullState loggedInWorld
        (FetchOutcome.failure 500 rfl (ErrorBody.object none))).state =
      { AppState.initial with isAuthenticated := false } ∧
    (handleLogout fullState loggedInWorld FetchOutcome.rejected).world.token = none := by
  refine ⟨?_, ?_, ?_, ?_, ?_, ?_, ?_, ?_, ?_, ?_, ?_, ?_, rfl, rfl⟩ <;>
    (rcases apiRequest_cases w o with ⟨_, d, e⟩ | ⟨_, err, w1, e⟩ <;>
      simp [handleLogout, api.logout, e, World.removeToken])

/-- C22: `apiRequest` returns the parsed body exactly when the response is 2xx and its
body is JSON, and throws an `APIError` in every other case.  For another status with a
body whose `detail` is a non-empty string the error has that detail as message and the
status of the response; with an empty or missing `detail` the message is
`An error occurred`; when the transport fails, or the body is not JSON, or the body is
`null`, the error is the generic network error with status 0. -/
theorem apiRequest_returns_iff_ok_json (α : Type) (w : World) (o : FetchOutcome α) :
    (∀ data, (apiRequest w o).1 = Except.ok data ↔
      ∃ status, ∃ h : responseOk status = true, o = FetchOutcome.success status h data) ∧
    (o.succeeds = false → ∃ err, (apiRequest w o).1 = Except.error err) ∧
    (∀ status h detail, detail ≠ [] →
      o = FetchOutcome.failure status h (ErrorBody.object (some detail)) →
      (apiRequest w o).1 = Except.error { message := detail, status := status }) ∧
    (∀ status h detail, (detail = none ∨ detail = some []) →
      o = FetchOutcome.failure status h (ErrorBody.object detail) →
      (apiRequest w o).1 =
        Except.error { message := "An error occurred".toList, status := status }) ∧
    ((o = FetchOutcome.rejected ∨ (∃ status, o = FetchOutcome.unparseable status) ∨
        (∃ status h, o = FetchOutcome.failure status h ErrorBody.null)) →
      (apiRequest w o).1 =
        Except.error
          { message := "Network error. Please check your connection.".toList, status := 0 }) := by
  refine ⟨?_, ?_, ?_, ?_, ?_⟩
  · intro data
    cases o with
    | rejected => simp [apiRequest]
    | unparseable status => simp [apiRequest]
    | failure status h body => cases body <;> simp [apiRequest]
    | success status h payload =>
      constructor
      · intro hd
        simp only [apiRequest, Except.ok.injEq] at hd
        subst hd
        exact ⟨status, h, rfl⟩
      · rintro ⟨st, h1, he⟩
        cases he
        rfl
  · intro hs
    rcases apiRequest_cases w o with ⟨h1, _⟩ | ⟨_, err, w1, e⟩
    · rw [hs] at h1; cases h1
    · exact ⟨err, by rw [e]⟩
  · intro status h detail hne ho
    subst ho
    cases detail with
    | nil => exact absurd rfl hne
    | cons c t => rfl
  · intro status h detail hd ho
    subst ho
    rcases hd with rfl | rfl <;> rfl
  · rintro (rfl | ⟨status, rfl⟩ | ⟨status, h, rfl⟩) <;> rfl

/-- C22 at a concrete input: a 404 response whose JSON body has the detail `Not found`
makes the request throw the error `Not found` with status 404. -/
theorem apiRequest_returns_iff_ok_json_witness :
    (apiRequest loggedInWorld
        (FetchOutcome.failure 404 rfl (ErrorBody.object (some "Not found".toList)) :
          FetchOutcome Profile)).1 =
      Except.error { message := "Not found".toList, status := 404 } :=
  (apiRequest_returns_iff_ok_json Profile loggedInWorld
    (FetchOutcome.failure 404 rfl (ErrorBody.object (some "Not found".toList)))).2.2.1
    404 rfl "Not found".toList (by decide) rfl

/-- The configuration for options without a `headers` property of their own. -/
theorem requestConfig_headers (w : World) (options : RequestOptions)
    (hown : options.headers = none) :
    (requestConfig w options).headers =
      match w.token with
      | some (c :: t) =>
        [("Content-Type".toList, "application/json".toList),
         ("Authorization".toList, "Bearer ".toList ++ c :: t)]
      | _ => [("Content-Type".toList, "application/json".toList)] := by
  unfold requestConfig requestHeaders
  rw [hown]
  cases hw : w.token with
  | none => rfl
  | some token =>
    cases token with
    | nil => rfl
    | cons c t => rfl

/-- Options with a `headers` property of their own would replace the headers that
`apiRequest` has built, `Authorization` included. -/
theorem requestConfig_own_headers :
    getProperty (requestHeaders loggedInWorld optionsWithHeaders) "Authorization".toList =
      some "Bearer token-1".toList ∧
    (requestConfig loggedInWorld optionsWithHeaders).headers =
      [("X-Request-Id".toList, "42".toList)] := by
  refine ⟨by decide, by decide⟩

/-- C23: for every call of `apiRequest` the program makes and, more generally, for every
options object without a `headers` property of its own (each of the eleven calls passes
such an object), the configuration handed to `fetch` carries the header
`Authorization: Bearer <token>` with exactly the stored token when a token is stored, and
no `Authorization` header when none is stored; `Content-Type: application/json` is carried
either way, and `method` and `body` are those of the options. -/
theorem authorization_attached_at_every_call (w : World) (options : RequestOptions)
    (hown : options.headers = none) :
    (∀ token, w.token = some token → token ≠ [] →
      getProperty (requestConfig w options).headers "Authorization".toList =
        some ("Bearer ".toList ++ token)) ∧
    (w.hasToken = false →
      getProperty (requestConfig w options).headers "Authorization".toList = none) ∧
    getProperty (requestConfig w options).headers "Content-Type".toList =
      some "application/json".toList ∧
    (requestConfig w options).method = options.method ∧
    (requestConfig w options).body = options.body ∧
    (∀ (site : CallSite) (json : Str), (site.options json).headers = none) := by
  have hh := requestConfig_headers w options hown
  refine ⟨?_, ?_, ?_, rfl, rfl, ?_⟩
  · intro token ht hne
    cases token with
    | nil => exact absurd rfl hne
    | cons c t =>
      rw [hh, ht]
      rfl
  · intro hno
    rw [hh]
    cases hw : w.token with
    | none => rfl
    | some token =>
      cases token with
      | nil => rfl
      | cons c t => simp [World.hasToken, truthy, hw] at hno
  · rw [hh]
    cases hw : w.token with
    | none => rfl
    | some token =>
      cases token with
      | nil => rfl
      | cons c t => rfl
  · intro site json
    cases site <;> rfl

/-- C23 at a concrete input: the call of `calculateScore` with the token `token-1` stored
carries `Authorization: Bearer token-1`. -/
theorem authorization_attached_at_every_call_witness :
    getProperty
      (requestConfig loggedInWorld
        (CallSite.calculateScore.options "\x7b\"user_id\":\"u1\"\x7d".toList)).headers
      "Authorization".toList = some "Bearer token-1".toList :=
  (authorization_attached_at_every_call loggedInWorld
    (CallSite.calculateScore.options "\x7b\"user_id\":\"u1\"\x7d".toList) rfl).1
    "token-1".toList rfl (by decide)

/-! ## The catalog and the texts about it -/

set_option maxRecDepth 100000 in
/-- C24: the rule catalog has exactly 12 rules with pairwise distinct ids; its categories
are exactly four, each with exactly three rules, listed group after group; and every
rule has a positive `maxPoints`. -/
theorem catalog_twelve_rules_four_categories :
    allRules.length = 12 ∧
    (allRules.map (fun r => r.id)).Nodup ∧
    (allRules.map (fun r => r.category)).dedup.length = 4 ∧
    (allRules.map (fun r => r.category)).dedup.all
      (fun c => decide ((allRules.filter (fun r => r.category == c)).length = 3)) = true ∧
    allRules.map (fun r => r.category) =
      (List.replicate 3 "Payment Discipline".toList ++
       List.replicate 3 "Financial Engagement".toList ++
       List.replicate 3 "Financial Stability".toList ++
       List.replicate 3 "Account Maturity".toList) ∧
    allRules.all (fun r => decide (0 < r.maxPoints)) = true := by
  refine ⟨by decide, by decide, by decide, by decide, by decide, by decide⟩

/-- C26, the code at the failing input: the `maxPoints` of the 12 catalog rules sum to
340, while the Assessment Methodology text states 360 (and the Rule Compliance Score of
the top score 900 is shown as 360 of 360). -/
theorem catalog_points_sum_differs_from_stated_total :
    (allRules.map (fun r => r.maxPoints)).sum = 340 ∧
    statedNumber assessmentMethodologyText = 360 ∧
    ruleComplianceScore 900 = 360 ∧
    (allRules.map (fun r => r.maxPoints)).sum ≠ statedNumber assessmentMethodologyText := by
  refine ⟨by decide, by decide, by decide, by decide⟩

theorem printedRange_labels :
    printedRange "Exceptional (850–900)".toList = (850, 900) ∧
    printedRange "Strong (700–849)".toList = (700, 849) ∧
    printedRange "Developing (550–699)".toList = (550, 699) ∧
    printedRange "Building (420–549)".toList = (420, 549) := by
  refine ⟨by decide, by decide, by decide, by decide⟩

/-- C27, the code at the failing input: the score 300 gets the label
`Building (420–549)`, whose printed range does not contain 300.  In general a score in
[300, 900] lies outside the range printed in its label exactly when it is below 420, so the
printed ranges are contiguous from 420 to 900 and leave out 300 to 419. -/
theorem building_label_range_omits_low_scores :
    bandLabel 300 = "Building (420–549)".toList ∧
    printedRange (bandLabel 300) = (420, 549) ∧
    ¬ (((printedRange (bandLabel 300)).1 : Int) ≤ 300) ∧
    (∀ s : Int,
      (300 ≤ s ∧ s ≤ 900 ∧
        ¬ (((printedRange (bandLabel s)).1 : Int) ≤ s ∧
            s ≤ ((printedRange (bandLabel s)).2 : Int))) ↔
      (300 ≤ s ∧ s < 420)) := by
  obtain ⟨he, hs, hd, hb⟩ := printedRange_labels
  refine ⟨by decide, by decide, by decide, ?_⟩
  intro s
  unfold bandLabel
  by_cases h1 : s ≥ 850
  · rw [if_pos h1, he]
    simp only [Nat.cast_ofNat]
    omega
  · rw [if_neg h1]
    by_cases h2 : s ≥ 700
    · rw [if_pos h2, hs]
      simp only [Nat.cast_ofNat]
      omega
    · rw [if_neg h2]
      by_cases h3 : s ≥ 550
      · rw [if_pos h3, hd]
        simp only [Nat.cast_ofNat]
        omega
      · rw [if_neg h3, hb]
        simp only [Nat.cast_ofNat]
        omega

theorem orNumber_eq (n : Option Nat) (fallback : Nat) :
    orNumber n fallback = if n = none ∨ n = some 0 then fallback else n.getD 0 := by
  cases n with
  | none => simp [orNumber]
  | some k => cases k <;> simp [orNumber]

/-- C28, the code at the failing input: for a factor list with one negative factor and no
positive or neutral one, the summary shows 10 rules fully satisfied and 2 partially
satisfied, where the list has none of either.  In general each shown count is the number of
factors of its type when that number is not 0, and for the number 0 it is the fallback of
its line: 10, 2 and 0; so only the count of rules not met always equals the number of
negative factors. -/
theorem summary_counts_fall_back_at_zero :
    rulesFullySatisfied (some [decimalPercentFactor]) = 10 ∧
    rulesPartiallySatisfied (some [decimalPercentFactor]) = 2 ∧
    rulesNotMet (some [decimalPercentFactor]) = 1 ∧
    ([decimalPercentFactor].filter (fun f => decide (f.type = FactorType.positive))).length = 0 ∧
    ([decimalPercentFactor].filter (fun f => decide (f.type = FactorType.neutral))).length = 0 ∧
    (∀ factors : List Factor,
      rulesFullySatisfied (some factors) =
        (if (factors.filter (fun f => decide (f.type = FactorType.positive))).length = 0
         then 10
         else (factors.filter (fun f => decide (f.type = FactorType.positive))).length) ∧
      rulesPartiallySatisfied (some factors) =
        (if (factors.filter (fun f => decide (f.type = FactorType.neutral))).length = 0
         then 2
         else (factors.filter (fun f => decide (f.type = FactorType.neutral))).length) ∧
      rulesNotMet (some factors) =
        (factors.filter (fun f => decide (f.type = FactorType.negative))).length) := by
  refine ⟨by decide, by decide, by decide, by decide, by decide, ?_⟩
  intro factors
  refine ⟨?_, ?_, ?_⟩
  · simp only [rulesFullySatisfied, countOfType, orNumber_eq, Option.map_some']
    by_cases h : (factors.filter (fun f => decide (f.type = FactorType.positive))).length = 0
    · simp [h]
    · simp [h]
  · simp only [rulesPartiallySatisfied, countOfType, orNumber_eq, Option.map_some']
    by_cases h : (factors.filter (fun f => decide (f.type = FactorType.neutral))).length = 0
    · simp [h]
    · simp [h]
  · simp only [rulesNotMet, countOfType, orNumber_eq, Option.map_some']
    by_cases h : (factors.filter (fun f => decide (f.type = FactorType.negative))).length = 0
    · simp [h]
    · simp [h]

/-- C29, the code at the failing input: the login request succeeds with the token
`token-1` and the profile fetch that follows fails with status 500.  After `handleLogin`
the session is authenticated and the token is stored, although no profile is stored; the
screen is still login and the error message is stored.  A click on the logo then enters
the dashboard: an authenticated session without a profile.  The start-up check, on the
same failure of the profile fetch, leaves the session unauthenticated and removes the
token. -/
theorem login_profile_failure_stays_authenticated :
    (handleLogin AppState.initial loggedOutWorld (FetchOutcome.success 200 rfl sampleAuth)
      (FetchOutcome.failure 500 rfl
        (ErrorBody.object (some "Internal Server Error".toList)))).state.isAuthenticated =
      true ∧
    (handleLogin AppState.initial loggedOutWorld (FetchOutcome.success 200 rfl sampleAuth)
      (FetchOutcome.failure 500 rfl
        (ErrorBody.object (some "Internal Server Error".toList)))).world.token =
      some "token-1".toList ∧
    (handleLogin AppState.initial loggedOutWorld (FetchOutcome.success 200 rfl sampleAuth)
      (FetchOutcome.failure 500 rfl
        (ErrorBody.object (some "Internal Server Error".toList)))).state.userProfile = none ∧
    (handleLogin AppState.initial loggedOutWorld (FetchOutcome.success 200 rfl sampleAuth)
      (FetchOutcome.failure 500 rfl
        (ErrorBody.object (some "Internal Server Error".toList)))).state.currentScreen =
      Screen.login ∧
    (handleLogin AppState.initial loggedOutWorld (FetchOutcome.success 200 rfl sampleAuth)
      (FetchOutcome.failure 500 rfl
        (ErrorBody.object (some "Internal Server Error".toList)))).state.error =
      some "Internal Server Error".toList ∧
    (handleLogoClick
      (handleLogin AppState.initial loggedOutWorld (FetchOutcome.success 200 rfl sampleAuth)
        (FetchOutcome.failure 500 rfl
          (ErrorBody.object (some "Internal Server Error".toList)))).state).1.currentScreen =
      Screen.dashboard ∧
    (handleLogoClick
      (handleLogin AppState.initial loggedOutWorld (FetchOutcome.success 200 rfl sampleAuth)
        (FetchOutcome.failure 500 rfl
          (ErrorBody.object (some "Internal Server Error".toList)))).state).1.userProfile =
      none ∧
    (checkAuth AppState.initial loggedInWorld
      (FetchOutcome.failure 500 rfl
        (ErrorBody.object (some "Internal Server Error".toList)))).state.isAuthenticated =
      false ∧
    (checkAuth AppState.initial loggedInWorld
      (FetchOutcome.failure 500 rfl
        (ErrorBody.object (some "Internal Server Error".toList)))).world.token = none ∧
    (∀ (s : AppState) (w : World) (o2 : FetchOutcome Profile),
      (handleLogin s w FetchOutcome.rejected o2).state.isAuthenticated = s.isAuthenticated ∧
      (handleLogin s w FetchOutcome.rejected o2).world = w ∧
      (handleLogin s w FetchOutcome.rejected o2).state.currentScreen = s.currentScreen ∧
      (handleLogin s w FetchOutcome.rejected o2).state.error =
        some "Network error. Please check your connection.".toList) := by
  refine ⟨rfl, rfl, rfl, rfl, rfl, rfl, rfl, rfl, rfl, ?_⟩
  intro s w o2
  exact ⟨rfl, rfl, rfl, rfl⟩

/-! ## The random source of the rule cards -/

/-- In a render of the rule cards the records are those of the reconciliation, whatever
values `Math.random()` returns and however many it has returned before: the random values
reach the line `Your Score` only. -/
theorem renderRuleCards_cards (factors : List Factor) (draws : Nat → Nat) :
    ∀ (catalog : List RuleDefinition) (used : Nat),
      (renderRuleCards factors draws used catalog).map (fun c => c.card) =
        reconcile catalog factors := by
  intro catalog
  induction catalog with
  | nil => intro used; rfl
  | cons rule rest ih =>
    intro used
    have hcard : (renderRuleCard factors draws used rule).1.card = ruleCard factors rule := by
      simp only [renderRuleCard]
      by_cases h : (ruleCard factors rule).isEvaluated = true
      · rw [if_pos h]
      · rw [if_neg h]
    simp only [renderRuleCards, List.map_cons, hcard, ih, reconcile]

/-! ## The second pattern family of the extractor -/

theorem asciiUpper_eq_percent (p : Char) (h : asciiUpper p = '%') : p = '%' := by
  unfold asciiUpper at h
  split at h
  · rename_i hr
    exfalso
    have h2 := congrArg Char.toNat h
    obtain ⟨h3, h4⟩ := hr
    generalize p.toNat = n at h2 h3 h4
    interval_cases n <;> revert h2 <;> decide
  · exact h

theorem first_ne_nil {ic : Bool} {r : Re} {s rest : Str} {caps : List Str}
    (h : r.First ic s caps rest) : r.run ic s ≠ [] := by
  obtain ⟨tl, h⟩ := h
  rw [h]
  exact List.cons_ne_nil _ _

theorem first_star_of_nil {ic : Bool} {a : Re} {s : Str} (h : a.run ic s = []) :
    (Re.star a).First ic s [] s := by
  refine ⟨[], ?_⟩
  rw [run_star]
  cases hl : s.length with
  | zero => rfl
  | succ n => rw [starAux_succ, h]; rfl

theorem first_alt_left {ic : Bool} {a : Re} (b : Re) {s rest : Str} {caps : List Str}
    (h : a.First ic s caps rest) : (Re.alt a b).First ic s caps rest := by
  obtain ⟨tl, h⟩ := h
  exact ⟨tl ++ b.run ic s, by rw [run_alt, h]; rfl⟩

theorem first_alt_right {ic : Bool} {a b : Re} {s rest : Str} {caps : List Str}
    (ha : a.run ic s = []) (h : b.First ic s caps rest) :
    (Re.alt a b).First ic s caps rest := by
  obtain ⟨tl, h⟩ := h
  exact ⟨tl, by rw [run_alt, ha, h]; rfl⟩

/-- The first pattern matches at a digit that stands right before a percent sign. -/
theorem pattern1_at_digit_percent (c : Char) (rest : Str) (hc : isDigit c = true) :
    pattern1.run true (c :: '%' :: rest) ≠ [] := by
  have hplus : (Re.plus (Re.cls isDigit)).First true (c :: '%' :: rest) [] ('%' :: rest) :=
    first_plus_cls true isDigit c ('%' :: rest) hc
  have hgroups :
      (Re.star (Re.cat [.chr ',', .cls isDigit, .cls isDigit, .cls isDigit])).First true
        ('%' :: rest) [] ('%' :: rest) :=
    first_star_of_nil (run_seq_nil _ rfl)
  have hdec :
      (Re.opt (.seq (.chr '.') (.plus (.cls isDigit)))).First true
        ('%' :: rest) [] ('%' :: rest) :=
    first_alt_right (run_seq_nil _ rfl) (first_eps true _)
  have hnum : numberRe.First true (c :: '%' :: rest) _ ('%' :: rest) :=
    first_seq hplus (first_seq hgroups (first_seq hdec (first_eps true _)))
  have hws : (Re.star (Re.cls isWhiteSpace)).First true ('%' :: rest) [] ('%' :: rest) :=
    first_star_cls true isWhiteSpace ('%' :: rest)
  have hunit : unitRe.First true ('%' :: rest) [] rest :=
    first_alt_right (run_seq_nil _ (run_lit_fold_nil _ _ rfl))
      (first_alt_right (run_seq_nil _ (run_lit_fold_nil _ _ rfl))
        (first_alt_right (run_seq_nil _ (run_lit_fold_nil _ _ rfl))
          (first_alt_left _ (first_chr_fold '%' '%' rest rfl))))
  have hp : pattern1.First true (c :: '%' :: rest) _ rest :=
    first_seq (first_grp hnum) (first_seq hws (first_seq (first_grp hunit) (first_eps true _)))
  exact first_ne_nil hp

theorem mem_run_seq {ic : Bool} {a b : Re} {s : Str} {m : List Str × Str}
    (h : m ∈ (Re.seq a b).run ic s) :
    ∃ m1, m1 ∈ a.run ic s ∧ ∃ m2, m2 ∈ b.run ic m1.2 ∧ m.2 = m2.2 := by
  rw [run_seq, List.mem_flatMap] at h
  obtain ⟨m1, h1, h2⟩ := h
  rw [List.mem_map] at h2
  obtain ⟨m2, h3, h4⟩ := h2
  exact ⟨m1, h1, m2, h3, by rw [← h4]⟩

theorem mem_run_cls {ic : Bool} {p : Char → Bool} {s : Str} {m : List Str × Str}
    (h : m ∈ (Re.cls p).run ic s) : ∃ d, s = d :: m.2 ∧ p d = true := by
  cases s with
  | nil => simp [run_cls_nil] at h
  | cons d t =>
    rw [run_cls_cons] at h
    by_cases hp : p d = true
    · rw [if_pos hp, List.mem_singleton] at h
      exact ⟨d, by rw [h], hp⟩
    · rw [if_neg hp] at h
      cases h

theorem mem_run_chr_fold {c : Char} {s : Str} {m : List Str × Str}
    (h : m ∈ (Re.chr c).run true s) : ∃ d, s = d :: m.2 ∧ asciiUpper d = asciiUpper c := by
  cases s with
  | nil => simp [run_chr_nil] at h
  | cons d t =>
    rw [run_chr_cons] at h
    by_cases hp : (asciiUpper d == asciiUpper c) = true
    · simp only [if_true, hp, List.mem_singleton] at h
      exact ⟨d, by rw [h], by simpa using hp⟩
    · simp only [if_true, hp] at h
      cases h

theorem starAux_cls_taken (ic : Bool) (p : Char → Bool) :
    ∀ fuel s m, m ∈ starAux ((Re.cls p).run ic) fuel s →
      ∃ ds, s = ds ++ m.2 ∧ ∀ c ∈ ds, p c = true := by
  intro fuel
  induction fuel with
  | zero =>
    intro s m hm
    simp only [starAux, List.mem_singleton] at hm
    subst hm
    exact ⟨[], rfl, by simp⟩
  | succ n ih =>
    intro s m hm
    rw [starAux_succ, List.mem_append, List.mem_flatMap] at hm
    rcases hm with ⟨a, ha, hma⟩ | hm
    · obtain ⟨d, hs, hd⟩ := mem_run_cls (List.mem_filter.1 ha).1
      obtain ⟨ds, hds, hall⟩ := ih _ _ hma
      refine ⟨d :: ds, ?_, ?_⟩
      · rw [hs, List.cons_append, ← hds]
      · intro c hc
        rcases List.mem_cons.1 hc with rfl | hc
        · exact hd
        · exact hall c hc
    · rw [List.mem_singleton] at hm
      subst hm
      exact ⟨[], rfl, by simp⟩

/-- A match of `\d+` ends in a digit. -/
theorem run_plus_digit_last {ic : Bool} {s : Str} {m : List Str × Str}
    (h : m ∈ (Re.plus (Re.cls isDigit)).run ic s) :
    ∃ pre c, s = pre ++ c :: m.2 ∧ isDigit c = true := by
  obtain ⟨m1, h1, m2, h2, he⟩ := mem_run_seq h
  obtain ⟨d, hs, hd⟩ := mem_run_cls h1
  rw [run_star] at h2
  obtain ⟨ds, hds, hall⟩ := starAux_cls_taken ic isDigit _ _ _ h2
  rw [he]
  rcases List.eq_nil_or_concat ds with rfl | ⟨ds1, c, rfl⟩
  · refine ⟨[], d, ?_, hd⟩
    rw [hs, hds]; rfl
  · refine ⟨d :: ds1, c, ?_, hall c (by simp)⟩
    rw [hs, hds]; simp

/-- A match of the second pattern holds a digit right before a percent sign. -/
theorem pattern2_match_has_digit_percent (t : Str) (h : pattern2.run true t ≠ []) :
    ∃ pre c rest, t = pre ++ c :: '%' :: rest ∧ isDigit c = true := by
  obtain ⟨m0, hm0⟩ := List.exists_mem_of_ne_nil _ h
  unfold pattern2 at hm0
  rw [run_grp, List.mem_map] at hm0
  obtain ⟨m, hm, _⟩ := hm0
  obtain ⟨m1, h1, m2, h2, _⟩ := mem_run_seq hm
  obtain ⟨pre, c, hs, hc⟩ := run_plus_digit_last h1
  obtain ⟨m3, h3, m4, h4, _⟩ := mem_run_seq h2
  obtain ⟨m5, h5, _, _, _⟩ := mem_run_seq h4
  obtain ⟨p, hp, hpe⟩ := mem_run_chr_fold h5
  have hp2 : p = '%' := asciiUpper_eq_percent p hpe
  subst hp2
  -- the optional decimals end in a digit as well
  unfold Re.opt at h3
  rw [run_alt, List.mem_append] at h3
  rcases h3 with h3 | h3
  · obtain ⟨m6, h6, m7, h7, he7⟩ := mem_run_seq h3
    obtain ⟨x, hx, _⟩ := mem_run_chr_fold h6
    obtain ⟨pre2, c2, hs2, hc2⟩ := run_plus_digit_last h7
    refine ⟨pre ++ c :: x :: pre2, c2, m5.2, ?_, hc2⟩
    rw [hs, hx, hs2, ← he7, hp]
    simp
  · rw [run_eps, List.mem_singleton] at h3
    refine ⟨pre, c, m5.2, ?_, hc⟩
    rw [hs, ← hp, h3]

/-- Where the second pattern matches somewhere in a text, so does the first. -/
theorem pattern1_matches_where_pattern2 (d : Str)
    (h : ∃ t, t <:+ d ∧ MatchesAt true pattern2 t) :
    ∃ t, t <:+ d ∧ MatchesAt true pattern1 t := by
  obtain ⟨t, ht, hm⟩ := h
  obtain ⟨pre, c, rest, hs, hc⟩ := pattern2_match_has_digit_percent t hm
  refine ⟨c :: '%' :: rest, ?_, pattern1_at_digit_percent c rest hc⟩
  exact (List.suffix_append pre _).trans (hs ▸ ht)

theorem pattern2_nowhere_of_pattern1 (d : Str) (h : MatchesNowhere true pattern1 d) :
    MatchesNowhere true pattern2 d := by
  intro t ht
  by_contra hne
  obtain ⟨t1, ht1, hm1⟩ := pattern1_matches_where_pattern2 d ⟨t, ht, hne⟩
  exact hm1 (h t1 ht1)

theorem extractDataValueWithoutSecond_eq (d : Str) :
    extractDataValueWithoutSecond d = extractDataValue d := by
  unfold extractDataValueWithoutSecond
  rw [extractDataValue_eq, extractLoop_cons d pattern1 _ (by decide),
    extractLoop_cons d pattern3 _ (by decide)]
  cases he : pattern1.exec true d with
  | some l =>
    cases l with
    | nil => exact absurd he (exec_ne_nil true pattern1 d)
    | cons m0 caps => rfl
  | none =>
    have h2 : pattern2.exec true d = none :=
      (exec_none true pattern2 d).2
        (pattern2_nowhere_of_pattern1 d ((exec_none true pattern1 d).1 he))
    simp only [h2]
    rfl

set_option maxRecDepth 100000 in
/-- C30: the second pattern family of `extractDataValue`, the bare percentage, never
decides the result.  In every text in which the bare-percentage pattern matches somewhere,
the first pattern matches somewhere as well, and the first pattern matching nowhere makes
the second match nowhere; so the extractor with the second family removed returns the same
result as `extractDataValue` on every text, for instance `72.5%` on `Your Value: 72.5%`. -/
theorem second_family_never_decides (d : Str) :
    ((∃ t, t <:+ d ∧ MatchesAt true pattern2 t) → ∃ t, t <:+ d ∧ MatchesAt true pattern1 t) ∧
    (MatchesNowhere true pattern1 d → MatchesNowhere true pattern2 d) ∧
    extractDataValueWithoutSecond d = extractDataValue d ∧
    extractDataValueWithoutSecond "Your Value: 72.5%".toList = some "72.5%".toList :=
  ⟨pattern1_matches_where_pattern2 d, pattern2_nowhere_of_pattern1 d,
    extractDataValueWithoutSecond_eq d, by decide⟩

set_option maxRecDepth 100000 in
/-- C30 at a concrete input: in `Savings growth of 15%` the second pattern matches at
`15%`, and so the first pattern matches somewhere in it. -/
theorem second_family_never_decides_witness :
    (∃ t, t <:+ "Savings growth of 15%".toList ∧ MatchesAt true pattern2 t) ∧
    (∃ t, t <:+ "Savings growth of 15%".toList ∧ MatchesAt true pattern1 t) :=
  ⟨⟨"15%".toList, by decide, by unfold MatchesAt; decide⟩,
   (second_family_never_decides "Savings growth of 15%".toList).1
     ⟨"15%".toList, by decide, by unfold MatchesAt; decide⟩⟩

end Nexis
